import Mathlib

/-!
Shallow embedding of the projection and label-placement engine of a vector-tile
map renderer (dual flat/spherical projection, quadtree tile-coverage search,
spherical clipping plane, GPU error-measurement loop, and line-following label
placement), together with proofs of the specification claims C1-C10.

JavaScript `number` arithmetic is modelled with exact rationals.  Square roots
and inverse trigonometry, which do not stay rational, are passed in as explicit
function parameters (so every definition stays computable); theorems that need
genuine square-root behaviour state it as hypotheses that the real square root
satisfies, and witnesses instantiate the parameter with an exact rational
square root.
-/

namespace MaplibreProof

/-- clamp from projection_manager.ts: Math.min(Math.max(a, min), max). -/
def clampQ (a lo hi : ℚ) : ℚ := min (max a lo) hi

/-- lerp from projection_manager.ts. -/
def lerpQ (a b mix : ℚ) : ℚ := a * (1 - mix) + b * mix

/-- smoothStep from projection_manager.ts (the GLSL smoothstep definition). -/
def smoothStep (edge0 edge1 x : ℚ) : ℚ :=
  let t := clampQ ((x - edge0) / (edge1 - edge0)) 0 1
  t * t * (3 - 2 * t)

/-- Module-level constant of projection_manager.ts. -/
def globeTransitionTimeSeconds : ℚ := 0.5

/-- Module-level constant of projection_manager.ts. -/
def zoomTransitionTimeSeconds : ℚ := 0.5

/-- Module-level constant of projection_manager.ts. -/
def maxGlobeZoom : ℚ := 12.0

/-- Module-level constant of projection_manager.ts. -/
def errorTransitionTimeSeconds : ℚ := 0.5

/-! ## Globe transition animation (ProjectionManager._updateAnimation) -/

/-- The fields of ProjectionManager that `_updateAnimation` reads and writes. -/
structure AnimState where
  lastGlobeStateEnabled : Bool
  lastGlobeChangeTime : ℚ
  lastLargeZoomStateChange : ℚ
  lastLargeZoomState : Bool
  skipNextAnimation : Bool
  globeness : ℚ
  deriving Repr, DecidableEq

/-- Per-call inputs of `_updateAnimation`: the map's globe-enabled flag
(`this._isGlobeEnabled()`), `browser.now()` and `transform.zoom`. -/
structure AnimInput where
  globeEnabled : Bool
  now : ℚ
  zoom : ℚ
  deriving Repr, DecidableEq

/-- ProjectionManager._updateAnimation, translated statement by statement. -/
def updateAnimation (s : AnimState) (inp : AnimInput) : AnimState :=
  let globeState := inp.globeEnabled
  let currentTime := inp.now
  let s1 :=
    if globeState ≠ s.lastGlobeStateEnabled then
      { s with lastGlobeChangeTime := currentTime, lastGlobeStateEnabled := globeState }
    else s
  let globeTransition :=
    min (max ((currentTime - s1.lastGlobeChangeTime) / 1000 / globeTransitionTimeSeconds) 0) 1
  let g1 := if globeState then globeTransition else 1 - globeTransition
  let gs2 :=
    if s1.skipNextAnimation then
      ((if globeState then (1 : ℚ) else 0),
        { s1 with
          lastGlobeChangeTime := currentTime - globeTransitionTimeSeconds * 1000 * 2,
          skipNextAnimation := false })
    else (g1, s1)
  let g2 := gs2.1
  let s2 := gs2.2
  let currentZoomState : Bool := decide (inp.zoom ≥ maxGlobeZoom)
  let s3 :=
    if currentZoomState ≠ s2.lastLargeZoomState then
      { s2 with lastLargeZoomState := currentZoomState, lastLargeZoomStateChange := currentTime }
    else s2
  let zoomTransition :=
    min (max ((currentTime - s3.lastLargeZoomStateChange) / 1000 / zoomTransitionTimeSeconds) 0) 1
  let zoomGlobenessBound := if currentZoomState then 1 - zoomTransition else zoomTransition
  let g3 := min g2 zoomGlobenessBound
  { s3 with globeness := smoothStep 0 1 g3 }

/-- The zoom side of the transition permits full globeness during this update:
zoom is below the flattening threshold, the large-zoom flag already agreed (so
the zoom timestamp is not reset this frame), and the zoom transition that may
have been running has already saturated. -/
def zoomPermitsGlobe (s : AnimState) (inp : AnimInput) : Prop :=
  inp.zoom < maxGlobeZoom ∧ s.lastLargeZoomState = false ∧
    zoomTransitionTimeSeconds * 1000 ≤ inp.now - s.lastLargeZoomStateChange

instance (s : AnimState) (inp : AnimInput) : Decidable (zoomPermitsGlobe s inp) := by
  unfold zoomPermitsGlobe; infer_instance

/-! ## GPU error measurement loop (ProjectionErrorMeasurement) -/

/-- parseRGBA8float from projection_manager.ts.  The four bytes of the 1x1
RGBA8 read-back pixel. -/
def parseRGBA8float (b0 b1 b2 b3 : ℕ) : ℚ :=
  let result : ℚ := 0
  let result := result + (b0 : ℚ) / 256
  let result := result + (b1 : ℚ) / 65536
  let result := result + (b2 : ℚ) / 16777216
  let result := if (b3 : ℚ) < 127 then -result else result
  result / 128

/-- ProjectionErrorMeasurement._readbackWaitFrames. -/
def readbackWaitFrames : ℤ := 4

/-- ProjectionErrorMeasurement._measureWaitFrames. -/
def measureWaitFrames : ℤ := 4

/-- ProjectionErrorMeasurement._ringBufferSize. -/
def ringBufferSize : ℕ := 2

/-- The `_readbackQueue` record (the `sync` object is external GL state and is
represented by the oracle input instead). -/
structure ReadbackQueueEntry where
  readbackIndex : ℕ
  frameNumberIssued : ℤ
  deriving Repr, DecidableEq

/-- The mutable fields of ProjectionErrorMeasurement that drive the loop. -/
structure ErrState where
  updateCount : ℤ
  lastReadbackFrame : ℤ
  measuredError : ℚ
  nextPboIndex : ℕ
  readbackQueue : Option ReadbackQueueEntry
  deriving Repr, DecidableEq

/-- Result of `gl.clientWaitSync` plus the bytes the GPU would deliver. -/
inductive GpuWait where
  | waitFailed
  | timeoutExpired
  | ready (b0 b1 b2 b3 : ℕ)
  deriving Repr, DecidableEq

/-- Per-frame external inputs: whether the WebGL2 path is available, the fence
poll outcome, and the bytes a blocking WebGL1 readPixels would return. -/
structure ErrInput where
  webgl2 : Bool
  wait : GpuWait
  p0 : ℕ
  p1 : ℕ
  p2 : ℕ
  p3 : ℕ
  deriving Repr, DecidableEq

/-- ProjectionErrorMeasurement._tryReadback (state part).  The WebGL2 branch
polls the fence; the WebGL1 branch does a blocking readPixels and always
completes. -/
def tryReadback (s : ErrState) (inp : ErrInput) : ErrState :=
  if inp.webgl2 then
    match inp.wait with
    | .waitFailed =>
        { s with readbackQueue := none, lastReadbackFrame := s.updateCount }
    | .timeoutExpired => s
    | .ready b0 b1 b2 b3 =>
        { s with
          readbackQueue := none,
          measuredError := parseRGBA8float b0 b1 b2 b3,
          lastReadbackFrame := s.updateCount }
  else
    { s with
      readbackQueue := none,
      measuredError := parseRGBA8float inp.p0 inp.p1 inp.p2 inp.p3,
      lastReadbackFrame := s.updateCount }

/-- ProjectionErrorMeasurement._renderErrorTexture (state part: the draw call
itself is external; what matters is the read-back it enqueues). -/
def renderErrorTexture (s : ErrState) (inp : ErrInput) : ErrState :=
  if inp.webgl2 then
    { s with
      readbackQueue := some ⟨s.nextPboIndex, s.updateCount⟩,
      nextPboIndex := (s.nextPboIndex + 1) % ringBufferSize }
  else
    { s with readbackQueue := some ⟨0, s.updateCount⟩ }

/-- ProjectionErrorMeasurement.updateErrorLoop, translated statement by
statement; returns the new state and the returned `_measuredError`. -/
def updateErrorLoop (s : ErrState) (inp : ErrInput) : ErrState × ℚ :=
  let currentFrame := s.updateCount
  let s1 :=
    match s.readbackQueue with
    | some q =>
        if currentFrame ≥ q.frameNumberIssued + readbackWaitFrames then
          tryReadback s inp
        else s
    | none =>
        if currentFrame ≥ s.lastReadbackFrame + measureWaitFrames then
          renderErrorTexture s inp
        else s
  ({ s1 with updateCount := s1.updateCount + 1 }, s1.measuredError)

/-! ## isRenderingDirty (ProjectionManager) -/

/-- The fields of ProjectionManager that `isRenderingDirty` reads.  The
read-back queue of the embedded ProjectionErrorMeasurement backs the
`awaitingQuery` getter. -/
structure DirtyState where
  lastGlobeChangeTime : ℚ
  errorMeasurementLastChangeTime : ℚ
  readbackQueue : Option ReadbackQueueEntry
  deriving Repr, DecidableEq

/-- ProjectionManager.isRenderingDirty, translated statement by statement
(`awaitingQuery` is `!!this._readbackQueue`). -/
def isRenderingDirty (s : DirtyState) (now : ℚ) : Bool :=
  let dirty := false
  let dirty := dirty ||
    decide ((now - s.lastGlobeChangeTime) / 1000 <
      max globeTransitionTimeSeconds zoomTransitionTimeSeconds + 0.2)
  let dirty := dirty ||
    decide ((now - s.errorMeasurementLastChangeTime) / 1000 <
      errorTransitionTimeSeconds + 0.2)
  let dirty := dirty || s.readbackQueue.isSome
  dirty

/-- A globe enable/disable transition is still easing: the transition
parameter of `_updateAnimation` has not yet saturated at 1. -/
def globeToggleTransitionInProgress (lastGlobeChangeTime now : ℚ) : Prop :=
  (now - lastGlobeChangeTime) / 1000 < globeTransitionTimeSeconds

/-- A zoom-threshold transition is still easing: the zoom transition
parameter of `_updateAnimation` has not yet saturated at 1. -/
def zoomTransitionInProgress (lastLargeZoomStateChange now : ℚ) : Prop :=
  (now - lastLargeZoomStateChange) / 1000 < zoomTransitionTimeSeconds

/-- The error-correction smoothing of `updateGPUdependent` is still easing:
its interpolation mix has not yet saturated at 1. -/
def errorTransitionInProgress (errorMeasurementLastChangeTime now : ℚ) : Prop :=
  (now - errorMeasurementLastChangeTime) / 1000 < errorTransitionTimeSeconds

instance (a b : ℚ) : Decidable (globeToggleTransitionInProgress a b) := by
  unfold globeToggleTransitionInProgress; infer_instance

instance (a b : ℚ) : Decidable (zoomTransitionInProgress a b) := by
  unfold zoomTransitionInProgress; infer_instance

instance (a b : ℚ) : Decidable (errorTransitionInProgress a b) := by
  unfold errorTransitionInProgress; infer_instance

/-! ## Clipping plane (GlobeTransform._computeClippingPlane) -/

/-- A 3-component vector of rationals. -/
structure Vec3 where
  x : ℚ
  y : ℚ
  z : ℚ
  deriving Repr, DecidableEq

/-- gl-matrix vec3.rotateZ about the origin, with the sine and cosine of the
rotation angle passed in. -/
def rotZ (s c : ℚ) (v : Vec3) : Vec3 :=
  ⟨v.x * c - v.y * s, v.x * s + v.y * c, v.z⟩

/-- gl-matrix vec3.rotateX about the origin. -/
def rotX (s c : ℚ) (v : Vec3) : Vec3 :=
  ⟨v.x, v.y * c - v.z * s, v.y * s + v.z * c⟩

/-- gl-matrix vec3.rotateY about the origin. -/
def rotY (s c : ℚ) (v : Vec3) : Vec3 :=
  ⟨v.z * s + v.x * c, v.y, v.z * c - v.x * s⟩

/-- Inputs of `_computeClippingPlane`: the sines and cosines of pitch, bearing
(`this.angle`), center latitude and longitude (radians), the ratio
`cameraToCenterDistance / globeRadiusPixels`, and the square-root function. -/
structure ClippingPlaneInputs where
  sqrtFn : ℚ → ℚ
  sinPitch : ℚ
  cosPitch : ℚ
  distanceCameraToB : ℚ
  sinAngle : ℚ
  cosAngle : ℚ
  sinLat : ℚ
  cosLat : ℚ
  sinLng : ℚ
  cosLng : ℚ

/-- GlobeTransform._computeClippingPlane, translated statement by statement.
Returns the plane normal (already scaled by 0.25) and the plane constant. -/
def computeClippingPlane (i : ClippingPlaneInputs) : Vec3 × ℚ :=
  let radius : ℚ := 1
  let distanceCameraToA := i.sinPitch * i.distanceCameraToB
  let distanceAtoC := i.cosPitch * i.distanceCameraToB + radius
  let distanceCameraToC :=
    i.sqrtFn (distanceCameraToA * distanceCameraToA + distanceAtoC * distanceAtoC)
  let camCTcosine := radius / distanceCameraToC
  let tangentPlaneDistanceToC := camCTcosine * radius
  let vectorCtoCamX := -distanceCameraToA
  let vectorCtoCamY := distanceAtoC
  let vectorCtoCamLength :=
    i.sqrtFn (vectorCtoCamX * vectorCtoCamX + vectorCtoCamY * vectorCtoCamY)
  let vectorCtoCamX := vectorCtoCamX / vectorCtoCamLength
  let vectorCtoCamY := vectorCtoCamY / vectorCtoCamLength
  let planeVector : Vec3 := ⟨0, vectorCtoCamX, vectorCtoCamY⟩
  let planeVector := rotZ i.sinAngle i.cosAngle planeVector
  let planeVector := rotX (-i.sinLat) i.cosLat planeVector
  let planeVector := rotY i.sinLng i.cosLng planeVector
  let scale : ℚ := 0.25
  let planeVector : Vec3 :=
    ⟨planeVector.x * scale, planeVector.y * scale, planeVector.z * scale⟩
  (planeVector, -tangentPlaneDistanceToC * scale)

/-- Evaluation of the plane equation at a point:
`dot(position on sphere, occlusion plane equation)` as in `isOccluded`. -/
def planeEval (n : Vec3) (d : ℚ) (p : Vec3) : ℚ :=
  n.x * p.x + n.y * p.y + n.z * p.z + d

/-- GlobeTransform._angularCoordinatesToVector, with the sines and cosines of
the angular coordinates passed in: `len = cos(lat)`,
`(sin(lng)*len, sin(lat), cos(lng)*len)`. -/
def angularVector (sLng cLng sLat cLat : ℚ) : Vec3 :=
  ⟨sLng * cLat, sLat, cLng * cLat⟩

/-- Negation of a vector (the antipodal sphere point). -/
def vecNeg (v : Vec3) : Vec3 := ⟨-v.x, -v.y, -v.z⟩

/-- GlobeTransform.isOccluded: project the tile coordinate to the sphere
(the transcendental chain `_projectTileCoordinatesToSphere` is passed in as a
function), evaluate the cached clipping plane, and report `dotResult < 0`. -/
def isOccludedGlobe (projectToSphere : ℚ → ℚ → Vec3) (plane : Vec3 × ℚ)
    (x y : ℚ) : Bool :=
  let spherePos := projectToSphere x y
  let dotResult :=
    plane.1.x * spherePos.x + plane.1.y * spherePos.y + plane.1.z * spherePos.z + plane.2
  decide (dotResult < 0)

/-! ## Covering tiles: shared tile identifiers -/

/-- OverscaledTileID from source/tile_id.ts: overscaled zoom, world wrap and
the canonical (zoom, x, y). -/
structure OverscaledTileID where
  overscaledZ : ℤ
  wrap : ℤ
  canonZ : ℕ
  x : ℕ
  y : ℕ
  deriving Repr, DecidableEq

/-- The deduplication key of claim C3: (overscaled zoom, wrap, x, y). -/
def tileKey (t : OverscaledTileID) : ℤ × ℤ × ℕ × ℕ :=
  (t.overscaledZ, t.wrap, t.x, t.y)

/-- IntersectionResult from util/primitives.ts (None = 0, Partial = 1,
Full = 2); `Part` stands for the partial-intersection value. -/
inductive IntersectionResult where
  | None
  | Part
  | Full
  deriving Repr, DecidableEq

/-- An entry of the `result` array of both covering-tiles searches. -/
structure CoverResultEntry where
  tileID : OverscaledTileID
  distanceSq : ℚ
  tileDistanceToCamera : ℚ
  deriving Repr, DecidableEq

/-- Number of nodes of a full quadtree of the given depth; used as recursion
fuel for the depth-first traversals. -/
def treeSize : ℕ → ℕ
  | 0 => 1
  | d + 1 => 1 + 4 * treeSize d

/-! ## Globe covering tiles (globe_covering_tiles.ts) -/

/-- distanceToTileSimple from globe_covering_tiles.ts. -/
def distanceToTileSimple (point tile tileSize : ℚ) : ℚ :=
  let delta := point - tile
  if delta < 0 then -delta else max 0 (delta - tileSize)

/-- distanceToTileWrapX from globe_covering_tiles.ts. -/
def distanceToTileWrapX (pointX pointY tileCornerX tileCornerY tileSize : ℚ) : ℚ :=
  let tileCornerToPointX := pointX - tileCornerX
  let distanceX :=
    if tileCornerToPointX < 0 then
      min (-tileCornerToPointX) (1 + tileCornerToPointX - tileSize)
    else if tileCornerToPointX > 1 then
      min (max (tileCornerToPointX - tileSize) 0) (1 - tileCornerToPointX)
    else 0
  max distanceX (distanceToTileSimple pointY tileCornerY tileSize)

/-- distanceToTile from globe_covering_tiles.ts: minimum over the original
tile and its two pole-crossing copies. -/
def distanceToTile (pointX pointY tileCornerX tileCornerY tileSize : ℚ) : ℚ :=
  let worldSize : ℚ := 1
  let halfWorld := 0.5 * worldSize
  let smallestDistance := 2 * worldSize
  let smallestDistance := min smallestDistance
    (distanceToTileWrapX pointX pointY tileCornerX tileCornerY tileSize)
  let smallestDistance := min smallestDistance
    (distanceToTileWrapX pointX pointY (tileCornerX + halfWorld) (-tileCornerY - tileSize) tileSize)
  let smallestDistance := min smallestDistance
    (distanceToTileWrapX pointX pointY (tileCornerX + halfWorld)
      (worldSize + worldSize - tileCornerY - tileSize) tileSize)
  smallestDistance

/-- radiusOfMaxLvlLodInTiles from globeCoveringTiles. -/
def globeRadiusOfMaxLvlLodInTiles : ℚ := 3

/-- Inputs of globeCoveringTiles: the covering zoom level, the options used,
the camera and center mercator coordinates, the tile-visibility provider of
the transform (abstract: its frustum geometry lives outside this core) and
the square-root function (used only for the unused tileDistanceToCamera). -/
structure GlobeCoverArgs where
  zIn : ℤ
  minzoom : Option ℤ
  maxzoom : Option ℤ
  reparseOverscaled : Bool
  cameraX : ℚ
  cameraY : ℚ
  centerX : ℚ
  centerY : ℚ
  isTileVisible : ℕ → ℕ → ℕ → IntersectionResult
  sqrtFn : ℚ → ℚ

/-- A stack entry of the globe depth-first traversal. -/
structure GlobeStackNode where
  x : ℕ
  y : ℕ
  zoom : ℕ
  fullyVisible : Bool
  deriving Repr, DecidableEq

/-- The clamped target zoom `z` of globeCoveringTiles (after the maxzoom
clamp; the minzoom early return is handled by the caller). -/
def globeCoverZ (A : GlobeCoverArgs) : ℤ :=
  match A.maxzoom with
  | some mx => if A.zIn > mx then mx else A.zIn
  | none => A.zIn

/-- The split/emit decision of one globeCoveringTiles loop iteration (the
part of the loop body after the visibility check): either the emitted result
entry, or the four children pushed onto the stack (topmost first). -/
def globeCoverStep (A : GlobeCoverArgs) (maxZoom overscaledZ : ℤ)
    (cameraPointX cameraPointY centerPointX centerPointY : ℚ)
    (it : GlobeStackNode) (fullyVisible : Bool) :
    CoverResultEntry ⊕ List GlobeStackNode :=
  let x := it.x
  let y := it.y
  let scale : ℚ := 2 ^ it.zoom
  let tileSize : ℚ := 1 / scale
  let tileX := (x : ℚ) / scale
  let tileY := (y : ℚ) / scale
  let centerDist := distanceToTile A.centerX A.centerY tileX tileY tileSize
  let cameraDist := distanceToTile A.cameraX A.cameraY tileX tileY tileSize
  let split := decide (min centerDist cameraDist * 2 ≤ globeRadiusOfMaxLvlLodInTiles)
  if (it.zoom : ℤ) = maxZoom ∨ split = false then
    let dzN := (maxZoom - it.zoom).toNat
    let dx := cameraPointX - 0.5 - ((x * 2 ^ dzN : ℕ) : ℚ)
    let dy := cameraPointY - 0.5 - ((y * 2 ^ dzN : ℕ) : ℚ)
    let distanceCurrent := distanceToTileSimple A.centerX tileX tileSize
    let distanceLeft := distanceToTileSimple A.centerX (tileX - 1) tileSize
    let distanceRight := distanceToTileSimple A.centerX (tileX + 1) tileSize
    let distanceSmallest := min distanceCurrent (min distanceLeft distanceRight)
    let wrap : ℤ := 0
    let wrap := if distanceSmallest = distanceLeft then -1 else wrap
    let wrap := if distanceSmallest = distanceRight then 1 else wrap
    .inl
      { tileID :=
          { overscaledZ := if (it.zoom : ℤ) = maxZoom then overscaledZ else it.zoom,
            wrap := wrap, canonZ := it.zoom, x := x, y := y },
        distanceSq := (centerPointX - 0.5 - dx) ^ 2 + (centerPointY - 0.5 - dy) ^ 2,
        tileDistanceToCamera := A.sqrtFn (dx * dx + dy * dy) }
  else
    .inr [⟨2 * x + 1, 2 * y + 1, it.zoom + 1, fullyVisible⟩,
          ⟨2 * x, 2 * y + 1, it.zoom + 1, fullyVisible⟩,
          ⟨2 * x + 1, 2 * y, it.zoom + 1, fullyVisible⟩,
          ⟨2 * x, 2 * y, it.zoom + 1, fullyVisible⟩]

/-- The body of the globeCoveringTiles while loop, one iteration of fuel per
popped node (the canonical initial fuel always suffices). -/
def globeCoverLoop (A : GlobeCoverArgs) (maxZoom overscaledZ : ℤ)
    (cameraPointX cameraPointY centerPointX centerPointY : ℚ) :
    ℕ → List GlobeStackNode → List CoverResultEntry → List CoverResultEntry
  | _, [], acc => acc
  | 0, _ :: _, acc => acc
  | fuel + 1, it :: rest, acc =>
    let visResult :=
      if it.fullyVisible then some true
      else
        match A.isTileVisible it.x it.y it.zoom with
        | .None => none
        | .Part => some false
        | .Full => some true
    match visResult with
    | none => globeCoverLoop A maxZoom overscaledZ cameraPointX cameraPointY
        centerPointX centerPointY fuel rest acc
    | some fullyVisible =>
      match globeCoverStep A maxZoom overscaledZ cameraPointX cameraPointY
          centerPointX centerPointY it fullyVisible with
      | .inl entry =>
        globeCoverLoop A maxZoom overscaledZ cameraPointX cameraPointY
          centerPointX centerPointY fuel rest (acc ++ [entry])
      | .inr children =>
        globeCoverLoop A maxZoom overscaledZ cameraPointX cameraPointY
          centerPointX centerPointY fuel (children ++ rest) acc

/-- globeCoveringTiles from globe_covering_tiles.ts. -/
def globeCoveringTiles (A : GlobeCoverArgs) : List OverscaledTileID :=
  let z0 := A.zIn
  let actualZ := z0
  let earlyReturn := match A.minzoom with | some mn => decide (z0 < mn) | none => false
  if earlyReturn then []
  else
    let z := globeCoverZ A
    let numTiles : ℚ := (2 : ℚ) ^ z
    let cameraPointX := numTiles * A.cameraX
    let cameraPointY := numTiles * A.cameraY
    let centerPointX := numTiles * A.centerX
    let centerPointY := numTiles * A.centerY
    let maxZoom := z
    let overscaledZ := if A.reparseOverscaled then actualZ else z
    let result := globeCoverLoop A maxZoom overscaledZ cameraPointX cameraPointY
      centerPointX centerPointY (treeSize maxZoom.toNat) [⟨0, 0, 0, false⟩] []
    (result.mergeSort (fun a b => decide (a.distanceSq ≤ b.distanceSq))).map (·.tileID)

/-- The squared-distance-to-center sort key that globeCoveringTiles attaches
to a tile identifier, recomputed from the identifier. -/
def globeDistanceSqKey (A : GlobeCoverArgs) (t : OverscaledTileID) : ℚ :=
  let z := globeCoverZ A
  let numTiles : ℚ := (2 : ℚ) ^ z
  let cameraPointX := numTiles * A.cameraX
  let cameraPointY := numTiles * A.cameraY
  let centerPointX := numTiles * A.centerX
  let centerPointY := numTiles * A.centerY
  let dzN := (z - t.canonZ).toNat
  let dx := cameraPointX - 0.5 - ((t.x * 2 ^ dzN : ℕ) : ℚ)
  let dy := cameraPointY - 0.5 - ((t.y * 2 ^ dzN : ℕ) : ℚ)
  (centerPointX - 0.5 - dx) ^ 2 + (centerPointY - 0.5 - dy) ^ 2

/-! ## Mercator covering tiles (MercatorTransform.coveringTiles) -/

/-- Inputs of MercatorTransform.coveringTiles.  The axis-aligned bounding box
type `α` and the frustum test live in util/primitives.ts, outside this core,
so they are abstracted: `rootAabb wrap numTiles` builds a root box,
`aabbIntersects` is `aabb.intersects(cameraFrustum)`, `aabbDistanceX/Y` are
the signed point distances, `aabbQuadrant` is `aabb.quadrant(i)` and
`terrainAdjust` is the terrain min/max-elevation re-boxing of a child. -/
structure MercCoverArgs (α : Type) where
  zIn : ℤ
  minzoom : Option ℤ
  maxzoom : Option ℤ
  reparseOverscaled : Bool
  renderWorldCopies : Bool
  hasTerrain : Bool
  pitch : ℚ
  edgeInsetTop : ℚ
  optionsTileSize : ℚ
  transformTileSize : ℚ
  cameraX : ℚ
  cameraY : ℚ
  centerX : ℚ
  centerY : ℚ
  rootAabb : ℤ → ℚ → α
  aabbIntersects : α → IntersectionResult
  aabbDistanceX : α → ℚ × ℚ → ℚ
  aabbDistanceY : α → ℚ × ℚ → ℚ
  aabbQuadrant : α → Fin 4 → α
  terrainAdjust : α → ℤ → ℕ → ℕ → ℕ → α
  sqrtFn : ℚ → ℚ

/-- A stack entry of the mercator depth-first traversal. -/
structure MercStackNode (α : Type) where
  aabb : α
  zoom : ℕ
  x : ℕ
  y : ℕ
  wrap : ℤ
  fullyVisible : Bool

/-- The clamped target zoom `z` of MercatorTransform.coveringTiles. -/
def mercCoverZ {α : Type} (A : MercCoverArgs α) : ℤ :=
  match A.maxzoom with
  | some mx => if A.zIn > mx then mx else A.zIn
  | none => A.zIn

/-- The split/emit decision of one MercatorTransform.coveringTiles loop
iteration (the part of the loop body after the visibility check): either the
emitted result entry, or the four children pushed onto the stack (topmost
first). -/
def mercCoverStep {α : Type} (A : MercCoverArgs α) (maxZoom overscaledZ minZoom : ℤ)
    (radiusOfMaxLvlLodInTiles : ℚ)
    (cameraPointX cameraPointY centerPointX centerPointY : ℚ)
    (it : MercStackNode α) (fullyVisible : Bool) :
    CoverResultEntry ⊕ List (MercStackNode α) :=
  let x := it.x
  let y := it.y
  let refPoint := if A.hasTerrain then (cameraPointX, cameraPointY)
    else (centerPointX, centerPointY)
  let distanceX := A.aabbDistanceX it.aabb refPoint
  let distanceY := A.aabbDistanceY it.aabb refPoint
  let longestDim := max |distanceX| |distanceY|
  let distToSplit := radiusOfMaxLvlLodInTiles +
    ((2 ^ (maxZoom - it.zoom).toNat : ℕ) : ℚ) - 2
  if (it.zoom : ℤ) = maxZoom ∨ (longestDim > distToSplit ∧ (it.zoom : ℤ) ≥ minZoom) then
    let dzN := (maxZoom - it.zoom).toNat
    let dx := cameraPointX - 0.5 - ((x * 2 ^ dzN : ℕ) : ℚ)
    let dy := cameraPointY - 0.5 - ((y * 2 ^ dzN : ℕ) : ℚ)
    .inl
      { tileID :=
          { overscaledZ := if (it.zoom : ℤ) = maxZoom then overscaledZ else it.zoom,
            wrap := it.wrap, canonZ := it.zoom, x := x, y := y },
        distanceSq := (centerPointX - 0.5 - (x : ℚ)) ^ 2 + (centerPointY - 0.5 - (y : ℚ)) ^ 2,
        tileDistanceToCamera := A.sqrtFn (dx * dx + dy * dy) }
  else
    let mkQuad : Fin 4 → ℕ → ℕ → α := fun i childX childY =>
      let quadrant := A.aabbQuadrant it.aabb i
      if A.hasTerrain then
        A.terrainAdjust quadrant it.wrap (it.zoom + 1) childX childY
      else quadrant
    .inr [⟨mkQuad 3 (2 * x + 1) (2 * y + 1), it.zoom + 1, 2 * x + 1, 2 * y + 1,
            it.wrap, fullyVisible⟩,
          ⟨mkQuad 2 (2 * x) (2 * y + 1), it.zoom + 1, 2 * x, 2 * y + 1,
            it.wrap, fullyVisible⟩,
          ⟨mkQuad 1 (2 * x + 1) (2 * y), it.zoom + 1, 2 * x + 1, 2 * y,
            it.wrap, fullyVisible⟩,
          ⟨mkQuad 0 (2 * x) (2 * y), it.zoom + 1, 2 * x, 2 * y,
            it.wrap, fullyVisible⟩]

/-- The body of the MercatorTransform.coveringTiles while loop, one iteration
of fuel per popped node. -/
def mercCoverLoop {α : Type} (A : MercCoverArgs α) (maxZoom overscaledZ minZoom : ℤ)
    (radiusOfMaxLvlLodInTiles : ℚ)
    (cameraPointX cameraPointY centerPointX centerPointY : ℚ) :
    ℕ → List (MercStackNode α) → List CoverResultEntry → List CoverResultEntry
  | _, [], acc => acc
  | 0, _ :: _, acc => acc
  | fuel + 1, it :: rest, acc =>
    let visResult :=
      if it.fullyVisible then some true
      else
        match A.aabbIntersects it.aabb with
        | .None => none
        | .Part => some false
        | .Full => some true
    match visResult with
    | none => mercCoverLoop A maxZoom overscaledZ minZoom radiusOfMaxLvlLodInTiles
        cameraPointX cameraPointY centerPointX centerPointY fuel rest acc
    | some fullyVisible =>
      match mercCoverStep A maxZoom overscaledZ minZoom radiusOfMaxLvlLodInTiles
          cameraPointX cameraPointY centerPointX centerPointY it fullyVisible with
      | .inl entry =>
        mercCoverLoop A maxZoom overscaledZ minZoom radiusOfMaxLvlLodInTiles
          cameraPointX cameraPointY centerPointX centerPointY fuel rest (acc ++ [entry])
      | .inr children =>
        mercCoverLoop A maxZoom overscaledZ minZoom radiusOfMaxLvlLodInTiles
          cameraPointX cameraPointY centerPointX centerPointY fuel
          (children ++ rest) acc

/-- MercatorTransform.coveringTiles from the mercator transform source. -/
def mercCoveringTiles {α : Type} (A : MercCoverArgs α) : List OverscaledTileID :=
  let z0 := A.zIn
  let actualZ := z0
  let earlyReturn := match A.minzoom with | some mn => decide (z0 < mn) | none => false
  if earlyReturn then []
  else
    let z := mercCoverZ A
    let numTiles : ℚ := (2 : ℚ) ^ z
    let cameraPointX := numTiles * A.cameraX
    let cameraPointY := numTiles * A.cameraY
    let centerPointX := numTiles * A.centerX
    let centerPointY := numTiles * A.centerY
    let minZoom : ℤ :=
      if A.hasTerrain = false ∧ A.pitch ≤ 60 ∧ A.edgeInsetTop < 0.1 then z
      else (match A.minzoom with | some mn => mn | none => 0)
    let radiusOfMaxLvlLodInTiles : ℚ :=
      if A.hasTerrain then
        2 / min A.transformTileSize A.optionsTileSize * A.transformTileSize
      else 3
    let maxZoom := z
    let overscaledZ := if A.reparseOverscaled then actualZ else z
    let newRootTile : ℤ → MercStackNode α := fun w =>
      ⟨A.rootAabb w numTiles, 0, 0, 0, w, false⟩
    let stack0 : List (MercStackNode α) :=
      if A.renderWorldCopies then
        [newRootTile 0, newRootTile 3, newRootTile (-3), newRootTile 2,
          newRootTile (-2), newRootTile 1, newRootTile (-1)]
      else [newRootTile 0]
    let result := mercCoverLoop A maxZoom overscaledZ minZoom radiusOfMaxLvlLodInTiles
      cameraPointX cameraPointY centerPointX centerPointY
      (stack0.length * treeSize maxZoom.toNat) stack0 []
    (result.mergeSort (fun a b => decide (a.distanceSq ≤ b.distanceSq))).map (·.tileID)

/-- The squared-distance-to-center sort key that MercatorTransform's
coveringTiles attaches to a tile identifier, recomputed from the identifier. -/
def mercDistanceSqKey {α : Type} (A : MercCoverArgs α) (t : OverscaledTileID) : ℚ :=
  let z := mercCoverZ A
  let numTiles : ℚ := (2 : ℚ) ^ z
  let centerPointX := numTiles * A.centerX
  let centerPointY := numTiles * A.centerY
  (centerPointX - 0.5 - (t.x : ℚ)) ^ 2 + (centerPointY - 0.5 - (t.y : ℚ)) ^ 2

/-! ## Line-following label placement (symbol/projection.ts) -/

/-- A 2D point (the @mapbox/point-geometry Point), with rational coords. -/
structure Pt where
  x : ℚ
  y : ℚ
  deriving Repr, DecidableEq

/-- Point addition. -/
def Pt.add (p q : Pt) : Pt := ⟨p.x + q.x, p.y + q.y⟩

/-- Point subtraction. -/
def Pt.sub (p q : Pt) : Pt := ⟨p.x - q.x, p.y - q.y⟩

/-- Scalar multiplication (Point._mult). -/
def Pt.mult (p : Pt) (k : ℚ) : Pt := ⟨p.x * k, p.y * k⟩

/-- Point._perp: rotate a quarter turn, (x, y) to (-y, x). -/
def Pt.perp (p : Pt) : Pt := ⟨-p.y, p.x⟩

/-- Point.mag = sqrt(x^2 + y^2); the square root is a model parameter. -/
def Pt.mag (p : Pt) (sqrtFn : ℚ → ℚ) : ℚ := sqrtFn (p.x * p.x + p.y * p.y)

/-- Point._unit: divide by the magnitude. -/
def Pt.unitv (p : Pt) (sqrtFn : ℚ → ℚ) : Pt :=
  let m := p.mag sqrtFn
  ⟨p.x / m, p.y / m⟩

/-- A 4x4 matrix in gl-matrix column-major layout. -/
structure Mat4 where
  m0 : ℚ
  m1 : ℚ
  m2 : ℚ
  m3 : ℚ
  m4 : ℚ
  m5 : ℚ
  m6 : ℚ
  m7 : ℚ
  m8 : ℚ
  m9 : ℚ
  m10 : ℚ
  m11 : ℚ
  m12 : ℚ
  m13 : ℚ
  m14 : ℚ
  m15 : ℚ

/-- The result of `project`: label-plane point and the w component
(signed distance from camera). -/
structure Projection where
  point : Pt
  signedDistanceFromCamera : ℚ
  deriving Repr, DecidableEq

/-- project from symbol/projection.ts.  With an elevation function it does a
full vec4.transformMat4 of (x, y, elevation, 1); without one it uses
xyTransformMat4 which ignores z and reads w = m3 x + m7 y + m15. -/
def project (p : Pt) (m : Mat4) (getElevation : Option (ℚ → ℚ → ℚ)) : Projection :=
  match getElevation with
  | some f =>
    let z := f p.x p.y
    let outX := m.m0 * p.x + m.m4 * p.y + m.m8 * z + m.m12
    let outY := m.m1 * p.x + m.m5 * p.y + m.m9 * z + m.m13
    let w := m.m3 * p.x + m.m7 * p.y + m.m11 * z + m.m15
    ⟨⟨outX / w, outY / w⟩, w⟩
  | none =>
    let outX := m.m0 * p.x + m.m4 * p.y + m.m12
    let outY := m.m1 * p.x + m.m5 * p.y + m.m13
    let w := m.m3 * p.x + m.m7 * p.y + m.m15
    ⟨⟨outX / w, outY / w⟩, w⟩

/-- The ProjectionArgs record of symbol/projection.ts (minus the cache, which
is threaded explicitly).  The line vertex array is a total map from vertex
index to tile point; `managerProject` is ProjectionManager.project for the
special (globe) projection path; `sqrtFn`, `atan2Fn` and `piVal` model the
irrational operations of JS numbers. -/
structure ProjArgs where
  lineVertexArray : ℤ → Pt
  labelPlaneMatrix : Mat4
  getElevation : Option (ℚ → ℚ → ℚ)
  tileAnchorPoint : Pt
  pitchWithMap : Bool
  useSpecialProjectionForSymbols : Bool
  managerProject : ℚ → ℚ → Projection
  width : ℚ
  height : ℚ
  sqrtFn : ℚ → ℚ
  atan2Fn : ℚ → ℚ → ℚ
  piVal : ℚ

/-- projectTileCoordinatesToViewport from symbol/projection.ts. -/
def projectTileCoordinatesToViewport (x y : ℚ) (args : ProjArgs) : Projection :=
  if args.pitchWithMap = false ∧ args.useSpecialProjectionForSymbols = true then
    let projection := args.managerProject x y
    ⟨⟨(projection.point.x * 0.5 + 0.5) * args.width,
      (-projection.point.y * 0.5 + 0.5) * args.height⟩,
      projection.signedDistanceFromCamera⟩
  else
    project ⟨x, y⟩ args.labelPlaneMatrix args.getElevation

/-- The projection of the line vertex at `index` (what
projectVertexToViewport computes when the cache misses). -/
def trueProjection (args : ProjArgs) (index : ℤ) : Projection :=
  projectTileCoordinatesToViewport (args.lineVertexArray index).x
    (args.lineVertexArray index).y args

/-- The projection of the tile anchor point to the label plane. -/
def trueAnchor (args : ProjArgs) : Pt :=
  (projectTileCoordinatesToViewport args.tileAnchorPoint.x args.tileAnchorPoint.y args).point

/-- The per-placement ProjectionCache: projected vertices, offset-shifted
vertices, and the cached anchor projection. -/
structure ProjectionCache where
  projections : ℤ → Option Pt
  offsets : ℤ → Option Pt
  cachedAnchorPoint : Option Pt

/-- The empty cache built at the start of each symbol in updateLineLabels. -/
def emptyCache : ProjectionCache := ⟨fun _ => none, fun _ => none, none⟩

/-- ProjectionSyntheticVertexArgs from symbol/projection.ts. -/
structure SyntheticVertexArgs where
  distanceFromAnchor : ℚ
  previousVertex : Pt
  direction : ℤ
  absOffsetX : ℚ

/-- projectVertexToViewport from symbol/projection.ts, with the cache
threaded explicitly.  A vertex that projects behind the camera plane gets a
synthesized substitute that is returned but never cached. -/
def projectVertexToViewport (index : ℤ) (args : ProjArgs) (cache : ProjectionCache)
    (sva : SyntheticVertexArgs) : Pt × ProjectionCache :=
  match cache.projections index with
  | some p => (p, cache)
  | none =>
    let currentVertex := args.lineVertexArray index
    let projection := projectTileCoordinatesToViewport currentVertex.x currentVertex.y args
    if 0 < projection.signedDistanceFromCamera then
      (projection.point,
        { cache with
          projections := Function.update cache.projections index (some projection.point) })
    else
      let previousLineVertexIndex := index - sva.direction
      let previousTilePoint :=
        if sva.distanceFromAnchor = 0 then args.tileAnchorPoint
        else args.lineVertexArray previousLineVertexIndex
      let minimumLength := sva.absOffsetX - sva.distanceFromAnchor + 1
      let unitVertextoBeProjected :=
        previousTilePoint.add ((previousTilePoint.sub currentVertex).unitv args.sqrtFn)
      let proj0 := (args.managerProject unitVertextoBeProjected.x unitVertextoBeProjected.y).point
      let projectedUnitVertex : Pt :=
        ⟨(proj0.x * 0.5 + 0.5) * args.width, (-proj0.y * 0.5 + 0.5) * args.height⟩
      let projectedUnitSegment := sva.previousVertex.sub projectedUnitVertex
      (sva.previousVertex.add
        (projectedUnitSegment.mult
          (minimumLength / projectedUnitSegment.mag args.sqrtFn)), cache)

/-- transformToOffsetNormal from symbol/projection.ts. -/
def transformToOffsetNormal (segmentVector : Pt) (offset : ℚ) (direction : ℤ)
    (sqrtFn : ℚ → ℚ) : Pt :=
  ((segmentVector.unitv sqrtFn).perp).mult (offset * (direction : ℚ))

/-- Modelled from the spec: `findLineIntersection` lives in util/util.ts,
which is not under src/.  The spec says consecutive offset segments are
joined by a two-line intersection and that parallel segments simply touch
(null result).  Standard infinite-line intersection of the lines through
(aStart, aEnd) and (bStart, bEnd). -/
def findLineIntersection (aStart aEnd bStart bEnd : Pt) : Option Pt :=
  let d1 := aEnd.sub aStart
  let d2 := bEnd.sub bStart
  let denom := d1.x * d2.y - d1.y * d2.x
  if denom = 0 then none
  else
    let t := ((bStart.x - aStart.x) * d2.y - (bStart.y - aStart.y) * d2.x) / denom
    some (aStart.add (d1.mult t))

/-- findOffsetIntersectionPoint from symbol/projection.ts, with the cache
threaded explicitly. -/
def findOffsetIntersectionPoint (index : ℤ) (prevToCurrentOffsetNormal currentVertex : Pt)
    (lineStartIndex lineEndIndex : ℤ) (offsetPreviousVertex : Pt) (lineOffsetY : ℚ)
    (args : ProjArgs) (cache : ProjectionCache) (sva : SyntheticVertexArgs) :
    Pt × ProjectionCache :=
  match cache.offsets index with
  | some p => (p, cache)
  | none =>
    let offsetCurrentVertex := currentVertex.add prevToCurrentOffsetNormal
    if index + sva.direction < lineStartIndex ∨ index + sva.direction ≥ lineEndIndex then
      (offsetCurrentVertex,
        { cache with
          offsets := Function.update cache.offsets index (some offsetCurrentVertex) })
    else
      let nc := projectVertexToViewport (index + sva.direction) args cache sva
      let nextVertex := nc.1
      let cache := nc.2
      let currentToNextOffsetNormal :=
        transformToOffsetNormal (nextVertex.sub currentVertex) lineOffsetY sva.direction args.sqrtFn
      let offsetNextSegmentBegin := currentVertex.add currentToNextOffsetNormal
      let offsetNextSegmentEnd := nextVertex.add currentToNextOffsetNormal
      let result :=
        (findLineIntersection offsetPreviousVertex offsetCurrentVertex
          offsetNextSegmentBegin offsetNextSegmentEnd).getD offsetCurrentVertex
      (result, { cache with offsets := Function.update cache.offsets index (some result) })

/-- The loop state of placeGlyphAlongLine (all variables mutated by the
while loop, including the collision path being accumulated). -/
structure WalkState where
  currentIndex : ℤ
  distanceFromAnchor : ℚ
  currentSegmentDistance : ℚ
  previousVertex : Pt
  currentVertex : Pt
  offsetIntersectionPoint : Option Pt
  offsetPreviousVertex : Option Pt
  currentLineSegment : Pt
  pathVertices : List Pt

/-- PlacedGlyph from symbol/projection.ts. -/
structure PlacedGlyph where
  point : Pt
  angle : ℚ
  path : List Pt

/-- Number of further vertices the walk can visit before leaving the vertex
range; used as structural fuel for the while loop of placeGlyphAlongLine. -/
def walkFuel (direction lineStartIndex lineEndIndex currentIndex : ℤ) : ℕ :=
  (if direction > 0 then lineEndIndex - currentIndex
   else currentIndex + 1 - lineStartIndex).toNat

/-- One iteration of the while-loop body of placeGlyphAlongLine (everything
from `currentIndex += direction` to the end of the loop body), translated
statement by statement with the cache threaded; returns `none` when the walk
stepped outside the vertex range (the `return null` of the source). -/
def placeGlyphStep (args : ProjArgs) (absOffsetX : ℚ) (direction : ℤ)
    (lineStartIndex lineEndIndex : ℤ) (lineOffsetY : ℚ) (st : WalkState)
    (cache : ProjectionCache) : Option WalkState × ProjectionCache :=
  let currentIndex := st.currentIndex + direction
  if currentIndex < lineStartIndex ∨ currentIndex ≥ lineEndIndex then (none, cache)
  else
    let distanceFromAnchor := st.distanceFromAnchor + st.currentSegmentDistance
    let previousVertex := st.currentVertex
    let offsetPreviousVertex0 := st.offsetIntersectionPoint
    let sva : SyntheticVertexArgs :=
      ⟨distanceFromAnchor, previousVertex, direction, absOffsetX⟩
    let vc := projectVertexToViewport currentIndex args cache sva
    let currentVertex := vc.1
    let cache := vc.2
    if lineOffsetY = 0 then
      let currentLineSegment := currentVertex.sub previousVertex
      (some { currentIndex := currentIndex,
              distanceFromAnchor := distanceFromAnchor,
              currentSegmentDistance := currentLineSegment.mag args.sqrtFn,
              previousVertex := previousVertex,
              currentVertex := currentVertex,
              offsetIntersectionPoint := st.offsetIntersectionPoint,
              offsetPreviousVertex := offsetPreviousVertex0,
              currentLineSegment := currentLineSegment,
              pathVertices := st.pathVertices ++ [previousVertex] }, cache)
    else
      let prevToCurrent := currentVertex.sub previousVertex
      let nc :=
        if prevToCurrent.mag args.sqrtFn = 0 then
          let nx := projectVertexToViewport (currentIndex + direction) args cache sva
          (transformToOffsetNormal (nx.1.sub currentVertex) lineOffsetY direction
            args.sqrtFn, nx.2)
        else
          (transformToOffsetNormal prevToCurrent lineOffsetY direction args.sqrtFn, cache)
      let prevToCurrentOffsetNormal := nc.1
      let cache := nc.2
      let offsetPreviousVertex :=
        match offsetPreviousVertex0 with
        | some p => p
        | none => previousVertex.add prevToCurrentOffsetNormal
      let oc := findOffsetIntersectionPoint currentIndex prevToCurrentOffsetNormal
        currentVertex lineStartIndex lineEndIndex offsetPreviousVertex lineOffsetY
        args cache sva
      let offsetIntersectionPoint := oc.1
      let cache := oc.2
      let currentLineSegment := offsetIntersectionPoint.sub offsetPreviousVertex
      (some { currentIndex := currentIndex,
              distanceFromAnchor := distanceFromAnchor,
              currentSegmentDistance := currentLineSegment.mag args.sqrtFn,
              previousVertex := previousVertex,
              currentVertex := currentVertex,
              offsetIntersectionPoint := some offsetIntersectionPoint,
              offsetPreviousVertex := some offsetPreviousVertex,
              currentLineSegment := currentLineSegment,
              pathVertices := st.pathVertices ++ [offsetPreviousVertex] }, cache)

/-- The while loop of placeGlyphAlongLine, iterating placeGlyphStep while the
accumulated distance has not yet reached the target offset.  The fuel is the
number of vertices the walk can still visit before leaving the vertex range
(walkFuel of the current index); with that fuel the 0-fuel in-range case is
unreachable, because an in-range step implies positive remaining fuel. -/
def placeGlyphLoop (args : ProjArgs) (absOffsetX : ℚ) (direction : ℤ)
    (lineStartIndex lineEndIndex : ℤ) (lineOffsetY : ℚ) :
    ℕ → WalkState → ProjectionCache → Option WalkState × ProjectionCache
  | 0, st, cache =>
    if st.distanceFromAnchor + st.currentSegmentDistance ≤ absOffsetX then (none, cache)
    else (some st, cache)
  | fuel + 1, st, cache =>
    if st.distanceFromAnchor + st.currentSegmentDistance ≤ absOffsetX then
      match placeGlyphStep args absOffsetX direction lineStartIndex lineEndIndex
        lineOffsetY st cache with
      | (none, cache) => (none, cache)
      | (some st', cache') =>
        placeGlyphLoop args absOffsetX direction lineStartIndex lineEndIndex lineOffsetY
          fuel st' cache'
    else (some st, cache)

/-- The initial loop state of placeGlyphAlongLine. -/
def walkInit (anchorPoint : Pt) (currentIndex : ℤ) : WalkState :=
  { currentIndex := currentIndex,
    distanceFromAnchor := 0,
    currentSegmentDistance := 0,
    previousVertex := anchorPoint,
    currentVertex := anchorPoint,
    offsetIntersectionPoint := none,
    offsetPreviousVertex := none,
    currentLineSegment := ⟨0, 0⟩,
    pathVertices := [] }

/-- placeGlyphAlongLine from symbol/projection.ts, translated statement by
statement with the cache threaded. -/
def placeGlyphAlongLine (offsetX lineOffsetX lineOffsetY : ℚ) (flip : Bool)
    (anchorSegment lineStartIndex lineEndIndex : ℤ) (args : ProjArgs)
    (rotateToLine : Bool) (cache : ProjectionCache) :
    Option PlacedGlyph × ProjectionCache :=
  let combinedOffsetX := if flip then offsetX - lineOffsetX else offsetX + lineOffsetX
  let direction : ℤ := if combinedOffsetX > 0 then 1 else -1
  let angle : ℚ := 0
  let da : ℤ × ℚ := if flip then (-direction, args.piVal) else (direction, angle)
  let direction := da.1
  let angle := da.2
  let angle := if direction < 0 then angle + args.piVal else angle
  let currentIndex :=
    if direction > 0 then lineStartIndex + anchorSegment
    else lineStartIndex + anchorSegment + 1
  let ac : Pt × ProjectionCache :=
    match cache.cachedAnchorPoint with
    | some p => (p, cache)
    | none =>
      let p := trueAnchor args
      (p, { cache with cachedAnchorPoint := some p })
  let anchorPoint := ac.1
  let cache := ac.2
  let absOffsetX := |combinedOffsetX|
  let st0 := walkInit anchorPoint currentIndex
  let fuel := walkFuel direction lineStartIndex lineEndIndex currentIndex
  let lc := placeGlyphLoop args absOffsetX direction lineStartIndex lineEndIndex lineOffsetY
    fuel st0 cache
  match lc with
  | (none, cache) => (none, cache)
  | (some st, cache) =>
    let segmentInterpolationT :=
      (absOffsetX - st.distanceFromAnchor) / st.currentSegmentDistance
    let base :=
      match st.offsetPreviousVertex with
      | some p => p
      | none => st.previousVertex
    let p := (st.currentLineSegment.mult segmentInterpolationT).add base
    let segmentAngle := angle +
      args.atan2Fn (st.currentVertex.y - st.previousVertex.y)
        (st.currentVertex.x - st.previousVertex.x)
    (some { point := p,
            angle := if rotateToLine then segmentAngle else 0,
            path := st.pathVertices ++ [p] }, cache)

/-- The combined offset along the line (combinedOffsetX of
placeGlyphAlongLine). -/
def combinedOffset (offsetX lineOffsetX : ℚ) (flip : Bool) : ℚ :=
  if flip then offsetX - lineOffsetX else offsetX + lineOffsetX

/-- The walk direction placeGlyphAlongLine ends up using (direction after the
flip adjustment). -/
def walkDirection (offsetX lineOffsetX : ℚ) (flip : Bool) : ℤ :=
  let d0 : ℤ := if combinedOffset offsetX lineOffsetX flip > 0 then 1 else -1
  if flip then -d0 else d0

/-! ### The cache-free reference walk (the spec's vertex-by-vertex walk) -/

/-- The offset intersection point of the reference walk (identical to
findOffsetIntersectionPoint on a cache miss, with every vertex projecting in
front of the camera). -/
def pureFindOffsetIntersection (args : ProjArgs) (lineOffsetY : ℚ)
    (lineStartIndex lineEndIndex direction index : ℤ)
    (normal currentVertex offsetPreviousVertex : Pt) : Pt :=
  let offsetCurrentVertex := currentVertex.add normal
  if index + direction < lineStartIndex ∨ index + direction ≥ lineEndIndex then
    offsetCurrentVertex
  else
    let nextVertex := (trueProjection args (index + direction)).point
    let currentToNextOffsetNormal :=
      transformToOffsetNormal (nextVertex.sub currentVertex) lineOffsetY direction args.sqrtFn
    (findLineIntersection offsetPreviousVertex offsetCurrentVertex
      (currentVertex.add currentToNextOffsetNormal)
      (nextVertex.add currentToNextOffsetNormal)).getD offsetCurrentVertex

/-- One iteration of the reference walk: step to the next vertex (`none` when
it leaves the vertex range), project it, and update all accumulators exactly
as the loop body of placeGlyphAlongLine does when no vertex is behind the
camera plane. -/
def pureAdvance (args : ProjArgs) (direction lineStartIndex lineEndIndex : ℤ)
    (lineOffsetY : ℚ) (st : WalkState) : Option WalkState :=
  let currentIndex := st.currentIndex + direction
  if currentIndex < lineStartIndex ∨ currentIndex ≥ lineEndIndex then none
  else
    let distanceFromAnchor := st.distanceFromAnchor + st.currentSegmentDistance
    let previousVertex := st.currentVertex
    let offsetPreviousVertex0 := st.offsetIntersectionPoint
    let currentVertex := (trueProjection args currentIndex).point
    if lineOffsetY = 0 then
      let currentLineSegment := currentVertex.sub previousVertex
      some { currentIndex := currentIndex,
             distanceFromAnchor := distanceFromAnchor,
             currentSegmentDistance := currentLineSegment.mag args.sqrtFn,
             previousVertex := previousVertex,
             currentVertex := currentVertex,
             offsetIntersectionPoint := st.offsetIntersectionPoint,
             offsetPreviousVertex := offsetPreviousVertex0,
             currentLineSegment := currentLineSegment,
             pathVertices := st.pathVertices ++ [previousVertex] }
    else
      let prevToCurrent := currentVertex.sub previousVertex
      let prevToCurrentOffsetNormal :=
        if prevToCurrent.mag args.sqrtFn = 0 then
          transformToOffsetNormal
            (((trueProjection args (currentIndex + direction)).point).sub currentVertex)
            lineOffsetY direction args.sqrtFn
        else transformToOffsetNormal prevToCurrent lineOffsetY direction args.sqrtFn
      let offsetPreviousVertex :=
        match offsetPreviousVertex0 with
        | some p => p
        | none => previousVertex.add prevToCurrentOffsetNormal
      let offsetIntersectionPoint := pureFindOffsetIntersection args lineOffsetY
        lineStartIndex lineEndIndex direction currentIndex prevToCurrentOffsetNormal
        currentVertex offsetPreviousVertex
      let currentLineSegment := offsetIntersectionPoint.sub offsetPreviousVertex
      some { currentIndex := currentIndex,
             distanceFromAnchor := distanceFromAnchor,
             currentSegmentDistance := currentLineSegment.mag args.sqrtFn,
             previousVertex := previousVertex,
             currentVertex := currentVertex,
             offsetIntersectionPoint := some offsetIntersectionPoint,
             offsetPreviousVertex := some offsetPreviousVertex,
             currentLineSegment := currentLineSegment,
             pathVertices := st.pathVertices ++ [offsetPreviousVertex] }

/-- The reference walk with the loop's exit test, mirrored on pureAdvance
(same fuel discipline as placeGlyphLoop). -/
def pureLoop (args : ProjArgs) (absOffsetX : ℚ) (direction : ℤ)
    (lineStartIndex lineEndIndex : ℤ) (lineOffsetY : ℚ) :
    ℕ → WalkState → Option WalkState
  | 0, st =>
    if st.distanceFromAnchor + st.currentSegmentDistance ≤ absOffsetX then none
    else some st
  | fuel + 1, st =>
    if st.distanceFromAnchor + st.currentSegmentDistance ≤ absOffsetX then
      match pureAdvance args direction lineStartIndex lineEndIndex lineOffsetY st with
      | none => none
      | some st' =>
        pureLoop args absOffsetX direction lineStartIndex lineEndIndex lineOffsetY fuel st'
    else some st

/-- Total label-plane length of the reference walk from a state to the end of
the vertex range (accumulated distance when the walk steps out of range). -/
def pureTotalLen (args : ProjArgs) (direction : ℤ)
    (lineStartIndex lineEndIndex : ℤ) (lineOffsetY : ℚ) :
    ℕ → WalkState → ℚ
  | 0, st =>
    match pureAdvance args direction lineStartIndex lineEndIndex lineOffsetY st with
    | none => st.distanceFromAnchor + st.currentSegmentDistance
    | some st' => st'.distanceFromAnchor + st'.currentSegmentDistance
  | fuel + 1, st =>
    match pureAdvance args direction lineStartIndex lineEndIndex lineOffsetY st with
    | none => st.distanceFromAnchor + st.currentSegmentDistance
    | some st' =>
      pureTotalLen args direction lineStartIndex lineEndIndex lineOffsetY fuel st'

/-- The projected length of the line remaining from the anchor in the given
walk direction (the quantity a glyph offset is measured against in C1). -/
def lineRemainingLength (args : ProjArgs) (direction : ℤ)
    (lineStartIndex lineEndIndex anchorSegment : ℤ) (lineOffsetY : ℚ) : ℚ :=
  let currentIndex :=
    if direction > 0 then lineStartIndex + anchorSegment
    else lineStartIndex + anchorSegment + 1
  pureTotalLen args direction lineStartIndex lineEndIndex lineOffsetY
    (walkFuel direction lineStartIndex lineEndIndex currentIndex)
    (walkInit (trueAnchor args) currentIndex)

/-- The reference-walk state after `k` iterations of direction `direction`
starting at the anchor. -/
def pureStateAt (args : ProjArgs) (direction lineStartIndex lineEndIndex : ℤ)
    (lineOffsetY : ℚ) (anchorSegment : ℤ) : ℕ → Option WalkState
  | 0 =>
    some (walkInit (trueAnchor args)
      (if direction > 0 then lineStartIndex + anchorSegment
       else lineStartIndex + anchorSegment + 1))
  | k + 1 =>
    (pureStateAt args direction lineStartIndex lineEndIndex lineOffsetY anchorSegment k).bind
      (pureAdvance args direction lineStartIndex lineEndIndex lineOffsetY)

/-- Which walk direction visits vertex `i`: indices past the anchor segment
are visited by the forward walk, the rest by the backward walk. -/
def dirOfIndex (lineStartIndex anchorSegment i : ℤ) : ℤ :=
  if lineStartIndex + anchorSegment + 1 ≤ i then 1 else -1

/-- After how many reference-walk iterations vertex `i` is visited. -/
def stepsToIndex (lineStartIndex anchorSegment i : ℤ) : ℕ :=
  if lineStartIndex + anchorSegment + 1 ≤ i then (i - (lineStartIndex + anchorSegment)).toNat
  else (lineStartIndex + anchorSegment + 1 - i).toNat

/-- The canonical offset-shifted point of vertex `i` (the value
findOffsetIntersectionPoint caches for `i`). -/
def pureOffsetAt (args : ProjArgs) (lineStartIndex lineEndIndex anchorSegment : ℤ)
    (lineOffsetY : ℚ) (i : ℤ) : Option Pt :=
  match pureStateAt args (dirOfIndex lineStartIndex anchorSegment i)
      lineStartIndex lineEndIndex lineOffsetY anchorSegment
      (stepsToIndex lineStartIndex anchorSegment i) with
  | some st => st.offsetIntersectionPoint
  | none => none

/-! ### Cache consistency invariants -/

/-- Claim C9's invariant: every cached vertex projection equals the true
projection of that vertex, and that projection is in front of the camera. -/
def projectionsConsistent (args : ProjArgs) (cache : ProjectionCache) : Prop :=
  ∀ i p, cache.projections i = some p →
    0 < (trueProjection args i).signedDistanceFromCamera ∧
      p = (trueProjection args i).point

/-- The cached anchor projection, when present, is the true anchor
projection. -/
def anchorConsistent (args : ProjArgs) (cache : ProjectionCache) : Prop :=
  ∀ p, cache.cachedAnchorPoint = some p → p = trueAnchor args

/-- Every cached offset point is the canonical offset point of its vertex for
the walk direction that visits it. -/
def offsetsConsistent (args : ProjArgs) (lineStartIndex lineEndIndex anchorSegment : ℤ)
    (lineOffsetY : ℚ) (cache : ProjectionCache) : Prop :=
  ∀ i p, cache.offsets i = some p →
    pureOffsetAt args lineStartIndex lineEndIndex anchorSegment lineOffsetY i = some p

/-- Full cache consistency for a fixed label (line range, anchor segment and
perpendicular offset). -/
def cacheConsistent (args : ProjArgs) (lineStartIndex lineEndIndex anchorSegment : ℤ)
    (lineOffsetY : ℚ) (cache : ProjectionCache) : Prop :=
  projectionsConsistent args cache ∧ anchorConsistent args cache ∧
    offsetsConsistent args lineStartIndex lineEndIndex anchorSegment lineOffsetY cache

/-- Every line vertex that the walk might touch (the range extended by one on
each side, for the look-ahead of the zero-length-segment branch) projects
strictly in front of the camera plane. -/
def frontFacing (args : ProjArgs) (lineStartIndex lineEndIndex : ℤ) : Prop :=
  ∀ i : ℤ, lineStartIndex - 1 ≤ i → i ≤ lineEndIndex →
    0 < (trueProjection args i).signedDistanceFromCamera

/-! ## Quadtree bookkeeping for the coverage uniqueness proofs -/

/-- A canonical quadtree node: world wrap plus canonical (zoom, x, y). -/
structure QNode where
  wrap : ℤ
  zoom : ℕ
  x : ℕ
  y : ℕ
  deriving Repr, DecidableEq

/-- `isDesc n m`: node `m` lies in the subtree rooted at node `n` (same world
copy, deeper or equal zoom, and truncating `m`'s coordinates to `n`'s zoom
yields `n`). -/
def isDesc (n m : QNode) : Prop :=
  n.wrap = m.wrap ∧ n.zoom ≤ m.zoom ∧
    m.x / 2 ^ (m.zoom - n.zoom) = n.x ∧ m.y / 2 ^ (m.zoom - n.zoom) = n.y

/-- Two nodes whose subtrees do not overlap. -/
def subtreeDisjoint (n n' : QNode) : Prop :=
  ∀ m, isDesc n m → isDesc n' m → False

/-- The canonical node of a globe stack entry (globe traversal has a single
world copy, wrap 0). -/
def globeNodeQ (it : GlobeStackNode) : QNode := ⟨0, it.zoom, it.x, it.y⟩

/-- The canonical node of a mercator stack entry. -/
def mercNodeQ {α : Type} (it : MercStackNode α) : QNode := ⟨it.wrap, it.zoom, it.x, it.y⟩

/-- The canonical node of an emitted result entry.  For the globe traversal
the wrap field of the emitted tile is a display wrap, not the traversal
wrap, so the node wrap is supplied separately. -/
def entryNodeQ (w : ℤ) (e : CoverResultEntry) : QNode :=
  ⟨w, e.tileID.canonZ, e.tileID.x, e.tileID.y⟩

/-- Validity of a globe traversal stack node: zoom at most the target zoom
and coordinates inside the canonical grid of its zoom level. -/
def globeNodeOK (maxZoom : ℤ) (it : GlobeStackNode) : Prop :=
  (it.zoom : ℤ) ≤ maxZoom ∧ it.x < 2 ^ it.zoom ∧ it.y < 2 ^ it.zoom

/-- What holds of every entry the globe traversal emits: the canonical zoom
is the target zoom, coordinates are in range, the overscaled zoom is the
fixed parameter, and the sort key is the squared center distance recomputed
from the tile coordinates. -/
def globeEntryInv (maxZoom overscaledZ : ℤ)
    (cameraPointX cameraPointY centerPointX centerPointY : ℚ)
    (e : CoverResultEntry) : Prop :=
  (e.tileID.canonZ : ℤ) = maxZoom ∧
  e.tileID.x < 2 ^ e.tileID.canonZ ∧ e.tileID.y < 2 ^ e.tileID.canonZ ∧
  e.tileID.overscaledZ = overscaledZ ∧
  e.distanceSq =
    (centerPointX - 0.5 - (cameraPointX - 0.5 -
        ((e.tileID.x * 2 ^ (maxZoom - (e.tileID.canonZ : ℤ)).toNat : ℕ) : ℚ))) ^ 2 +
      (centerPointY - 0.5 - (cameraPointY - 0.5 -
        ((e.tileID.y * 2 ^ (maxZoom - (e.tileID.canonZ : ℤ)).toNat : ℕ) : ℚ))) ^ 2

/-- C10's globe wrap property for an emitted tile: the wrap is -1, 0 or 1,
and shifting the tile by it minimizes the horizontal distance from the map
center among the tile itself and its left and right world copies. -/
def globeWrapOK (A : GlobeCoverArgs) (t : OverscaledTileID) : Prop :=
  let scale : ℚ := 2 ^ t.canonZ
  let tileSize : ℚ := 1 / scale
  let tileX := (t.x : ℚ) / scale
  (t.wrap = -1 ∨ t.wrap = 0 ∨ t.wrap = 1) ∧
    distanceToTileSimple A.centerX (tileX + (t.wrap : ℚ)) tileSize =
      min (distanceToTileSimple A.centerX tileX tileSize)
        (min (distanceToTileSimple A.centerX (tileX - 1) tileSize)
          (distanceToTileSimple A.centerX (tileX + 1) tileSize))

/-- Validity of a mercator traversal stack node: zoom at most the target
zoom. -/
def mercNodeOK {α : Type} (maxZoom : ℤ) (it : MercStackNode α) : Prop :=
  (it.zoom : ℤ) ≤ maxZoom

/-- What holds of every entry the mercator traversal emits: the canonical
zoom is at least the local minimum zoom (unless it is the target zoom), at
most the target zoom, the overscaled zoom follows the target-zoom rule, and
the sort key is the squared center distance recomputed from the tile
coordinates. -/
def mercEntryInv (maxZoom overscaledZ minZoom : ℤ)
    (centerPointX centerPointY : ℚ) (e : CoverResultEntry) : Prop :=
  (minZoom ≤ (e.tileID.canonZ : ℤ) ∨ (e.tileID.canonZ : ℤ) = maxZoom) ∧
  (e.tileID.canonZ : ℤ) ≤ maxZoom ∧
  e.tileID.overscaledZ =
    (if (e.tileID.canonZ : ℤ) = maxZoom then overscaledZ else (e.tileID.canonZ : ℤ)) ∧
  e.distanceSq = (centerPointX - 0.5 - (e.tileID.x : ℚ)) ^ 2 +
    (centerPointY - 0.5 - (e.tileID.y : ℚ)) ^ 2

/-! ## Concrete instances used by the witnesses -/

/-- The identity matrix (mat4.create()). -/
def identityMat4 : Mat4 :=
  ⟨1, 0, 0, 0, 0, 1, 0, 0, 0, 0, 1, 0, 0, 0, 0, 1⟩

/-- A square root valid on the arguments arising in the witness scenario
(squared segment lengths of 10000 and the zero vector) and nonnegative
everywhere, which is all the placement theorems assume of Math.sqrt. -/
def sampleSqrt (q : ℚ) : ℚ := if q = 10000 then 100 else 0

/-- A small concrete projection context: a horizontal line with vertices 100
units apart, identity label-plane matrix, anchor at the origin. -/
def sampleArgs : ProjArgs :=
  { lineVertexArray := fun i => ⟨100 * (i : ℚ), 0⟩,
    labelPlaneMatrix := identityMat4,
    getElevation := none,
    tileAnchorPoint := ⟨0, 0⟩,
    pitchWithMap := true,
    useSpecialProjectionForSymbols := false,
    managerProject := fun x y => ⟨⟨x, y⟩, 1⟩,
    width := 100,
    height := 100,
    sqrtFn := sampleSqrt,
    atan2Fn := fun _ _ => 0,
    piVal := 0 }

/-- A concrete globe coverage configuration used by the witnesses. -/
def globeSampleArgs : GlobeCoverArgs :=
  { zIn := 2, minzoom := some 0, maxzoom := some 2, reparseOverscaled := false,
    cameraX := 1/2, cameraY := 1/2, centerX := 1/2, centerY := 1/2,
    isTileVisible := fun _ _ _ => .Full, sqrtFn := fun _ => 0 }

/-- A concrete mercator coverage configuration (with a trivial bounding-box
type) used by the witnesses: target zoom zero, world copies rendered, every
box fully visible. -/
def mercSampleArgs : MercCoverArgs Unit :=
  { zIn := 0, minzoom := some 0, maxzoom := some 0, reparseOverscaled := false,
    renderWorldCopies := true, hasTerrain := false, pitch := 0,
    edgeInsetTop := 0, optionsTileSize := 512, transformTileSize := 512,
    cameraX := 0, cameraY := 0, centerX := 0, centerY := 0,
    rootAabb := fun _ _ => (), aabbIntersects := fun _ => .Full,
    aabbDistanceX := fun _ _ => 0, aabbDistanceY := fun _ _ => 0,
    aabbQuadrant := fun _ _ => (), terrainAdjust := fun _ _ _ _ _ => (),
    sqrtFn := fun _ => 0 }

/-- Dot product of two Vec3. -/
def dot3 (v w : Vec3) : ℚ := v.x * w.x + v.y * w.y + v.z * w.z

/-! # Theorems -/

/-! ## C6 -/

/-- C6: for every 4-byte read-back buffer, parseRGBA8float computes exactly
the rational expression (byte0/256 + byte1/65536 + byte2/16777216), negated
when byte3 < 127, then divided by 128. -/
theorem C6_parseRGBA8float_exact (b0 b1 b2 b3 : ℕ) :
    parseRGBA8float b0 b1 b2 b3 =
      (if b3 < 127 then
          -((b0 : ℚ) / 256 + (b1 : ℚ) / 65536 + (b2 : ℚ) / 16777216)
        else ((b0 : ℚ) / 256 + (b1 : ℚ) / 65536 + (b2 : ℚ) / 16777216)) / 128 := by
  have hcast : ((b3 : ℚ) < 127) ↔ (b3 < 127) := by
    constructor
    · intro h
      exact_mod_cast h
    · intro h
      exact_mod_cast h
  simp only [parseRGBA8float]
  by_cases h : b3 < 127
  · rw [if_pos (hcast.mpr h), if_pos h]
    ring
  · rw [if_neg (fun hq => h (hcast.mp hq)), if_neg h]
    ring

/-! ## C7 -/

/-- C7: in every step of the error-measurement loop, at most one read-back is
outstanding: a pending read-back is never replaced (it is either kept or
cleared), and a new read-back appears only when none was pending and at least
the cooldown number of frames elapsed since the last completed read-back, and
it is stamped with the current frame. -/
theorem C7_single_outstanding_readback (s : ErrState) (inp : ErrInput) :
    (∀ q', (updateErrorLoop s inp).1.readbackQueue = some q' →
        s.readbackQueue = some q' ∨
          (s.readbackQueue = none ∧
            s.lastReadbackFrame + measureWaitFrames ≤ s.updateCount ∧
            q'.frameNumberIssued = s.updateCount)) ∧
    (∀ q, s.readbackQueue = some q →
        (updateErrorLoop s inp).1.readbackQueue = none ∨
          (updateErrorLoop s inp).1.readbackQueue = some q) := by
  obtain ⟨uc, lrf, me, npi, rq⟩ := s
  obtain ⟨wgl, wait, p0, p1, p2, p3⟩ := inp
  cases rq with
  | none =>
    constructor
    · intro q' hq'
      simp only [updateErrorLoop, renderErrorTexture] at hq'
      split_ifs at hq' with h1 h2
      · right
        rw [Option.some_inj] at hq'
        subst hq'
        exact ⟨rfl, h1, rfl⟩
      · right
        rw [Option.some_inj] at hq'
        subst hq'
        exact ⟨rfl, h1, rfl⟩
    · intro q hq
      cases hq
  | some q0 =>
    constructor
    · intro q' hq'
      simp only [updateErrorLoop, tryReadback] at hq'
      split_ifs at hq' with h1 h2 <;> cases wait <;> simp_all
    · intro q hq
      rw [Option.some_inj] at hq
      subst hq
      simp only [updateErrorLoop, tryReadback]
      split_ifs with h1 h2 <;> cases wait <;> simp_all

/-- C7 witness: at frame 10 with no pending read-back and the last read-back
completed at frame 0, a new read-back is enqueued and stamped with frame 10;
and a pending read-back (queued at frame 2) is cleared when the fence poll
fails. -/
theorem C7_single_outstanding_readback_witness :
    ((⟨10, 0, 0, 0, none⟩ : ErrState).readbackQueue = some ⟨0, 10⟩ ∨
      ((⟨10, 0, 0, 0, none⟩ : ErrState).readbackQueue = none ∧
        (⟨10, 0, 0, 0, none⟩ : ErrState).lastReadbackFrame + measureWaitFrames ≤
          (⟨10, 0, 0, 0, none⟩ : ErrState).updateCount ∧
        (⟨0, 10⟩ : ReadbackQueueEntry).frameNumberIssued =
          (⟨10, 0, 0, 0, none⟩ : ErrState).updateCount)) ∧
    ((updateErrorLoop ⟨10, 0, 0, 0, some ⟨1, 2⟩⟩
        ⟨true, .waitFailed, 0, 0, 0, 0⟩).1.readbackQueue = none ∨
      (updateErrorLoop ⟨10, 0, 0, 0, some ⟨1, 2⟩⟩
        ⟨true, .waitFailed, 0, 0, 0, 0⟩).1.readbackQueue = some ⟨1, 2⟩) :=
  ⟨(C7_single_outstanding_readback ⟨10, 0, 0, 0, none⟩
      ⟨true, .timeoutExpired, 0, 0, 0, 0⟩).1 ⟨0, 10⟩ (by decide),
   (C7_single_outstanding_readback ⟨10, 0, 0, 0, some ⟨1, 2⟩⟩
      ⟨true, .waitFailed, 0, 0, 0, 0⟩).2 ⟨1, 2⟩ (by decide)⟩

/-! ## C5 -/

/-- smoothStep with edges 0 and 1 always lands in [0, 1]. -/
theorem smoothStep01 (x : ℚ) : 0 ≤ smoothStep 0 1 x ∧ smoothStep 0 1 x ≤ 1 := by
  simp only [smoothStep, clampQ]
  set t := min (max ((x - 0) / (1 - 0)) 0) 1 with ht
  have ht0 : 0 ≤ t := le_min (le_max_right _ _) zero_le_one
  have ht1 : t ≤ 1 := min_le_right _ _
  constructor
  · nlinarith
  · nlinarith [sq_nonneg (1 - t)]

/-- smoothStep evaluations at the endpoints. -/
theorem smoothStep_endpoints : smoothStep 0 1 0 = 0 ∧ smoothStep 0 1 1 = 1 := by
  unfold smoothStep clampQ
  norm_num

/-- One _updateAnimation step always leaves globeness inside [0, 1]. -/
theorem updateAnimation_globeness_01 (s : AnimState) (inp : AnimInput) :
    0 ≤ (updateAnimation s inp).globeness ∧ (updateAnimation s inp).globeness ≤ 1 :=
  smoothStep01 _

/-- The skip-animation flag forces the immediate endpoint value. -/
theorem updateAnimation_skip (s : AnimState) (inp : AnimInput)
    (hskip : s.skipNextAnimation = true) :
    (inp.globeEnabled = true → zoomPermitsGlobe s inp →
        (updateAnimation s inp).globeness = 1) ∧
    (inp.globeEnabled = false → (updateAnimation s inp).globeness = 0) := by
  obtain ⟨lgse, lgct, llzsc, llzs, skip, g⟩ := s
  obtain ⟨en, now, zoom⟩ := inp
  simp only at hskip
  subst hskip
  constructor
  · intro hen hz
    obtain ⟨hz1, hz2, hz3⟩ := hz
    simp only at hen hz1 hz2 hz3
    subst hen
    subst hz2
    have hzs : decide (zoom ≥ maxGlobeZoom) = false :=
      decide_eq_false (not_le.mpr hz1)
    have hztrans :
        min (max ((now - llzsc) / 1000 / zoomTransitionTimeSeconds) 0) 1 = 1 := by
      have h05 : (0:ℚ) < zoomTransitionTimeSeconds := by
        unfold zoomTransitionTimeSeconds; norm_num
      have : (1:ℚ) ≤ (now - llzsc) / 1000 / zoomTransitionTimeSeconds := by
        rw [div_div]
        rw [le_div_iff₀ (by positivity)]
        calc (1:ℚ) * (1000 * zoomTransitionTimeSeconds)
            = zoomTransitionTimeSeconds * 1000 := by ring
          _ ≤ now - llzsc := hz3
      have hmax : max ((now - llzsc) / 1000 / zoomTransitionTimeSeconds) 0 =
          (now - llzsc) / 1000 / zoomTransitionTimeSeconds :=
        max_eq_left (by linarith)
      rw [hmax]
      exact min_eq_right this
    simp only [updateAnimation, hzs]
    cases lgse <;>
      simp only [ne_eq, decide_eq_true_eq, reduceCtorEq, not_true_eq_false,
        not_false_eq_true, if_true, if_false, ite_true, ite_false, hztrans] <;>
      · rw [min_self]
        exact smoothStep_endpoints.2
  · intro hen
    simp only at hen
    subst hen
    cases lgse <;> cases hc : decide (zoom ≥ maxGlobeZoom) <;> cases llzs <;>
      simp only [updateAnimation, hc, ne_eq, reduceCtorEq, decide_eq_true_eq,
        not_true_eq_false, not_false_eq_true, if_true, if_false, ite_true, ite_false,
        Bool.false_eq_true, Bool.true_eq_false] <;>
      · rw [min_eq_left ?_]
        · exact smoothStep_endpoints.1
        · first
          | exact le_min (le_max_right _ _) zero_le_one
          | linarith [min_le_right
              (max ((now - now) / 1000 / zoomTransitionTimeSeconds) 0) (1:ℚ)]
          | linarith [min_le_right
              (max ((now - llzsc) / 1000 / zoomTransitionTimeSeconds) 0) (1:ℚ)]

/-- C5: over any nonempty sequence of animation updates the globeness
transition factor ends (and, by induction, stays) inside [0, 1]; and when the
skip-animation flag is set the next update forces globeness to exactly 1 when
globe is enabled (and zoom permits it) and to exactly 0 when disabled. -/
theorem C5_globeness_invariant :
    (∀ (s : AnimState) (inputs : List AnimInput), inputs ≠ [] →
        0 ≤ (inputs.foldl updateAnimation s).globeness ∧
          (inputs.foldl updateAnimation s).globeness ≤ 1) ∧
    (∀ (s : AnimState) (inp : AnimInput), s.skipNextAnimation = true →
        ((inp.globeEnabled = true → zoomPermitsGlobe s inp →
            (updateAnimation s inp).globeness = 1) ∧
          (inp.globeEnabled = false → (updateAnimation s inp).globeness = 0))) := by
  constructor
  · intro s inputs hne
    induction inputs generalizing s with
    | nil => exact absurd rfl hne
    | cons a t ih =>
      cases t with
      | nil => exact updateAnimation_globeness_01 s a
      | cons b u => exact ih (updateAnimation s a) (by simp)
  · intro s inp hskip
    exact updateAnimation_skip s inp hskip

/-- C5 witness: from a fresh state with the skip flag set, a single update at
time 10000 with globe enabled yields globeness exactly 1 (zoom 0 permits the
globe), and with globe disabled yields exactly 0; the folded form stays in
[0, 1]. -/
theorem C5_globeness_invariant_witness :
    (0 ≤ (([⟨true, 10000, 0⟩] : List AnimInput).foldl updateAnimation
        ⟨true, -1000, -1000, false, true, 0⟩).globeness ∧
      (([⟨true, 10000, 0⟩] : List AnimInput).foldl updateAnimation
        ⟨true, -1000, -1000, false, true, 0⟩).globeness ≤ 1) ∧
    (updateAnimation ⟨true, -1000, -1000, false, true, 0⟩ ⟨true, 10000, 0⟩).globeness = 1 ∧
    (updateAnimation ⟨true, -1000, -1000, false, true, 0⟩ ⟨false, 10000, 0⟩).globeness = 0 :=
  ⟨C5_globeness_invariant.1 ⟨true, -1000, -1000, false, true, 0⟩ [⟨true, 10000, 0⟩]
      (by simp),
   (C5_globeness_invariant.2 ⟨true, -1000, -1000, false, true, 0⟩ ⟨true, 10000, 0⟩ rfl).1
      rfl (by
        refine ⟨?_, rfl, ?_⟩
        · unfold maxGlobeZoom; norm_num
        · unfold zoomTransitionTimeSeconds; norm_num),
   (C5_globeness_invariant.2 ⟨true, -1000, -1000, false, true, 0⟩ ⟨false, 10000, 0⟩ rfl).2
      rfl⟩

/-! ## C4 -/

/-- Rotation about z preserves the dot product. -/
theorem dot3_rotZ (s c : ℚ) (h : s ^ 2 + c ^ 2 = 1) (v w : Vec3) :
    dot3 (rotZ s c v) (rotZ s c w) = dot3 v w := by
  simp only [dot3, rotZ]
  linear_combination (v.x * w.x + v.y * w.y) * h

/-- Rotation about x preserves the dot product. -/
theorem dot3_rotX (s c : ℚ) (h : s ^ 2 + c ^ 2 = 1) (v w : Vec3) :
    dot3 (rotX s c v) (rotX s c w) = dot3 v w := by
  simp only [dot3, rotX]
  linear_combination (v.y * w.y + v.z * w.z) * h

/-- Rotation about y preserves the dot product. -/
theorem dot3_rotY (s c : ℚ) (h : s ^ 2 + c ^ 2 = 1) (v w : Vec3) :
    dot3 (rotY s c v) (rotY s c w) = dot3 v w := by
  simp only [dot3, rotY]
  linear_combination (v.x * w.x + v.z * w.z) * h

/-- The unit-sphere point of the map center is the image of (0,0,1) under the
same latitude/longitude rotations that _computeClippingPlane applies to the
plane normal. -/
theorem angularVector_eq_rot (sLng cLng sLat cLat : ℚ) :
    angularVector sLng cLng sLat cLat =
      rotY sLng cLng (rotX (-sLat) cLat ⟨0, 0, 1⟩) := by
  simp only [angularVector, rotY, rotX, Vec3.mk.injEq]
  refine ⟨by ring, by ring, by ring⟩

/-- C4: the clipping plane computed by _computeClippingPlane classifies the
unit-sphere point at the map center (the point directly facing the camera) as
visible (positive plane evaluation) and its antipode as not visible (negative
plane evaluation); and isOccluded reports true exactly when the projected
sphere point evaluates negatively against the plane.  Hypotheses: the sine
and cosine of bearing, latitude and longitude are genuine (unit-circle)
pairs, the pitch is in [0, 90) degrees so its cosine is positive, the camera
is at positive distance, and the square-root function returns the genuine
positive square root at the one argument where it is applied. -/
theorem C4_clipping_plane_classifies (i : ClippingPlaneInputs)
    (hLat : i.sinLat ^ 2 + i.cosLat ^ 2 = 1)
    (hLng : i.sinLng ^ 2 + i.cosLng ^ 2 = 1)
    (hcos : 0 < i.cosPitch) (hdist : 0 < i.distanceCameraToB)
    (hSpos : 0 < i.sqrtFn ((i.sinPitch * i.distanceCameraToB) * (i.sinPitch * i.distanceCameraToB) +
        (i.cosPitch * i.distanceCameraToB + 1) * (i.cosPitch * i.distanceCameraToB + 1))) :
    0 < planeEval (computeClippingPlane i).1 (computeClippingPlane i).2
        (angularVector i.sinLng i.cosLng i.sinLat i.cosLat) ∧
    planeEval (computeClippingPlane i).1 (computeClippingPlane i).2
        (vecNeg (angularVector i.sinLng i.cosLng i.sinLat i.cosLat)) < 0 ∧
    (∀ (projectToSphere : ℚ → ℚ → Vec3) (x y : ℚ),
        isOccludedGlobe projectToSphere (computeClippingPlane i) x y = true ↔
          planeEval (computeClippingPlane i).1 (computeClippingPlane i).2
            (projectToSphere x y) < 0) := by
  set dCA := i.sinPitch * i.distanceCameraToB with hdCA
  set dAC := i.cosPitch * i.distanceCameraToB + 1 with hdAC
  set S := i.sqrtFn (dCA * dCA + dAC * dAC) with hSdef
  have hneg : -dCA * -dCA + dAC * dAC = dCA * dCA + dAC * dAC := by ring
  have hCP : computeClippingPlane i =
      (⟨(rotY i.sinLng i.cosLng (rotX (-i.sinLat) i.cosLat
            (rotZ i.sinAngle i.cosAngle ⟨0, -dCA / S, dAC / S⟩))).x * 0.25,
        (rotY i.sinLng i.cosLng (rotX (-i.sinLat) i.cosLat
            (rotZ i.sinAngle i.cosAngle ⟨0, -dCA / S, dAC / S⟩))).y * 0.25,
        (rotY i.sinLng i.cosLng (rotX (-i.sinLat) i.cosLat
            (rotZ i.sinAngle i.cosAngle ⟨0, -dCA / S, dAC / S⟩))).z * 0.25⟩,
        -(1 / S * 1) * 0.25) := by
    simp only [computeClippingPlane]
    rw [hneg]
  have hdAC1 : 1 < dAC := by
    rw [hdAC]
    nlinarith
  have hP := angularVector_eq_rot i.sinLng i.cosLng i.sinLat i.cosLat
  have hLatneg : (-i.sinLat) ^ 2 + i.cosLat ^ 2 = 1 := by linear_combination hLat
  have hdot :
      dot3 (rotY i.sinLng i.cosLng (rotX (-i.sinLat) i.cosLat
          (rotZ i.sinAngle i.cosAngle ⟨0, -dCA / S, dAC / S⟩)))
        (angularVector i.sinLng i.cosLng i.sinLat i.cosLat) = dAC / S := by
    rw [hP, dot3_rotY _ _ hLng, dot3_rotX _ _ hLatneg]
    simp only [dot3, rotZ]
    ring
  have hEvalP : planeEval (computeClippingPlane i).1 (computeClippingPlane i).2
      (angularVector i.sinLng i.cosLng i.sinLat i.cosLat) =
      0.25 * (dAC / S) + -(1 / S * 1) * 0.25 := by
    rw [hCP]
    simp only [planeEval]
    rw [show
      (rotY i.sinLng i.cosLng (rotX (-i.sinLat) i.cosLat
          (rotZ i.sinAngle i.cosAngle ⟨0, -dCA / S, dAC / S⟩))).x * 0.25 *
          (angularVector i.sinLng i.cosLng i.sinLat i.cosLat).x +
        (rotY i.sinLng i.cosLng (rotX (-i.sinLat) i.cosLat
          (rotZ i.sinAngle i.cosAngle ⟨0, -dCA / S, dAC / S⟩))).y * 0.25 *
          (angularVector i.sinLng i.cosLng i.sinLat i.cosLat).y +
        (rotY i.sinLng i.cosLng (rotX (-i.sinLat) i.cosLat
          (rotZ i.sinAngle i.cosAngle ⟨0, -dCA / S, dAC / S⟩))).z * 0.25 *
          (angularVector i.sinLng i.cosLng i.sinLat i.cosLat).z =
      0.25 * dot3 (rotY i.sinLng i.cosLng (rotX (-i.sinLat) i.cosLat
          (rotZ i.sinAngle i.cosAngle ⟨0, -dCA / S, dAC / S⟩)))
        (angularVector i.sinLng i.cosLng i.sinLat i.cosLat) from by
      simp only [dot3]; ring]
    rw [hdot]
  have hEvalN : planeEval (computeClippingPlane i).1 (computeClippingPlane i).2
      (vecNeg (angularVector i.sinLng i.cosLng i.sinLat i.cosLat)) =
      -(0.25 * (dAC / S)) + -(1 / S * 1) * 0.25 := by
    have hswap : ∀ (n : Vec3) (d : ℚ) (p : Vec3),
        planeEval n d (vecNeg p) = -(planeEval n d p) + 2 * d := by
      intro n d p
      simp only [planeEval, vecNeg]
      ring
    have hd2 : (computeClippingPlane i).2 = -(1 / S * 1) * 0.25 := by rw [hCP]
    rw [hswap, hEvalP, hd2]
    ring
  refine ⟨?_, ?_, ?_⟩
  · rw [hEvalP]
    have : 0.25 * (dAC / S) + -(1 / S * 1) * 0.25 = 0.25 * ((dAC - 1) / S) := by
      field_simp
      ring
    rw [this]
    exact mul_pos (by norm_num) (div_pos (by linarith) hSpos)
  · rw [hEvalN]
    have hpos : 0 < 0.25 * (dAC / S) := by positivity
    have hpos2 : 0 < 1 / S * 1 * 0.25 := by positivity
    nlinarith
  · intro projectToSphere x y
    simp only [isOccludedGlobe, planeEval, decide_eq_true_eq]

/-- C4 witness: pitch 0, bearing/latitude/longitude 0, camera at one globe
radius from the surface point (distanceCameraToB = 1), exact square root. -/
theorem C4_clipping_plane_classifies_witness :
    0 < planeEval (computeClippingPlane ⟨fun q => if q = 4 then 2 else 0, 0, 1, 1, 0, 1, 0, 1, 0, 1⟩).1
        (computeClippingPlane ⟨fun q => if q = 4 then 2 else 0, 0, 1, 1, 0, 1, 0, 1, 0, 1⟩).2
        (angularVector 0 1 0 1) ∧
    planeEval (computeClippingPlane ⟨fun q => if q = 4 then 2 else 0, 0, 1, 1, 0, 1, 0, 1, 0, 1⟩).1
        (computeClippingPlane ⟨fun q => if q = 4 then 2 else 0, 0, 1, 1, 0, 1, 0, 1, 0, 1⟩).2
        (vecNeg (angularVector 0 1 0 1)) < 0 ∧
    (isOccludedGlobe (fun _ _ => ⟨0, 0, -1⟩)
        (computeClippingPlane ⟨fun q => if q = 4 then 2 else 0, 0, 1, 1, 0, 1, 0, 1, 0, 1⟩) 0 0 = true ↔
      planeEval (computeClippingPlane ⟨fun q => if q = 4 then 2 else 0, 0, 1, 1, 0, 1, 0, 1, 0, 1⟩).1
        (computeClippingPlane ⟨fun q => if q = 4 then 2 else 0, 0, 1, 1, 0, 1, 0, 1, 0, 1⟩).2
        ((fun _ _ => (⟨0, 0, -1⟩ : Vec3)) (0:ℚ) (0:ℚ)) < 0) := by
  have h := C4_clipping_plane_classifies ⟨fun q => if q = 4 then 2 else 0, 0, 1, 1, 0, 1, 0, 1, 0, 1⟩
    (by norm_num) (by norm_num) (by norm_num) (by norm_num) (by norm_num)
  exact ⟨h.1, h.2.1, h.2.2 (fun _ _ => ⟨0, 0, -1⟩) 0 0⟩

/-! ## C9 -/

/-- C9: projectVertexToViewport keeps the projection cache consistent: every
cached entry equals the true projection of its vertex and that projection has
strictly positive signed distance from the camera; and when a vertex projects
with non-positive depth, nothing is written into the cache (the synthesized
substitute is only returned). -/
theorem C9_cache_only_front_facing (index : ℤ) (args : ProjArgs)
    (cache : ProjectionCache) (sva : SyntheticVertexArgs)
    (hc : projectionsConsistent args cache) :
    projectionsConsistent args (projectVertexToViewport index args cache sva).2 ∧
    ((trueProjection args index).signedDistanceFromCamera ≤ 0 →
      (projectVertexToViewport index args cache sva).2.projections = cache.projections) := by
  unfold projectVertexToViewport
  cases hcc : cache.projections index with
  | some p =>
    exact ⟨hc, fun _ => rfl⟩
  | none =>
    by_cases hp : 0 < (projectTileCoordinatesToViewport (args.lineVertexArray index).x
        (args.lineVertexArray index).y args).signedDistanceFromCamera
    · rw [if_pos hp]
      constructor
      · intro i q hq
        by_cases hi : i = index
        · subst hi
          simp only [Function.update_same] at hq
          rw [Option.some_inj] at hq
          subst hq
          exact ⟨hp, rfl⟩
        · simp only [Function.update_noteq hi] at hq
          exact hc i q hq
      · intro hle
        exact absurd hp (not_lt.mpr hle)
    · rw [if_neg hp]
      exact ⟨hc, fun _ => rfl⟩

/-- C9 witness: a fresh cache is consistent and stays so after projecting
vertex 5 of the sample line. -/
theorem C9_cache_only_front_facing_witness :
    projectionsConsistent sampleArgs
      (projectVertexToViewport 5 sampleArgs emptyCache ⟨0, ⟨0, 0⟩, 1, 0⟩).2 ∧
    ((trueProjection sampleArgs 5).signedDistanceFromCamera ≤ 0 →
      (projectVertexToViewport 5 sampleArgs emptyCache ⟨0, ⟨0, 0⟩, 1, 0⟩).2.projections =
        emptyCache.projections) :=
  C9_cache_only_front_facing 5 sampleArgs emptyCache ⟨0, ⟨0, 0⟩, 1, 0⟩
    (fun i p h => absurd h (by simp [emptyCache]))

/-! ## C1 and C2: reference-walk lemmas -/

/-- Basic facts about a successful reference-walk step: the index advances by
the direction and stays in range, the distance accumulates, and the new
segment distance is a magnitude (hence nonnegative for a nonnegative square
root). -/
theorem pureAdvance_fields (args : ProjArgs) (d ls le : ℤ) (loy : ℚ)
    (st st' : WalkState)
    (h : pureAdvance args d ls le loy st = some st') :
    st'.currentIndex = st.currentIndex + d ∧
    st'.distanceFromAnchor = st.distanceFromAnchor + st.currentSegmentDistance ∧
    (∃ p : Pt, st'.currentSegmentDistance = p.mag args.sqrtFn) ∧
    ls ≤ st.currentIndex + d ∧ st.currentIndex + d < le := by
  simp only [pureAdvance] at h
  split_ifs at h with h1 <;>
    · push_neg at h1
      rw [Option.some_inj] at h
      subst h
      exact ⟨rfl, rfl, ⟨_, rfl⟩, h1.1, h1.2⟩

/-- A successful step consumes exactly one unit of walk fuel. -/
theorem pureAdvance_fuel (args : ProjArgs) (d ls le : ℤ) (loy : ℚ)
    (st st' : WalkState) (hd : d = 1 ∨ d = -1)
    (h : pureAdvance args d ls le loy st = some st') :
    walkFuel d ls le st'.currentIndex + 1 = walkFuel d ls le st.currentIndex := by
  obtain ⟨hci, -, -, hlo, hhi⟩ := pureAdvance_fields args d ls le loy st st' h
  rcases hd with hd | hd <;> subst hd <;> unfold walkFuel <;> rw [hci] <;>
    simp only [show ((1:ℤ) > 0) = True by simp, show ((-1:ℤ) > 0) = False by simp,
      if_true, if_false] <;> omega

/-- Magnitudes are nonnegative when the square root is. -/
theorem mag_nonneg (p : Pt) (f : ℚ → ℚ) (hs : ∀ q, 0 ≤ f q) : 0 ≤ p.mag f := hs _

/-- The total reference-walk length from a state is at least the distance
already accumulated at that state. -/
theorem pureTotalLen_ge (args : ProjArgs) (d ls le : ℤ) (loy : ℚ)
    (hs : ∀ q, 0 ≤ args.sqrtFn q) :
    ∀ (fuel : ℕ) (st : WalkState),
      st.distanceFromAnchor + st.currentSegmentDistance ≤
        pureTotalLen args d ls le loy fuel st := by
  intro fuel
  induction fuel with
  | zero =>
    intro st
    unfold pureTotalLen
    cases hA : pureAdvance args d ls le loy st with
    | none => exact le_refl _
    | some st' =>
      obtain ⟨-, hdfa, ⟨p, hcsd⟩, -, -⟩ := pureAdvance_fields args d ls le loy st st' hA
      have := mag_nonneg p args.sqrtFn hs
      dsimp only
      rw [hdfa, hcsd]
      linarith
  | succ k ih =>
    intro st
    unfold pureTotalLen
    cases hA : pureAdvance args d ls le loy st with
    | none => exact le_refl _
    | some st' =>
      obtain ⟨-, hdfa, ⟨p, hcsd⟩, -, -⟩ := pureAdvance_fields args d ls le loy st st' hA
      have h1 := mag_nonneg p args.sqrtFn hs
      have h2 := ih st'
      dsimp only
      rw [hdfa, hcsd] at h2
      linarith

/-- The reference walk fails (returns none) exactly when the total remaining
length from the state does not exceed the target distance. -/
theorem pureLoop_none_iff (args : ProjArgs) (a : ℚ) (d ls le : ℤ) (loy : ℚ)
    (hd : d = 1 ∨ d = -1) (hs : ∀ q, 0 ≤ args.sqrtFn q) :
    ∀ (fuel : ℕ) (st : WalkState), walkFuel d ls le st.currentIndex ≤ fuel →
      (pureLoop args a d ls le loy fuel st = none ↔
        pureTotalLen args d ls le loy fuel st ≤ a) := by
  intro fuel
  induction fuel with
  | zero =>
    intro st hfuel
    unfold pureLoop pureTotalLen
    by_cases hc : st.distanceFromAnchor + st.currentSegmentDistance ≤ a
    · rw [if_pos hc]
      cases hA : pureAdvance args d ls le loy st with
      | none =>
        dsimp only
        simpa using hc
      | some st' =>
        exfalso
        have := pureAdvance_fuel args d ls le loy st st' hd hA
        omega
    · rw [if_neg hc]
      cases hA : pureAdvance args d ls le loy st with
      | none =>
        dsimp only
        constructor
        · intro h
          exact absurd h (by simp)
        · intro h
          exact absurd h hc
      | some st' =>
        exfalso
        have := pureAdvance_fuel args d ls le loy st st' hd hA
        omega
  | succ k ih =>
    intro st hfuel
    unfold pureLoop pureTotalLen
    by_cases hc : st.distanceFromAnchor + st.currentSegmentDistance ≤ a
    · rw [if_pos hc]
      cases hA : pureAdvance args d ls le loy st with
      | none =>
        dsimp only
        simpa using hc
      | some st' =>
        dsimp only
        have hfu := pureAdvance_fuel args d ls le loy st st' hd hA
        exact ih st' (by omega)
    · rw [if_neg hc]
      cases hA : pureAdvance args d ls le loy st with
      | none =>
        dsimp only
        constructor
        · intro h
          exact absurd h (by simp)
        · intro h
          exact absurd h hc
      | some st' =>
        dsimp only
        constructor
        · intro h
          exact absurd h (by simp)
        · intro h
          obtain ⟨-, hdfa, ⟨p, hcsd⟩, -, -⟩ := pureAdvance_fields args d ls le loy st st' hA
          have h1 := mag_nonneg p args.sqrtFn hs
          have h2 := pureTotalLen_ge args d ls le loy hs k st'
          rw [hdfa, hcsd] at h2
          exact absurd (by linarith) hc

/-- The current index of the reference walk after k steps. -/
theorem pureStateAt_currentIndex (args : ProjArgs) (d ls le : ℤ) (loy : ℚ)
    (aseg : ℤ) :
    ∀ (k : ℕ) (st : WalkState),
      pureStateAt args d ls le loy aseg k = some st →
      st.currentIndex = (if d > 0 then ls + aseg else ls + aseg + 1) + d * k := by
  intro k
  induction k with
  | zero =>
    intro st h
    unfold pureStateAt at h
    rw [Option.some_inj] at h
    subst h
    simp [walkInit]
  | succ n ih =>
    intro st h
    unfold pureStateAt at h
    cases hP : pureStateAt args d ls le loy aseg n with
    | none => rw [hP] at h; exact absurd h (by simp)
    | some st0 =>
      rw [hP, Option.some_bind] at h
      obtain ⟨hci, -, -, -, -⟩ := pureAdvance_fields args d ls le loy st0 st h
      rw [hci, ih st0 hP]
      push_cast
      ring

/-- For a front-facing vertex, projectVertexToViewport returns the true
projection whether or not it is cached, keeps the projections cache
consistent, and leaves the offsets cache and cached anchor untouched. -/
theorem projectVertexToViewport_front (args : ProjArgs) (cache : ProjectionCache)
    (sva : SyntheticVertexArgs) (i : ℤ)
    (hc : projectionsConsistent args cache)
    (hp : 0 < (trueProjection args i).signedDistanceFromCamera) :
    (projectVertexToViewport i args cache sva).1 = (trueProjection args i).point ∧
    projectionsConsistent args (projectVertexToViewport i args cache sva).2 ∧
    (projectVertexToViewport i args cache sva).2.offsets = cache.offsets ∧
    (projectVertexToViewport i args cache sva).2.cachedAnchorPoint =
      cache.cachedAnchorPoint := by
  have hp' : 0 < (projectTileCoordinatesToViewport (args.lineVertexArray i).x
      (args.lineVertexArray i).y args).signedDistanceFromCamera := hp
  simp only [projectVertexToViewport]
  cases hcc : cache.projections i with
  | some p =>
    obtain ⟨-, hpv⟩ := hc i p hcc
    exact ⟨hpv, hc, rfl, rfl⟩
  | none =>
    rw [if_pos hp']
    refine ⟨rfl, ?_, rfl, rfl⟩
    intro j q hq
    by_cases hj : j = i
    · subst hj
      simp only [Function.update_same] at hq
      rw [Option.some_inj] at hq
      subst hq
      exact ⟨hp, rfl⟩
    · simp only [Function.update_noteq hj] at hq
      exact hc j q hq

/-- The vertex visited at step k+1 of the direction-d walk is on direction
d's side of the anchor, and stepsToIndex recovers k+1. -/
theorem dirOf_steps (ls aseg d : ℤ) (k : ℕ) (i : ℤ) (hd : d = 1 ∨ d = -1)
    (hi : i = (if d > 0 then ls + aseg else ls + aseg + 1) + d * k + d) :
    dirOfIndex ls aseg i = d ∧ stepsToIndex ls aseg i = k + 1 := by
  rcases hd with hd | hd <;> subst hd <;>
    simp only [show ((1:ℤ) > 0) = True by simp, show ((-1:ℤ) > 0) = False by simp,
      if_true, if_false] at hi <;>
    unfold dirOfIndex stepsToIndex
  · rw [if_pos (by omega), if_pos (by omega)]
    exact ⟨rfl, by omega⟩
  · rw [if_neg (by omega), if_neg (by omega)]
    exact ⟨rfl, by omega⟩

/-- findOffsetIntersectionPoint computes the canonical (reference-walk)
offset point of its vertex and keeps the cache consistent, provided every
vertex near the range is front-facing and the canonical offset point of this
vertex is the value this call would compute. -/
theorem findOffsetIntersectionPoint_eq_pure (args : ProjArgs) (loy : ℚ)
    (ls le aseg d i : ℤ) (normal cur offPrev : Pt)
    (cache : ProjectionCache) (sva : SyntheticVertexArgs)
    (hd : d = 1 ∨ d = -1) (hsd : sva.direction = d)
    (hf : frontFacing args ls le)
    (hcache : cacheConsistent args ls le aseg loy cache)
    (hr1 : ls ≤ i) (hr2 : i < le)
    (hfp : pureOffsetAt args ls le aseg loy i =
        some (pureFindOffsetIntersection args loy ls le d i normal cur offPrev)) :
    (findOffsetIntersectionPoint i normal cur ls le offPrev loy args cache sva).1 =
        pureFindOffsetIntersection args loy ls le d i normal cur offPrev ∧
      cacheConsistent args ls le aseg loy
        (findOffsetIntersectionPoint i normal cur ls le offPrev loy args cache sva).2 := by
  obtain ⟨hproj, hanch, hoffs⟩ := hcache
  simp only [findOffsetIntersectionPoint, hsd]
  cases hcc : cache.offsets i with
  | some p =>
    have hthis := hoffs i p hcc
    rw [hfp, Option.some_inj] at hthis
    exact ⟨hthis.symm, hproj, hanch, hoffs⟩
  | none =>
    by_cases hend : i + d < ls ∨ i + d ≥ le
    · rw [if_pos hend]
      have hpure : pureFindOffsetIntersection args loy ls le d i normal cur offPrev =
          cur.add normal := by
        unfold pureFindOffsetIntersection
        rw [if_pos hend]
      refine ⟨hpure.symm, hproj, hanch, ?_⟩
      intro j q hq
      by_cases hj : j = i
      · subst hj
        simp only [Function.update_same] at hq
        rw [Option.some_inj] at hq
        subst hq
        rw [hfp, hpure]
      · simp only [Function.update_noteq hj] at hq
        exact hoffs j q hq
    · rw [if_neg hend]
      have hsdc : 0 < (trueProjection args (i + d)).signedDistanceFromCamera := by
        rcases hd with hd1 | hd1 <;> subst hd1 <;>
          exact hf _ (by omega) (by omega)
      obtain ⟨hv1, hv2, hv3, hv4⟩ :=
        projectVertexToViewport_front args cache sva (i + d) hproj hsdc
      rw [hv1]
      have hpure : pureFindOffsetIntersection args loy ls le d i normal cur offPrev =
          (findLineIntersection offPrev (cur.add normal)
            (cur.add (transformToOffsetNormal
              (((trueProjection args (i + d)).point).sub cur) loy d args.sqrtFn))
            (((trueProjection args (i + d)).point).add (transformToOffsetNormal
              (((trueProjection args (i + d)).point).sub cur) loy d args.sqrtFn))).getD
            (cur.add normal) := by
        unfold pureFindOffsetIntersection
        rw [if_neg hend]
      refine ⟨hpure.symm, hv2, ?_, ?_⟩
      · intro q hq
        rw [hv4] at hq
        exact hanch q hq
      · intro j q hq
        simp only [hv3] at hq
        by_cases hj : j = i
        · subst hj
          simp only [Function.update_same] at hq
          rw [Option.some_inj] at hq
          subst hq
          rw [hfp, hpure]
        · simp only [Function.update_noteq hj] at hq
          exact hoffs j q hq

/-- One stateful loop iteration of placeGlyphAlongLine agrees with one step
of the reference walk and preserves cache consistency, when every vertex near
the range is front-facing and the canonical offset point of the newly visited
vertex is whatever the reference walk assigns it. -/
theorem placeGlyphStep_eq_pure (args : ProjArgs) (a : ℚ) (d ls le aseg : ℤ)
    (loy : ℚ) (hd : d = 1 ∨ d = -1) (hf : frontFacing args ls le)
    (st : WalkState) (cache : ProjectionCache)
    (hcache : cacheConsistent args ls le aseg loy cache)
    (hoffAt : ∀ st', pureAdvance args d ls le loy st = some st' →
        pureOffsetAt args ls le aseg loy (st.currentIndex + d) =
          st'.offsetIntersectionPoint) :
    (placeGlyphStep args a d ls le loy st cache).1 =
        pureAdvance args d ls le loy st ∧
      cacheConsistent args ls le aseg loy
        (placeGlyphStep args a d ls le loy st cache).2 := by
  obtain ⟨hproj, hanch, hoffs⟩ := hcache
  by_cases hrange : st.currentIndex + d < ls ∨ st.currentIndex + d ≥ le
  · constructor
    · simp only [placeGlyphStep, pureAdvance]
      rw [if_pos hrange, if_pos hrange]
    · simp only [placeGlyphStep]
      rw [if_pos hrange]
      exact ⟨hproj, hanch, hoffs⟩
  · have hsdc : 0 < (trueProjection args (st.currentIndex + d)).signedDistanceFromCamera :=
      hf _ (by omega) (by omega)
    obtain ⟨hv1, hv2, hv3, hv4⟩ := projectVertexToViewport_front args cache
      ⟨st.distanceFromAnchor + st.currentSegmentDistance, st.currentVertex, d, a⟩
      (st.currentIndex + d) hproj hsdc
    by_cases hloy : loy = 0
    · constructor
      · simp only [placeGlyphStep, pureAdvance]
        rw [if_neg hrange, if_neg hrange, if_pos hloy, if_pos hloy, hv1]
      · simp only [placeGlyphStep]
        rw [if_neg hrange, if_pos hloy]
        dsimp only
        refine ⟨hv2, ?_, ?_⟩
        · intro q hq
          rw [hv4] at hq
          exact hanch q hq
        · intro j q hq
          rw [hv3] at hq
          exact hoffs j q hq
    · by_cases hmag :
        (((trueProjection args (st.currentIndex + d)).point).sub st.currentVertex).mag
          args.sqrtFn = 0
      · -- zero-length first segment: the normal comes from the look-ahead vertex
        have hsdc2 : 0 <
            (trueProjection args (st.currentIndex + d + d)).signedDistanceFromCamera :=
          hf _ (by omega) (by omega)
        obtain ⟨hw1, hw2, hw3, hw4⟩ := projectVertexToViewport_front args
          (projectVertexToViewport (st.currentIndex + d) args cache
            ⟨st.distanceFromAnchor + st.currentSegmentDistance, st.currentVertex, d, a⟩).2
          ⟨st.distanceFromAnchor + st.currentSegmentDistance, st.currentVertex, d, a⟩
          (st.currentIndex + d + d) hv2 hsdc2
        have hA : pureAdvance args d ls le loy st =
            some { currentIndex := st.currentIndex + d,
                   distanceFromAnchor := st.distanceFromAnchor + st.currentSegmentDistance,
                   currentSegmentDistance :=
                     ((pureFindOffsetIntersection args loy ls le d (st.currentIndex + d)
                        (transformToOffsetNormal
                          (((trueProjection args (st.currentIndex + d + d)).point).sub
                            ((trueProjection args (st.currentIndex + d)).point))
                          loy d args.sqrtFn)
                        ((trueProjection args (st.currentIndex + d)).point)
                        (match st.offsetIntersectionPoint with
                         | some p => p
                         | none => st.currentVertex.add
                            (transformToOffsetNormal
                              (((trueProjection args (st.currentIndex + d + d)).point).sub
                                ((trueProjection args (st.currentIndex + d)).point))
                              loy d args.sqrtFn))).sub
                       (match st.offsetIntersectionPoint with
                        | some p => p
                        | none => st.currentVertex.add
                           (transformToOffsetNormal
                             (((trueProjection args (st.currentIndex + d + d)).point).sub
                               ((trueProjection args (st.currentIndex + d)).point))
                             loy d args.sqrtFn))).mag args.sqrtFn,
                   previousVertex := st.currentVertex,
                   currentVertex := (trueProjection args (st.currentIndex + d)).point,
                   offsetIntersectionPoint :=
                     some (pureFindOffsetIntersection args loy ls le d (st.currentIndex + d)
                        (transformToOffsetNormal
                          (((trueProjection args (st.currentIndex + d + d)).point).sub
                            ((trueProjection args (st.currentIndex + d)).point))
                          loy d args.sqrtFn)
                        ((trueProjection args (st.currentIndex + d)).point)
                        (match st.offsetIntersectionPoint with
                         | some p => p
                         | none => st.currentVertex.add
                            (transformToOffsetNormal
                              (((trueProjection args (st.currentIndex + d + d)).point).sub
                                ((trueProjection args (st.currentIndex + d)).point))
                              loy d args.sqrtFn))),
                   offsetPreviousVertex :=
                     some (match st.offsetIntersectionPoint with
                       | some p => p
                       | none => st.currentVertex.add
                          (transformToOffsetNormal
                            (((trueProjection args (st.currentIndex + d + d)).point).sub
                              ((trueProjection args (st.currentIndex + d)).point))
                            loy d args.sqrtFn)),
                   currentLineSegment :=
                     (pureFindOffsetIntersection args loy ls le d (st.currentIndex + d)
                        (transformToOffsetNormal
                          (((trueProjection args (st.currentIndex + d + d)).point).sub
                            ((trueProjection args (st.currentIndex + d)).point))
                          loy d args.sqrtFn)
                        ((trueProjection args (st.currentIndex + d)).point)
                        (match st.offsetIntersectionPoint with
                         | some p => p
                         | none => st.currentVertex.add
                            (transformToOffsetNormal
                              (((trueProjection args (st.currentIndex + d + d)).point).sub
                                ((trueProjection args (st.currentIndex + d)).point))
                              loy d args.sqrtFn))).sub
                       (match st.offsetIntersectionPoint with
                        | some p => p
                        | none => st.currentVertex.add
                           (transformToOffsetNormal
                             (((trueProjection args (st.currentIndex + d + d)).point).sub
                               ((trueProjection args (st.currentIndex + d)).point))
                             loy d args.sqrtFn)),
                   pathVertices := st.pathVertices ++
                     [match st.offsetIntersectionPoint with
                      | some p => p
                      | none => st.currentVertex.add
                         (transformToOffsetNormal
                           (((trueProjection args (st.currentIndex + d + d)).point).sub
                             ((trueProjection args (st.currentIndex + d)).point))
                           loy d args.sqrtFn)] } := by
          simp only [pureAdvance]
          rw [if_neg hrange, if_neg hloy, if_pos hmag]
        have hfp := hoffAt _ hA
        obtain ⟨hg1, hg2⟩ := findOffsetIntersectionPoint_eq_pure args loy ls le aseg d
          (st.currentIndex + d)
          (transformToOffsetNormal
            (((trueProjection args (st.currentIndex + d + d)).point).sub
              ((trueProjection args (st.currentIndex + d)).point)) loy d args.sqrtFn)
          ((trueProjection args (st.currentIndex + d)).point)
          (match st.offsetIntersectionPoint with
           | some p => p
           | none => st.currentVertex.add
              (transformToOffsetNormal
                (((trueProjection args (st.currentIndex + d + d)).point).sub
                  ((trueProjection args (st.currentIndex + d)).point)) loy d args.sqrtFn))
          (projectVertexToViewport (st.currentIndex + d + d) args
            (projectVertexToViewport (st.currentIndex + d) args cache
              ⟨st.distanceFromAnchor + st.currentSegmentDistance, st.currentVertex, d, a⟩).2
            ⟨st.distanceFromAnchor + st.currentSegmentDistance, st.currentVertex, d, a⟩).2
          ⟨st.distanceFromAnchor + st.currentSegmentDistance, st.currentVertex, d, a⟩
          hd rfl hf
          ⟨hw2, fun q hq => hanch q (by rw [hw4, hv4] at hq; exact hq),
            fun j q hq => hoffs j q (by rw [hw3, hv3] at hq; exact hq)⟩
          (by omega) (by omega) (by rw [hfp])
        constructor
        · simp only [placeGlyphStep]
          rw [if_neg hrange, if_neg hloy, hv1, if_pos hmag]
          dsimp only
          rw [hw1, hg1, hA]
        · simp only [placeGlyphStep]
          rw [if_neg hrange, if_neg hloy, hv1, if_pos hmag]
          dsimp only
          rw [hw1]
          exact hg2
      · -- normal case: the normal comes from the segment itself
        have hA : pureAdvance args d ls le loy st =
            some { currentIndex := st.currentIndex + d,
                   distanceFromAnchor := st.distanceFromAnchor + st.currentSegmentDistance,
                   currentSegmentDistance :=
                     ((pureFindOffsetIntersection args loy ls le d (st.currentIndex + d)
                        (transformToOffsetNormal
                          (((trueProjection args (st.currentIndex + d)).point).sub
                            st.currentVertex) loy d args.sqrtFn)
                        ((trueProjection args (st.currentIndex + d)).point)
                        (match st.offsetIntersectionPoint with
                         | some p => p
                         | none => st.currentVertex.add
                            (transformToOffsetNormal
                              (((trueProjection args (st.currentIndex + d)).point).sub
                                st.currentVertex) loy d args.sqrtFn))).sub
                       (match st.offsetIntersectionPoint with
                        | some p => p
                        | none => st.currentVertex.add
                           (transformToOffsetNormal
                             (((trueProjection args (st.currentIndex + d)).point).sub
                               st.currentVertex) loy d args.sqrtFn))).mag args.sqrtFn,
                   previousVertex := st.currentVertex,
                   currentVertex := (trueProjection args (st.currentIndex + d)).point,
                   offsetIntersectionPoint :=
                     some (pureFindOffsetIntersection args loy ls le d (st.currentIndex + d)
                        (transformToOffsetNormal
                          (((trueProjection args (st.currentIndex + d)).point).sub
                            st.currentVertex) loy d args.sqrtFn)
                        ((trueProjection args (st.currentIndex + d)).point)
                        (match st.offsetIntersectionPoint with
                         | some p => p
                         | none => st.currentVertex.add
                            (transformToOffsetNormal
                              (((trueProjection args (st.currentIndex + d)).point).sub
                                st.currentVertex) loy d args.sqrtFn))),
                   offsetPreviousVertex :=
                     some (match st.offsetIntersectionPoint with
                       | some p => p
                       | none => st.currentVertex.add
                          (transformToOffsetNormal
                            (((trueProjection args (st.currentIndex + d)).point).sub
                              st.currentVertex) loy d args.sqrtFn)),
                   currentLineSegment :=
                     (pureFindOffsetIntersection args loy ls le d (st.currentIndex + d)
                        (transformToOffsetNormal
                          (((trueProjection args (st.currentIndex + d)).point).sub
                            st.currentVertex) loy d args.sqrtFn)
                        ((trueProjection args (st.currentIndex + d)).point)
                        (match st.offsetIntersectionPoint with
                         | some p => p
                         | none => st.currentVertex.add
                            (transformToOffsetNormal
                              (((trueProjection args (st.currentIndex + d)).point).sub
                                st.currentVertex) loy d args.sqrtFn))).sub
                       (match st.offsetIntersectionPoint with
                        | some p => p
                        | none => st.currentVertex.add
                           (transformToOffsetNormal
                             (((trueProjection args (st.currentIndex + d)).point).sub
                               st.currentVertex) loy d args.sqrtFn)),
                   pathVertices := st.pathVertices ++
                     [match st.offsetIntersectionPoint with
                      | some p => p
                      | none => st.currentVertex.add
                         (transformToOffsetNormal
                           (((trueProjection args (st.currentIndex + d)).point).sub
                             st.currentVertex) loy d args.sqrtFn)] } := by
          simp only [pureAdvance]
          rw [if_neg hrange, if_neg hloy, if_neg hmag]
        have hfp := hoffAt _ hA
        obtain ⟨hg1, hg2⟩ := findOffsetIntersectionPoint_eq_pure args loy ls le aseg d
          (st.currentIndex + d)
          (transformToOffsetNormal
            (((trueProjection args (st.currentIndex + d)).point).sub st.currentVertex)
            loy d args.sqrtFn)
          ((trueProjection args (st.currentIndex + d)).point)
          (match st.offsetIntersectionPoint with
           | some p => p
           | none => st.currentVertex.add
              (transformToOffsetNormal
                (((trueProjection args (st.currentIndex + d)).point).sub st.currentVertex)
                loy d args.sqrtFn))
          (projectVertexToViewport (st.currentIndex + d) args cache
            ⟨st.distanceFromAnchor + st.currentSegmentDistance, st.currentVertex, d, a⟩).2
          ⟨st.distanceFromAnchor + st.currentSegmentDistance, st.currentVertex, d, a⟩
          hd rfl hf
          ⟨hv2, fun q hq => hanch q (by rw [hv4] at hq; exact hq),
            fun j q hq => hoffs j q (by rw [hv3] at hq; exact hq)⟩
          (by omega) (by omega) (by rw [hfp])
        constructor
        · simp only [placeGlyphStep]
          rw [if_neg hrange, if_neg hloy, hv1, if_neg hmag]
          dsimp only
          rw [hg1, hA]
        · simp only [placeGlyphStep]
          rw [if_neg hrange, if_neg hloy, hv1, if_neg hmag]
          dsimp only
          exact hg2

/-- The stateful while loop of placeGlyphAlongLine agrees with the reference
walk and keeps the cache consistent, as long as the starting state is a
reference-walk state (so cached offsets match what the walk computes). -/
theorem placeGlyphLoop_eq_pure (args : ProjArgs) (a : ℚ) (d ls le aseg : ℤ)
    (loy : ℚ) (hd : d = 1 ∨ d = -1) (hf : frontFacing args ls le) :
    ∀ (fuel k : ℕ) (st : WalkState) (cache : ProjectionCache),
      pureStateAt args d ls le loy aseg k = some st →
      cacheConsistent args ls le aseg loy cache →
      (placeGlyphLoop args a d ls le loy fuel st cache).1 =
          pureLoop args a d ls le loy fuel st ∧
        cacheConsistent args ls le aseg loy
          (placeGlyphLoop args a d ls le loy fuel st cache).2 := by
  intro fuel
  induction fuel with
  | zero =>
    intro k st cache hk hcache
    simp only [placeGlyphLoop, pureLoop]
    by_cases hc : st.distanceFromAnchor + st.currentSegmentDistance ≤ a
    · rw [if_pos hc, if_pos hc]
      exact ⟨rfl, hcache⟩
    · rw [if_neg hc, if_neg hc]
      exact ⟨rfl, hcache⟩
  | succ n ih =>
    intro k st cache hk hcache
    by_cases hc : st.distanceFromAnchor + st.currentSegmentDistance ≤ a
    · have hoffAt : ∀ st', pureAdvance args d ls le loy st = some st' →
          pureOffsetAt args ls le aseg loy (st.currentIndex + d) =
            st'.offsetIntersectionPoint := by
        intro st' hA
        have hst' : pureStateAt args d ls le loy aseg (k + 1) = some st' := by
          unfold pureStateAt
          rw [hk, Option.some_bind]
          exact hA
        have hci := pureStateAt_currentIndex args d ls le loy aseg k st hk
        obtain ⟨hdir, hsteps⟩ := dirOf_steps ls aseg d k (st.currentIndex + d) hd
          (by rw [hci])
        unfold pureOffsetAt
        rw [hdir, hsteps, hst']
      obtain ⟨hs1, hs2⟩ := placeGlyphStep_eq_pure args a d ls le aseg loy hd hf st cache
        hcache hoffAt
      rcases hS : placeGlyphStep args a d ls le loy st cache with ⟨o, c'⟩
      rw [hS] at hs1 hs2
      dsimp only at hs1 hs2
      simp only [placeGlyphLoop, pureLoop]
      rw [if_pos hc, if_pos hc, hS]
      cases hA : pureAdvance args d ls le loy st with
      | none =>
        rw [hA] at hs1
        subst hs1
        exact ⟨rfl, hs2⟩
      | some st' =>
        rw [hA] at hs1
        subst hs1
        dsimp only
        have hst' : pureStateAt args d ls le loy aseg (k + 1) = some st' := by
          unfold pureStateAt
          rw [hk, Option.some_bind]
          exact hA
        exact ih (k + 1) st' c' hst' hs2
    · simp only [placeGlyphLoop, pureLoop]
      rw [if_neg hc, if_neg hc]
      exact ⟨rfl, hcache⟩

/-- The while loop of placeGlyphAlongLine, started at the anchor with a
consistent cache, fails exactly when the remaining line length does not
exceed the target offset. -/
theorem placeGlyphTail_none_iff (args : ProjArgs) (c : ℚ) (d ls le aseg : ℤ)
    (loy : ℚ) (cache : ProjectionCache)
    (hd : d = 1 ∨ d = -1) (hf : frontFacing args ls le)
    (hcache : cacheConsistent args ls le aseg loy cache)
    (hs : ∀ q, 0 ≤ args.sqrtFn q) :
    (placeGlyphLoop args |c| d ls le loy
        (walkFuel d ls le (if d > 0 then ls + aseg else ls + aseg + 1))
        (walkInit (trueAnchor args) (if d > 0 then ls + aseg else ls + aseg + 1))
        cache).1 = none ↔
      lineRemainingLength args d ls le aseg loy ≤ |c| := by
  have hk0 : pureStateAt args d ls le loy aseg 0 =
      some (walkInit (trueAnchor args)
        (if d > 0 then ls + aseg else ls + aseg + 1)) := rfl
  obtain ⟨hL1, -⟩ := placeGlyphLoop_eq_pure args |c| d ls le aseg loy hd hf
    (walkFuel d ls le (if d > 0 then ls + aseg else ls + aseg + 1)) 0
    (walkInit (trueAnchor args) (if d > 0 then ls + aseg else ls + aseg + 1))
    cache hk0 hcache
  rw [hL1]
  have hiff := pureLoop_none_iff args |c| d ls le loy hd hs
    (walkFuel d ls le (if d > 0 then ls + aseg else ls + aseg + 1))
    (walkInit (trueAnchor args) (if d > 0 then ls + aseg else ls + aseg + 1))
    (le_refl _)
  rw [hiff]
  have hlrl : lineRemainingLength args d ls le aseg loy =
      pureTotalLen args d ls le loy
        (walkFuel d ls le (if d > 0 then ls + aseg else ls + aseg + 1))
        (walkInit (trueAnchor args) (if d > 0 then ls + aseg else ls + aseg + 1)) := rfl
  rw [hlrl]

/-- placeGlyphAlongLine returns null exactly when the line's remaining
projected length from the anchor (in the walk direction) does not exceed the
absolute combined offset. -/
theorem placeGlyphAlongLine_none_iff (offsetX lineOffsetX lineOffsetY : ℚ)
    (flip : Bool) (aseg ls le : ℤ) (args : ProjArgs) (rtl : Bool)
    (cache : ProjectionCache)
    (hf : frontFacing args ls le)
    (hcache : cacheConsistent args ls le aseg lineOffsetY cache)
    (hs : ∀ q, 0 ≤ args.sqrtFn q) :
    (placeGlyphAlongLine offsetX lineOffsetX lineOffsetY flip aseg ls le args rtl
        cache).1 = none ↔
      lineRemainingLength args (walkDirection offsetX lineOffsetX flip) ls le aseg
          lineOffsetY ≤ |combinedOffset offsetX lineOffsetX flip| := by
  have hCo : (if flip then offsetX - lineOffsetX else offsetX + lineOffsetX) =
      combinedOffset offsetX lineOffsetX flip := rfl
  have hDa : (if flip then
        (-(if combinedOffset offsetX lineOffsetX flip > 0 then (1:ℤ) else -1),
          args.piVal)
      else
        (if combinedOffset offsetX lineOffsetX flip > 0 then (1:ℤ) else -1,
          (0:ℚ))).1 =
      walkDirection offsetX lineOffsetX flip := by
    cases flip <;> simp [walkDirection, combinedOffset]
  have hd : walkDirection offsetX lineOffsetX flip = 1 ∨
      walkDirection offsetX lineOffsetX flip = -1 := by
    simp only [walkDirection]
    cases flip <;> simp only [Bool.false_eq_true, eq_self_iff_true, if_true, if_false] <;>
      split_ifs <;> norm_num
  simp only [placeGlyphAlongLine]
  rw [hCo, hDa]
  cases hac : cache.cachedAnchorPoint with
  | some p =>
    have hp : p = trueAnchor args := hcache.2.1 p hac
    dsimp only
    rw [hp]
    rcases hE : placeGlyphLoop args |combinedOffset offsetX lineOffsetX flip|
        (walkDirection offsetX lineOffsetX flip) ls le lineOffsetY
        (walkFuel (walkDirection offsetX lineOffsetX flip) ls le
          (if walkDirection offsetX lineOffsetX flip > 0 then ls + aseg
           else ls + aseg + 1))
        (walkInit (trueAnchor args)
          (if walkDirection offsetX lineOffsetX flip > 0 then ls + aseg
           else ls + aseg + 1)) cache with ⟨o, c2⟩
    have htail := placeGlyphTail_none_iff args
      (combinedOffset offsetX lineOffsetX flip)
      (walkDirection offsetX lineOffsetX flip) ls le aseg lineOffsetY cache
      hd hf hcache hs
    rw [hE] at htail
    cases o <;> simpa using htail
  | none =>
    have hcache' : cacheConsistent args ls le aseg lineOffsetY
        { cache with cachedAnchorPoint := some (trueAnchor args) } := by
      obtain ⟨h1, h2, h3⟩ := hcache
      exact ⟨h1, fun q hq => (Option.some_inj.mp hq).symm, h3⟩
    dsimp only
    rcases hE : placeGlyphLoop args |combinedOffset offsetX lineOffsetX flip|
        (walkDirection offsetX lineOffsetX flip) ls le lineOffsetY
        (walkFuel (walkDirection offsetX lineOffsetX flip) ls le
          (if walkDirection offsetX lineOffsetX flip > 0 then ls + aseg
           else ls + aseg + 1))
        (walkInit (trueAnchor args)
          (if walkDirection offsetX lineOffsetX flip > 0 then ls + aseg
           else ls + aseg + 1))
        { cache with cachedAnchorPoint := some (trueAnchor args) } with ⟨o, c2⟩
    have htail := placeGlyphTail_none_iff args
      (combinedOffset offsetX lineOffsetX flip)
      (walkDirection offsetX lineOffsetX flip) ls le aseg lineOffsetY
      { cache with cachedAnchorPoint := some (trueAnchor args) }
      hd hf hcache' hs
    rw [hE] at htail
    cases o <;> simpa using htail

/-- C1: placeGlyphAlongLine returns null exactly when the requested absolute
combined offset reaches or exceeds the line's remaining projected length from
the anchor in the walk direction — i.e. the vertex-by-vertex walk leaves the
vertex range [lineStartIndex, lineEndIndex) before accumulating the target
distance; a non-null placement is returned exactly when the target distance
is reached within the range.  Hypotheses: the square-root model is
nonnegative, every vertex near the range projects in front of the camera,
and the supplied cache is consistent. -/
theorem C1_placeGlyphAlongLine_null_iff (offsetX lineOffsetX lineOffsetY : ℚ)
    (flip : Bool) (aseg ls le : ℤ) (args : ProjArgs) (rtl : Bool)
    (cache : ProjectionCache)
    (hs : ∀ q, 0 ≤ args.sqrtFn q)
    (hf : frontFacing args ls le)
    (hcache : cacheConsistent args ls le aseg lineOffsetY cache) :
    (placeGlyphAlongLine offsetX lineOffsetX lineOffsetY flip aseg ls le args rtl
        cache).1 = none ↔
      lineRemainingLength args (walkDirection offsetX lineOffsetX flip) ls le aseg
          lineOffsetY ≤ |combinedOffset offsetX lineOffsetX flip| :=
  placeGlyphAlongLine_none_iff offsetX lineOffsetX lineOffsetY flip aseg ls le args
    rtl cache hf hcache hs

/-- C1 witness: the hypotheses hold and the theorem applies on a concrete
three-vertex horizontal line with the empty cache. -/
theorem C1_placeGlyphAlongLine_null_iff_witness :
    (∀ q, 0 ≤ sampleArgs.sqrtFn q) ∧ frontFacing sampleArgs 0 3 ∧
      cacheConsistent sampleArgs 0 3 0 0 emptyCache ∧
      ((placeGlyphAlongLine 300 0 0 false 0 0 3 sampleArgs false emptyCache).1 =
          none ↔
        lineRemainingLength sampleArgs (walkDirection 300 0 false) 0 3 0 0 ≤
          |combinedOffset 300 0 false|) := by
  have hs : ∀ q, 0 ≤ sampleArgs.sqrtFn q := by
    intro q
    simp only [sampleArgs, sampleSqrt]
    split_ifs <;> norm_num
  have hf : frontFacing sampleArgs 0 3 := by
    intro i h1 h2
    norm_num [trueProjection, projectTileCoordinatesToViewport, sampleArgs, project,
      identityMat4]
  have hcache : cacheConsistent sampleArgs 0 3 0 0 emptyCache :=
    ⟨fun i p h => absurd h (by simp [emptyCache]),
     fun p h => absurd h (by simp [emptyCache]),
     fun i p h => absurd h (by simp [emptyCache])⟩
  exact ⟨hs, hf, hcache,
    C1_placeGlyphAlongLine_null_iff 300 0 0 false 0 0 3 sampleArgs false emptyCache
      hs hf hcache⟩

/-- C2: for glyph offsets placed along the same line (same line offsets, flip
flag, line range, anchor segment and cache), if the first and last glyph
offsets of a monotonically increasing sequence both place successfully
(non-null), then every interior offset places successfully as well. -/
theorem C2_interior_glyphs_place (offF offI offL lineOffsetX lineOffsetY : ℚ)
    (flip : Bool) (aseg ls le : ℤ) (args : ProjArgs) (rtl : Bool)
    (cache : ProjectionCache)
    (hs : ∀ q, 0 ≤ args.sqrtFn q)
    (hf : frontFacing args ls le)
    (hcache : cacheConsistent args ls le aseg lineOffsetY cache)
    (h1 : offF ≤ offI) (h2 : offI ≤ offL)
    (hF : (placeGlyphAlongLine offF lineOffsetX lineOffsetY flip aseg ls le args rtl
        cache).1 ≠ none)
    (hL : (placeGlyphAlongLine offL lineOffsetX lineOffsetY flip aseg ls le args rtl
        cache).1 ≠ none) :
    (placeGlyphAlongLine offI lineOffsetX lineOffsetY flip aseg ls le args rtl
        cache).1 ≠ none := by
  rw [Ne, placeGlyphAlongLine_none_iff offF lineOffsetX lineOffsetY flip aseg ls le
    args rtl cache hf hcache hs, not_le] at hF
  rw [Ne, placeGlyphAlongLine_none_iff offL lineOffsetX lineOffsetY flip aseg ls le
    args rtl cache hf hcache hs, not_le] at hL
  rw [Ne, placeGlyphAlongLine_none_iff offI lineOffsetX lineOffsetY flip aseg ls le
    args rtl cache hf hcache hs, not_le]
  have hm1 : combinedOffset offF lineOffsetX flip ≤
      combinedOffset offI lineOffsetX flip := by
    unfold combinedOffset
    split_ifs <;> linarith
  have hm2 : combinedOffset offI lineOffsetX flip ≤
      combinedOffset offL lineOffsetX flip := by
    unfold combinedOffset
    split_ifs <;> linarith
  by_cases hc : combinedOffset offI lineOffsetX flip > 0
  · have hcL : combinedOffset offL lineOffsetX flip > 0 := lt_of_lt_of_le hc hm2
    have hdir : walkDirection offI lineOffsetX flip =
        walkDirection offL lineOffsetX flip := by
      simp only [walkDirection]
      rw [if_pos hc, if_pos hcL]
    have habs : |combinedOffset offI lineOffsetX flip| ≤
        |combinedOffset offL lineOffsetX flip| := by
      rw [abs_of_pos hc, abs_of_pos hcL]
      exact hm2
    rw [hdir]
    exact lt_of_le_of_lt habs hL
  · have hcF : ¬ combinedOffset offF lineOffsetX flip > 0 := by
      push_neg at hc ⊢
      linarith
    have hdir : walkDirection offI lineOffsetX flip =
        walkDirection offF lineOffsetX flip := by
      simp only [walkDirection]
      rw [if_neg hc, if_neg hcF]
    have habs : |combinedOffset offI lineOffsetX flip| ≤
        |combinedOffset offF lineOffsetX flip| := by
      push_neg at hc hcF
      rw [abs_of_nonpos hc, abs_of_nonpos hcF]
      linarith
    rw [hdir]
    exact lt_of_le_of_lt habs hF

/-- C2 witness: on a concrete two-vertex line (remaining length 100) the
endpoint offsets 10 and 30 place successfully, and the theorem yields success
for the interior offset 20. -/
theorem C2_interior_glyphs_place_witness :
    (∀ q, 0 ≤ sampleArgs.sqrtFn q) ∧ frontFacing sampleArgs 0 2 ∧
      cacheConsistent sampleArgs 0 2 0 0 emptyCache ∧
      (10 : ℚ) ≤ 20 ∧ (20 : ℚ) ≤ 30 ∧
      (placeGlyphAlongLine 10 0 0 false 0 0 2 sampleArgs false emptyCache).1 ≠ none ∧
      (placeGlyphAlongLine 30 0 0 false 0 0 2 sampleArgs false emptyCache).1 ≠ none ∧
      (placeGlyphAlongLine 20 0 0 false 0 0 2 sampleArgs false emptyCache).1 ≠ none := by
  have hs : ∀ q, 0 ≤ sampleArgs.sqrtFn q := by
    intro q
    simp only [sampleArgs, sampleSqrt]
    split_ifs <;> norm_num
  have hf : frontFacing sampleArgs 0 2 := by
    intro i h1 h2
    norm_num [trueProjection, projectTileCoordinatesToViewport, sampleArgs, project,
      identityMat4]
  have hcache : cacheConsistent sampleArgs 0 2 0 0 emptyCache :=
    ⟨fun i p h => absurd h (by simp [emptyCache]),
     fun p h => absurd h (by simp [emptyCache]),
     fun i p h => absurd h (by simp [emptyCache])⟩
  have hanch : trueAnchor sampleArgs = ⟨0, 0⟩ := by
    norm_num [trueAnchor, projectTileCoordinatesToViewport, sampleArgs, project,
      identityMat4, Pt.mk.injEq]
  have hA0 : pureAdvance sampleArgs 1 0 2 0 (walkInit ⟨0, 0⟩ 0) =
      some { currentIndex := 1, distanceFromAnchor := 0,
             currentSegmentDistance := 100, previousVertex := ⟨0, 0⟩,
             currentVertex := ⟨100, 0⟩, offsetIntersectionPoint := none,
             offsetPreviousVertex := none, currentLineSegment := ⟨100, 0⟩,
             pathVertices := [⟨0, 0⟩] } := by
    norm_num [pureAdvance, walkInit, trueProjection, projectTileCoordinatesToViewport,
      sampleArgs, project, identityMat4, Pt.sub, Pt.mag, sampleSqrt,
      WalkState.mk.injEq, Pt.mk.injEq]
  have hA1 : pureAdvance sampleArgs 1 0 2 0
      { currentIndex := 1, distanceFromAnchor := 0,
        currentSegmentDistance := 100, previousVertex := ⟨0, 0⟩,
        currentVertex := ⟨100, 0⟩, offsetIntersectionPoint := none,
        offsetPreviousVertex := none, currentLineSegment := ⟨100, 0⟩,
        pathVertices := [⟨0, 0⟩] } = none := by
    norm_num [pureAdvance]
  have hLRL : lineRemainingLength sampleArgs 1 0 2 0 0 = 100 := by
    simp only [lineRemainingLength]
    rw [show (if (1:ℤ) > 0 then (0:ℤ) + 0 else 0 + 0 + 1) = 0 by decide]
    rw [hanch]
    rw [show walkFuel 1 0 2 0 = 2 by decide]
    rw [show (2:ℕ) = 1 + 1 from rfl]
    simp only [pureTotalLen]
    rw [hA0]
    dsimp only
    rw [hA1]
    dsimp only
    norm_num
  have hdirF : walkDirection 10 0 false = 1 := by
    norm_num [walkDirection, combinedOffset]
  have hdirL : walkDirection 30 0 false = 1 := by
    norm_num [walkDirection, combinedOffset]
  have hF : (placeGlyphAlongLine 10 0 0 false 0 0 2 sampleArgs false
      emptyCache).1 ≠ none := by
    rw [Ne, placeGlyphAlongLine_none_iff 10 0 0 false 0 0 2 sampleArgs false
      emptyCache hf hcache hs, hdirF, hLRL]
    norm_num [combinedOffset]
  have hL : (placeGlyphAlongLine 30 0 0 false 0 0 2 sampleArgs false
      emptyCache).1 ≠ none := by
    rw [Ne, placeGlyphAlongLine_none_iff 30 0 0 false 0 0 2 sampleArgs false
      emptyCache hf hcache hs, hdirL, hLRL]
    norm_num [combinedOffset]
  exact ⟨hs, hf, hcache, by norm_num, by norm_num, hF, hL,
    C2_interior_glyphs_place 10 20 30 0 0 false 0 0 2 sampleArgs false emptyCache
      hs hf hcache (by norm_num) (by norm_num) hF hL⟩

/-! ## C3 and C10: quadtree and split-decision lemmas -/

/-- Every node is in its own subtree. -/
theorem isDesc_refl (n : QNode) : isDesc n n := by
  refine ⟨rfl, le_refl _, ?_, ?_⟩ <;> simp

/-- Subtree membership is transitive. -/
theorem isDesc_trans (a b c : QNode) (h1 : isDesc a b) (h2 : isDesc b c) :
    isDesc a c := by
  obtain ⟨hw1, hz1, hx1, hy1⟩ := h1
  obtain ⟨hw2, hz2, hx2, hy2⟩ := h2
  refine ⟨hw1.trans hw2, hz1.trans hz2, ?_, ?_⟩
  · rw [show c.zoom - a.zoom = (c.zoom - b.zoom) + (b.zoom - a.zoom) from by omega,
      pow_add, ← Nat.div_div_eq_div_mul, hx2, hx1]
  · rw [show c.zoom - a.zoom = (c.zoom - b.zoom) + (b.zoom - a.zoom) from by omega,
      pow_add, ← Nat.div_div_eq_div_mul, hy2, hy1]

/-- A quadtree child lies in its parent's subtree. -/
theorem isDesc_child (w : ℤ) (z x y dx dy : ℕ) (hdx : dx ≤ 1) (hdy : dy ≤ 1) :
    isDesc ⟨w, z, x, y⟩ ⟨w, z + 1, 2 * x + dx, 2 * y + dy⟩ := by
  unfold isDesc
  dsimp only
  refine ⟨rfl, by omega, ?_, ?_⟩ <;>
    · rw [show z + 1 - z = 1 from by omega, pow_one]
      omega

/-- Disjointness of subtrees is symmetric. -/
theorem subtreeDisjoint_symm {n n' : QNode} (h : subtreeDisjoint n n') :
    subtreeDisjoint n' n :=
  fun m h1 h2 => h m h2 h1

/-- Two distinct nodes at the same zoom level have disjoint subtrees. -/
theorem subtreeDisjoint_of_same_zoom (n n' : QNode) (hz : n.zoom = n'.zoom)
    (hne : n ≠ n') : subtreeDisjoint n n' := by
  intro m h1 h2
  obtain ⟨hw1, hz1, hx1, hy1⟩ := h1
  obtain ⟨hw2, hz2, hx2, hy2⟩ := h2
  apply hne
  have hx : n.x = n'.x := by rw [← hx1, ← hx2, hz]
  have hy : n.y = n'.y := by rw [← hy1, ← hy2, hz]
  have hw : n.wrap = n'.wrap := hw1.trans hw2.symm
  cases n
  cases n'
  simp_all

/-- A subtree of a node disjoint from `q` is itself disjoint from `q`. -/
theorem subtreeDisjoint_of_desc (p c q : QNode) (hd : isDesc p c)
    (h : subtreeDisjoint p q) : subtreeDisjoint c q :=
  fun m h1 h2 => h m (isDesc_trans p c m hd h1) h2

/-- The horizontal part of distanceToTileWrapX never exceeds half a world;
hence the whole distance is bounded by the vertical part or 1/2. -/
theorem distanceToTileWrapX_le (pointX pointY cx cy ts : ℚ) (hts : 0 ≤ ts) :
    distanceToTileWrapX pointX pointY cx cy ts ≤
      max (1 / 2) (distanceToTileSimple pointY cy ts) := by
  simp only [distanceToTileWrapX]
  refine max_le_max ?_ (le_refl _)
  split_ifs with h1 h2
  · rcases le_or_lt (-(pointX - cx)) (1 / 2) with h | h
    · exact le_trans (min_le_left _ _) h
    · exact le_trans (min_le_right _ _) (by linarith)
  · exact le_trans (min_le_right _ _) (by linarith)
  · norm_num

/-- distanceToTileSimple is at most one world size when both the point and
the tile corner lie inside the unit world. -/
theorem distanceToTileSimple_le_one (p t ts : ℚ) (hp0 : 0 ≤ p) (hp1 : p ≤ 1)
    (ht0 : 0 ≤ t) (ht1 : t ≤ 1) (hts : 0 ≤ ts) :
    distanceToTileSimple p t ts ≤ 1 := by
  simp only [distanceToTileSimple]
  split_ifs with h
  · linarith
  · exact max_le (by norm_num) (by linarith)

/-- The globe split condition always holds: any tile is within
radiusOfMaxLvlLodInTiles/2 of the map center after pole/antimeridian
wrapping, as long as the center's mercator Y is inside the unit world. -/
theorem globeSplit_true (cX cY pX pY : ℚ) (z x y : ℕ) (hy : y < 2 ^ z)
    (hCY0 : 0 ≤ cY) (hCY1 : cY ≤ 1) :
    min (distanceToTile cX cY ((x : ℚ) / 2 ^ z) ((y : ℚ) / 2 ^ z) (1 / 2 ^ z))
        (distanceToTile pX pY ((x : ℚ) / 2 ^ z) ((y : ℚ) / 2 ^ z) (1 / 2 ^ z)) * 2 ≤
      globeRadiusOfMaxLvlLodInTiles := by
  have hpow : (0 : ℚ) < 2 ^ z := by positivity
  have hts : (0 : ℚ) ≤ 1 / 2 ^ z := by positivity
  have hty0 : (0 : ℚ) ≤ (y : ℚ) / 2 ^ z := by positivity
  have hty1 : (y : ℚ) / 2 ^ z ≤ 1 := by
    rw [div_le_one hpow]
    have : (y : ℚ) < ((2 ^ z : ℕ) : ℚ) := by exact_mod_cast hy
    push_cast at this
    linarith
  have hY : distanceToTileSimple cY ((y : ℚ) / 2 ^ z) (1 / 2 ^ z) ≤ 1 :=
    distanceToTileSimple_le_one cY ((y : ℚ) / 2 ^ z) (1 / 2 ^ z)
      hCY0 hCY1 hty0 hty1 hts
  have hW : distanceToTileWrapX cX cY ((x : ℚ) / 2 ^ z) ((y : ℚ) / 2 ^ z)
      (1 / 2 ^ z) ≤ 1 := by
    refine le_trans (distanceToTileWrapX_le cX cY _ _ _ hts) ?_
    exact max_le (by norm_num) hY
  have hC : distanceToTile cX cY ((x : ℚ) / 2 ^ z) ((y : ℚ) / 2 ^ z)
      (1 / 2 ^ z) ≤ 1 := by
    simp only [distanceToTile]
    refine le_trans ?_ hW
    exact le_trans (min_le_left _ _) (le_trans (min_le_left _ _) (min_le_right _ _))
  have hmin : min (distanceToTile cX cY ((x : ℚ) / 2 ^ z) ((y : ℚ) / 2 ^ z) (1 / 2 ^ z))
      (distanceToTile pX pY ((x : ℚ) / 2 ^ z) ((y : ℚ) / 2 ^ z) (1 / 2 ^ z)) ≤ 1 :=
    le_trans (min_le_left _ _) hC
  simp only [globeRadiusOfMaxLvlLodInTiles]
  linarith

/-- When the globe traversal emits a popped node, the node is at the target
zoom (the split condition always holds on a globe), and the entry satisfies
the globe entry invariant and carries the node's canonical coordinates. -/
theorem globeCoverStep_inl (A : GlobeCoverArgs) (maxZoom overscaledZ : ℤ)
    (cameraPointX cameraPointY centerPointX centerPointY : ℚ)
    (it : GlobeStackNode) (fv : Bool) (e : CoverResultEntry)
    (hOK : globeNodeOK maxZoom it)
    (hCY0 : 0 ≤ A.centerY) (hCY1 : A.centerY ≤ 1)
    (hstep : globeCoverStep A maxZoom overscaledZ cameraPointX cameraPointY
        centerPointX centerPointY it fv = .inl e) :
    globeEntryInv maxZoom overscaledZ cameraPointX cameraPointY centerPointX
        centerPointY e ∧
      entryNodeQ 0 e = globeNodeQ it := by
  obtain ⟨hz, hx, hy⟩ := hOK
  simp only [globeCoverStep] at hstep
  by_cases hzm : (it.zoom : ℤ) = maxZoom
  · rw [if_pos (Or.inl hzm), if_pos hzm] at hstep
    injection hstep with he
    subst he
    exact ⟨⟨hzm, hx, hy, rfl, rfl⟩, rfl⟩
  · have hsplit : decide (min
        (distanceToTile A.centerX A.centerY ((it.x : ℚ) / 2 ^ it.zoom)
          ((it.y : ℚ) / 2 ^ it.zoom) (1 / 2 ^ it.zoom))
        (distanceToTile A.cameraX A.cameraY ((it.x : ℚ) / 2 ^ it.zoom)
          ((it.y : ℚ) / 2 ^ it.zoom) (1 / 2 ^ it.zoom)) * 2 ≤
        globeRadiusOfMaxLvlLodInTiles) = true :=
      decide_eq_true (globeSplit_true A.centerX A.centerY A.cameraX A.cameraY
        it.zoom it.x it.y hy hCY0 hCY1)
    have hnot : ¬((it.zoom : ℤ) = maxZoom ∨
        decide (min
          (distanceToTile A.centerX A.centerY ((it.x : ℚ) / 2 ^ it.zoom)
            ((it.y : ℚ) / 2 ^ it.zoom) (1 / 2 ^ it.zoom))
          (distanceToTile A.cameraX A.cameraY ((it.x : ℚ) / 2 ^ it.zoom)
            ((it.y : ℚ) / 2 ^ it.zoom) (1 / 2 ^ it.zoom)) * 2 ≤
          globeRadiusOfMaxLvlLodInTiles) = false) := by
      push_neg
      refine ⟨hzm, ?_⟩
      rw [hsplit]
      simp
    rw [if_neg hnot] at hstep
    exact absurd hstep (by simp)

/-- When the globe traversal splits a popped node, the node is strictly above
the target zoom, and the four children are valid, lie in the parent's
subtree, and have pairwise disjoint subtrees. -/
theorem globeCoverStep_inr (A : GlobeCoverArgs) (maxZoom overscaledZ : ℤ)
    (cameraPointX cameraPointY centerPointX centerPointY : ℚ)
    (it : GlobeStackNode) (fv : Bool) (cs : List GlobeStackNode)
    (hOK : globeNodeOK maxZoom it)
    (hCY0 : 0 ≤ A.centerY) (hCY1 : A.centerY ≤ 1)
    (hstep : globeCoverStep A maxZoom overscaledZ cameraPointX cameraPointY
        centerPointX centerPointY it fv = .inr cs) :
    (∀ c ∈ cs, globeNodeOK maxZoom c ∧ isDesc (globeNodeQ it) (globeNodeQ c)) ∧
      List.Pairwise (fun c c' => subtreeDisjoint (globeNodeQ c) (globeNodeQ c')) cs := by
  obtain ⟨hz, hx, hy⟩ := hOK
  simp only [globeCoverStep] at hstep
  by_cases hzm : (it.zoom : ℤ) = maxZoom
  case pos =>
    rw [if_pos (Or.inl hzm)] at hstep
    exact absurd hstep (by simp)
  case neg =>
    have hnot : ¬((it.zoom : ℤ) = maxZoom ∨
        decide (min
          (distanceToTile A.centerX A.centerY ((it.x : ℚ) / 2 ^ it.zoom)
            ((it.y : ℚ) / 2 ^ it.zoom) (1 / 2 ^ it.zoom))
          (distanceToTile A.cameraX A.cameraY ((it.x : ℚ) / 2 ^ it.zoom)
            ((it.y : ℚ) / 2 ^ it.zoom) (1 / 2 ^ it.zoom)) * 2 ≤
          globeRadiusOfMaxLvlLodInTiles) = false) := by
      push_neg
      refine ⟨hzm, ?_⟩
      intro hcontra
      rw [decide_eq_false_iff_not] at hcontra
      exact hcontra (globeSplit_true A.centerX A.centerY A.cameraX A.cameraY
        it.zoom it.x it.y hy hCY0 hCY1)
    rw [if_neg hnot] at hstep
    have hzlt : (it.zoom : ℤ) < maxZoom := lt_of_le_of_ne hz hzm
    injection hstep with he
    subst he
    have hb : ∀ dx dy : ℕ, dx ≤ 1 → dy ≤ 1 →
        globeNodeOK maxZoom ⟨2 * it.x + dx, 2 * it.y + dy, it.zoom + 1, fv⟩ ∧
          isDesc (globeNodeQ it)
            (globeNodeQ ⟨2 * it.x + dx, 2 * it.y + dy, it.zoom + 1, fv⟩) := by
      intro dx dy hdx hdy
      constructor
      · refine ⟨by push_cast; omega, ?_, ?_⟩ <;>
          · dsimp only
            rw [pow_succ]
            omega
      · exact isDesc_child 0 it.zoom it.x it.y dx dy hdx hdy
    have hd : ∀ dx dy dx' dy' : ℕ, ¬(dx = dx' ∧ dy = dy') →
        subtreeDisjoint
          (globeNodeQ ⟨2 * it.x + dx, 2 * it.y + dy, it.zoom + 1, fv⟩)
          (globeNodeQ ⟨2 * it.x + dx', 2 * it.y + dy', it.zoom + 1, fv⟩) := by
      intro dx dy dx' dy' hne
      refine subtreeDisjoint_of_same_zoom _ _ ?_ ?_
      · rfl
      · simp only [ne_eq, globeNodeQ, QNode.mk.injEq]
        omega
    constructor
    · intro c hc
      simp only [List.mem_cons, List.not_mem_nil, or_false] at hc
      rcases hc with rfl | rfl | rfl | rfl
      · exact hb 1 1 (by norm_num) (by norm_num)
      · exact hb 0 1 (by norm_num) (by norm_num)
      · exact hb 1 0 (by norm_num) (by norm_num)
      · exact hb 0 0 (by norm_num) (by norm_num)
    · refine List.Pairwise.cons ?_ (List.Pairwise.cons ?_ (List.Pairwise.cons ?_
        (List.Pairwise.cons ?_ List.Pairwise.nil)))
      · intro c' hc'
        simp only [List.mem_cons, List.not_mem_nil, or_false] at hc'
        rcases hc' with rfl | rfl | rfl
        · exact hd 1 1 0 1 (by omega)
        · exact hd 1 1 1 0 (by omega)
        · exact hd 1 1 0 0 (by omega)
      · intro c' hc'
        simp only [List.mem_cons, List.not_mem_nil, or_false] at hc'
        rcases hc' with rfl | rfl
        · exact hd 0 1 1 0 (by omega)
        · exact hd 0 1 0 0 (by omega)
      · intro c' hc'
        simp only [List.mem_cons, List.not_mem_nil, or_false] at hc'
        rcases hc' with rfl
        exact hd 1 0 0 0 (by omega)
      · intro c' hc'
        exact absurd hc' (List.not_mem_nil _)

/-- Every entry the globe traversal emits picks its wrap among -1, 0, 1 as
one minimizing the horizontal distance from the map center to the tile or
its left/right world copies. -/
theorem globeCoverStep_wrapOK (A : GlobeCoverArgs) (maxZoom overscaledZ : ℤ)
    (cameraPointX cameraPointY centerPointX centerPointY : ℚ)
    (it : GlobeStackNode) (fv : Bool) (e : CoverResultEntry)
    (hstep : globeCoverStep A maxZoom overscaledZ cameraPointX cameraPointY
        centerPointX centerPointY it fv = .inl e) :
    globeWrapOK A e.tileID := by
  simp only [globeCoverStep] at hstep
  split at hstep
  · injection hstep with he
    subst he
    simp only [globeWrapOK]
    by_cases hR : min (distanceToTileSimple A.centerX ((it.x : ℚ) / 2 ^ it.zoom)
          (1 / 2 ^ it.zoom))
        (min (distanceToTileSimple A.centerX ((it.x : ℚ) / 2 ^ it.zoom - 1)
            (1 / 2 ^ it.zoom))
          (distanceToTileSimple A.centerX ((it.x : ℚ) / 2 ^ it.zoom + 1)
            (1 / 2 ^ it.zoom))) =
        distanceToTileSimple A.centerX ((it.x : ℚ) / 2 ^ it.zoom + 1) (1 / 2 ^ it.zoom)
    · rw [if_pos hR]
      refine ⟨Or.inr (Or.inr rfl), ?_⟩
      push_cast
      exact hR.symm
    · rw [if_neg hR]
      by_cases hL : min (distanceToTileSimple A.centerX ((it.x : ℚ) / 2 ^ it.zoom)
            (1 / 2 ^ it.zoom))
          (min (distanceToTileSimple A.centerX ((it.x : ℚ) / 2 ^ it.zoom - 1)
              (1 / 2 ^ it.zoom))
            (distanceToTileSimple A.centerX ((it.x : ℚ) / 2 ^ it.zoom + 1)
              (1 / 2 ^ it.zoom))) =
          distanceToTileSimple A.centerX ((it.x : ℚ) / 2 ^ it.zoom - 1) (1 / 2 ^ it.zoom)
      · rw [if_pos hL]
        refine ⟨Or.inl rfl, ?_⟩
        push_cast
        rw [show (it.x : ℚ) / 2 ^ it.zoom + -1 = (it.x : ℚ) / 2 ^ it.zoom - 1 from by
          ring]
        exact hL.symm
      · rw [if_neg hL]
        refine ⟨Or.inr (Or.inl rfl), ?_⟩
        push_cast
        rw [add_zero]
        rcases min_cases (distanceToTileSimple A.centerX ((it.x : ℚ) / 2 ^ it.zoom)
            (1 / 2 ^ it.zoom))
          (min (distanceToTileSimple A.centerX ((it.x : ℚ) / 2 ^ it.zoom - 1)
              (1 / 2 ^ it.zoom))
            (distanceToTileSimple A.centerX ((it.x : ℚ) / 2 ^ it.zoom + 1)
              (1 / 2 ^ it.zoom))) with ⟨hm, -⟩ | ⟨hm, -⟩
        · exact hm.symm
        · exfalso
          rcases min_cases (distanceToTileSimple A.centerX
              ((it.x : ℚ) / 2 ^ it.zoom - 1) (1 / 2 ^ it.zoom))
            (distanceToTileSimple A.centerX
              ((it.x : ℚ) / 2 ^ it.zoom + 1) (1 / 2 ^ it.zoom)) with ⟨hm2, -⟩ | ⟨hm2, -⟩
          · exact hL (by rw [hm, hm2])
          · exact hR (by rw [hm, hm2])
  · exact absurd hstep (by simp)

/-- Master invariant of the globe depth-first traversal: starting from a
stack of valid nodes with pairwise disjoint subtrees, the loop appends to the
accumulator a list of entries that satisfy the globe entry invariant, each
descending from some stack node, with pairwise distinct canonical nodes. -/
theorem globeCoverLoop_master (A : GlobeCoverArgs) (maxZoom overscaledZ : ℤ)
    (cameraPointX cameraPointY centerPointX centerPointY : ℚ)
    (hCY0 : 0 ≤ A.centerY) (hCY1 : A.centerY ≤ 1) :
    ∀ (fuel : ℕ) (stack : List GlobeStackNode) (acc : List CoverResultEntry),
      (∀ it ∈ stack, globeNodeOK maxZoom it) →
      List.Pairwise (fun n n' => subtreeDisjoint (globeNodeQ n) (globeNodeQ n')) stack →
      ∃ new,
        globeCoverLoop A maxZoom overscaledZ cameraPointX cameraPointY
            centerPointX centerPointY fuel stack acc = acc ++ new ∧
        (∀ e ∈ new,
          globeEntryInv maxZoom overscaledZ cameraPointX cameraPointY
            centerPointX centerPointY e ∧
          globeWrapOK A e.tileID ∧
          ∃ i ∈ stack, isDesc (globeNodeQ i) (entryNodeQ 0 e)) ∧
        List.Pairwise (fun e e' => entryNodeQ 0 e ≠ entryNodeQ 0 e') new := by
  intro fuel
  induction fuel with
  | zero =>
    intro stack acc hS1 hS2
    refine ⟨[], ?_, by simp, List.Pairwise.nil⟩
    cases stack <;> simp [globeCoverLoop]
  | succ n ih =>
    intro stack acc hS1 hS2
    cases stack with
    | nil => exact ⟨[], by simp [globeCoverLoop], by simp, List.Pairwise.nil⟩
    | cons it rest =>
      have hS1r : ∀ i ∈ rest, globeNodeOK maxZoom i :=
        fun i hi => hS1 i (List.mem_cons_of_mem _ hi)
      have hS2r := hS2.of_cons
      have hOKit : globeNodeOK maxZoom it := hS1 it (List.mem_cons_self _ _)
      have hDisj : ∀ i ∈ rest, subtreeDisjoint (globeNodeQ it) (globeNodeQ i) :=
        (List.pairwise_cons.mp hS2).1
      have hskip :
          ∃ new,
            globeCoverLoop A maxZoom overscaledZ cameraPointX cameraPointY
                centerPointX centerPointY n rest acc = acc ++ new ∧
            (∀ e ∈ new,
              globeEntryInv maxZoom overscaledZ cameraPointX cameraPointY
                centerPointX centerPointY e ∧
              globeWrapOK A e.tileID ∧
              ∃ i ∈ it :: rest, isDesc (globeNodeQ i) (entryNodeQ 0 e)) ∧
            List.Pairwise (fun e e' => entryNodeQ 0 e ≠ entryNodeQ 0 e') new := by
        obtain ⟨new', hL, hP, hPw⟩ := ih rest acc hS1r hS2r
        refine ⟨new', hL, ?_, hPw⟩
        intro e he
        obtain ⟨hei, hw, i, hi, hdsc⟩ := hP e he
        exact ⟨hei, hw, i, List.mem_cons_of_mem _ hi, hdsc⟩
      have hinl : ∀ (fv : Bool) (entry : CoverResultEntry),
          globeCoverStep A maxZoom overscaledZ cameraPointX cameraPointY
            centerPointX centerPointY it fv = .inl entry →
          ∃ new,
            globeCoverLoop A maxZoom overscaledZ cameraPointX cameraPointY
                centerPointX centerPointY n rest (acc ++ [entry]) = acc ++ new ∧
            (∀ e ∈ new,
              globeEntryInv maxZoom overscaledZ cameraPointX cameraPointY
                centerPointX centerPointY e ∧
              globeWrapOK A e.tileID ∧
              ∃ i ∈ it :: rest, isDesc (globeNodeQ i) (entryNodeQ 0 e)) ∧
            List.Pairwise (fun e e' => entryNodeQ 0 e ≠ entryNodeQ 0 e') new := by
        intro fv entry hstep
        obtain ⟨hEI, hEN⟩ := globeCoverStep_inl A maxZoom overscaledZ cameraPointX
          cameraPointY centerPointX centerPointY it fv entry hOKit hCY0 hCY1 hstep
        obtain ⟨new', hL, hP, hPw⟩ := ih rest (acc ++ [entry]) hS1r hS2r
        refine ⟨entry :: new', ?_, ?_, ?_⟩
        · rw [hL, List.append_assoc]
          rfl
        · intro e he
          rcases List.mem_cons.mp he with rfl | he'
          · exact ⟨hEI, globeCoverStep_wrapOK A maxZoom overscaledZ cameraPointX
              cameraPointY centerPointX centerPointY it fv e hstep,
              it, List.mem_cons_self _ _, by rw [hEN]; exact isDesc_refl _⟩
          · obtain ⟨hei, hw, i, hi, hdsc⟩ := hP e he'
            exact ⟨hei, hw, i, List.mem_cons_of_mem _ hi, hdsc⟩
        · refine List.Pairwise.cons ?_ hPw
          intro e' he' heq
          obtain ⟨-, -, i, hi, hdsc⟩ := hP e' he'
          exact hDisj i hi (entryNodeQ 0 e')
            (by rw [← hEN, ← heq]; exact isDesc_refl _) hdsc
      have hinr : ∀ (fv : Bool) (children : List GlobeStackNode),
          globeCoverStep A maxZoom overscaledZ cameraPointX cameraPointY
            centerPointX centerPointY it fv = .inr children →
          ∃ new,
            globeCoverLoop A maxZoom overscaledZ cameraPointX cameraPointY
                centerPointX centerPointY n (children ++ rest) acc = acc ++ new ∧
            (∀ e ∈ new,
              globeEntryInv maxZoom overscaledZ cameraPointX cameraPointY
                centerPointX centerPointY e ∧
              globeWrapOK A e.tileID ∧
              ∃ i ∈ it :: rest, isDesc (globeNodeQ i) (entryNodeQ 0 e)) ∧
            List.Pairwise (fun e e' => entryNodeQ 0 e ≠ entryNodeQ 0 e') new := by
        intro fv children hstep
        obtain ⟨hCs, hCpw⟩ := globeCoverStep_inr A maxZoom overscaledZ cameraPointX
          cameraPointY centerPointX centerPointY it fv children hOKit hCY0 hCY1 hstep
        have hS1' : ∀ i ∈ children ++ rest, globeNodeOK maxZoom i := by
          intro i hi
          rcases List.mem_append.mp hi with h | h
          · exact (hCs i h).1
          · exact hS1r i h
        have hS2' : List.Pairwise (fun n n' => subtreeDisjoint (globeNodeQ n)
            (globeNodeQ n')) (children ++ rest) := by
          rw [List.pairwise_append]
          refine ⟨hCpw, hS2r, ?_⟩
          intro c hc r hr
          exact subtreeDisjoint_of_desc _ _ _ (hCs c hc).2 (hDisj r hr)
        obtain ⟨new', hL, hP, hPw⟩ := ih (children ++ rest) acc hS1' hS2'
        refine ⟨new', hL, ?_, hPw⟩
        intro e he
        obtain ⟨hei, hw, i, hi, hdsc⟩ := hP e he
        rcases List.mem_append.mp hi with h | h
        · exact ⟨hei, hw, it, List.mem_cons_self _ _,
            isDesc_trans _ _ _ (hCs i h).2 hdsc⟩
        · exact ⟨hei, hw, i, List.mem_cons_of_mem _ h, hdsc⟩
      simp only [globeCoverLoop]
      cases hfv : it.fullyVisible with
      | true =>
        rw [if_pos rfl]
        cases hstep : globeCoverStep A maxZoom overscaledZ cameraPointX cameraPointY
            centerPointX centerPointY it true with
        | inl entry =>
          dsimp only
          rw [hstep]
          exact hinl true entry hstep
        | inr children =>
          dsimp only
          rw [hstep]
          exact hinr true children hstep
      | false =>
        rw [if_neg Bool.false_ne_true]
        cases hvr : A.isTileVisible it.x it.y it.zoom with
        | None =>
          dsimp only
          exact hskip
        | Part =>
          dsimp only
          cases hstep : globeCoverStep A maxZoom overscaledZ cameraPointX cameraPointY
              centerPointX centerPointY it false with
          | inl entry =>
            dsimp only
            exact hinl false entry hstep
          | inr children =>
            dsimp only
            exact hinr false children hstep
        | Full =>
          dsimp only
          cases hstep : globeCoverStep A maxZoom overscaledZ cameraPointX cameraPointY
              centerPointX centerPointY it true with
          | inl entry =>
            dsimp only
            exact hinl true entry hstep
          | inr children =>
            dsimp only
            exact hinr true children hstep

/-- When the mercator traversal emits a popped node, the entry satisfies the
mercator entry invariant and carries the node's wrap and canonical
coordinates. -/
theorem mercCoverStep_inl {α : Type} (A : MercCoverArgs α)
    (maxZoom overscaledZ minZoom : ℤ)
    (r cameraPointX cameraPointY centerPointX centerPointY : ℚ)
    (it : MercStackNode α) (fv : Bool) (e : CoverResultEntry)
    (hOK : mercNodeOK maxZoom it)
    (hstep : mercCoverStep A maxZoom overscaledZ minZoom r cameraPointX cameraPointY
        centerPointX centerPointY it fv = .inl e) :
    mercEntryInv maxZoom overscaledZ minZoom centerPointX centerPointY e ∧
      entryNodeQ e.tileID.wrap e = mercNodeQ it ∧ e.tileID.wrap = it.wrap := by
  simp only [mercCoverStep] at hstep
  rcases hT : A.hasTerrain with - | -  <;>
    rw [hT] at hstep <;>
    simp only [Bool.false_eq_true, if_false, eq_self_iff_true, if_true] at hstep <;>
    · split at hstep
      next hcond =>
        injection hstep with he
        subst he
        refine ⟨⟨?_, hOK, rfl, rfl⟩, rfl, rfl⟩
        rcases hcond with hzm | ⟨-, hz⟩
        · exact Or.inr hzm
        · exact Or.inl hz
      next hcond => exact absurd hstep (by simp)

/-- When the mercator traversal splits a popped node, the node is strictly
above the target zoom, and the four children are valid, keep the parent's
wrap, lie in its subtree, and have pairwise disjoint subtrees. -/
theorem mercCoverStep_inr {α : Type} (A : MercCoverArgs α)
    (maxZoom overscaledZ minZoom : ℤ)
    (r cameraPointX cameraPointY centerPointX centerPointY : ℚ)
    (it : MercStackNode α) (fv : Bool) (cs : List (MercStackNode α))
    (hOK : mercNodeOK maxZoom it)
    (hstep : mercCoverStep A maxZoom overscaledZ minZoom r cameraPointX cameraPointY
        centerPointX centerPointY it fv = .inr cs) :
    (∀ c ∈ cs, mercNodeOK maxZoom c ∧ isDesc (mercNodeQ it) (mercNodeQ c) ∧
        c.wrap = it.wrap) ∧
      List.Pairwise (fun c c' => subtreeDisjoint (mercNodeQ c) (mercNodeQ c')) cs := by
  simp only [mercCoverStep] at hstep
  have hrest : ∀ hzlt : (it.zoom : ℤ) < maxZoom, ∀ (q3 q2 q1 q0 : α),
      cs = [⟨q3, it.zoom + 1, 2 * it.x + 1, 2 * it.y + 1, it.wrap, fv⟩,
            ⟨q2, it.zoom + 1, 2 * it.x, 2 * it.y + 1, it.wrap, fv⟩,
            ⟨q1, it.zoom + 1, 2 * it.x + 1, 2 * it.y, it.wrap, fv⟩,
            ⟨q0, it.zoom + 1, 2 * it.x, 2 * it.y, it.wrap, fv⟩] →
      (∀ c ∈ cs, mercNodeOK maxZoom c ∧ isDesc (mercNodeQ it) (mercNodeQ c) ∧
          c.wrap = it.wrap) ∧
        List.Pairwise (fun c c' => subtreeDisjoint (mercNodeQ c) (mercNodeQ c')) cs := by
    intro hzlt q3 q2 q1 q0 hcs
    subst hcs
    have hb : ∀ (q : α) (dx dy : ℕ), dx ≤ 1 → dy ≤ 1 →
        mercNodeOK maxZoom
          (⟨q, it.zoom + 1, 2 * it.x + dx, 2 * it.y + dy, it.wrap, fv⟩ :
            MercStackNode α) ∧
        isDesc (mercNodeQ it)
          (mercNodeQ (⟨q, it.zoom + 1, 2 * it.x + dx, 2 * it.y + dy, it.wrap, fv⟩ :
            MercStackNode α)) ∧
        (⟨q, it.zoom + 1, 2 * it.x + dx, 2 * it.y + dy, it.wrap, fv⟩ :
            MercStackNode α).wrap = it.wrap := by
      intro q dx dy hdx hdy
      refine ⟨?_, ?_, rfl⟩
      · show ((it.zoom + 1 : ℕ) : ℤ) ≤ maxZoom
        push_cast
        omega
      · exact isDesc_child it.wrap it.zoom it.x it.y dx dy hdx hdy
    have hd : ∀ (q q' : α) (dx dy dx' dy' : ℕ), ¬(dx = dx' ∧ dy = dy') →
        subtreeDisjoint
          (mercNodeQ (⟨q, it.zoom + 1, 2 * it.x + dx, 2 * it.y + dy, it.wrap, fv⟩ :
            MercStackNode α))
          (mercNodeQ (⟨q', it.zoom + 1, 2 * it.x + dx', 2 * it.y + dy', it.wrap, fv⟩ :
            MercStackNode α)) := by
      intro q q' dx dy dx' dy' hne
      refine subtreeDisjoint_of_same_zoom _ _ ?_ ?_
      · rfl
      · simp only [ne_eq, mercNodeQ, QNode.mk.injEq]
        omega
    constructor
    · intro c hc
      simp only [List.mem_cons, List.not_mem_nil, or_false] at hc
      rcases hc with rfl | rfl | rfl | rfl
      · exact hb _ 1 1 (by norm_num) (by norm_num)
      · exact hb _ 0 1 (by norm_num) (by norm_num)
      · exact hb _ 1 0 (by norm_num) (by norm_num)
      · exact hb _ 0 0 (by norm_num) (by norm_num)
    · refine List.Pairwise.cons ?_ (List.Pairwise.cons ?_ (List.Pairwise.cons ?_
        (List.Pairwise.cons ?_ List.Pairwise.nil)))
      · intro c' hc'
        simp only [List.mem_cons, List.not_mem_nil, or_false] at hc'
        rcases hc' with rfl | rfl | rfl
        · exact hd _ _ 1 1 0 1 (by omega)
        · exact hd _ _ 1 1 1 0 (by omega)
        · exact hd _ _ 1 1 0 0 (by omega)
      · intro c' hc'
        simp only [List.mem_cons, List.not_mem_nil, or_false] at hc'
        rcases hc' with rfl | rfl
        · exact hd _ _ 0 1 1 0 (by omega)
        · exact hd _ _ 0 1 0 0 (by omega)
      · intro c' hc'
        simp only [List.mem_cons, List.not_mem_nil, or_false] at hc'
        rcases hc' with rfl
        exact hd _ _ 1 0 0 0 (by omega)
      · intro c' hc'
        exact absurd hc' (List.not_mem_nil _)
  rcases hT : A.hasTerrain with - | - <;>
    rw [hT] at hstep <;>
    simp only [Bool.false_eq_true, if_false, eq_self_iff_true, if_true] at hstep <;>
    · split at hstep
      next hcond => exact absurd hstep (by simp)
      next hcond =>
        push_neg at hcond
        injection hstep with he
        exact hrest (lt_of_le_of_ne hOK hcond.1) _ _ _ _ he.symm

/-- Master invariant of the mercator depth-first traversal: starting from a
stack of valid nodes (zoom within target, wrap within the root range) with
pairwise disjoint subtrees, the loop appends entries that satisfy the
mercator entry invariant, have wraps in the root range, each descend from
some stack node, and have pairwise distinct canonical nodes. -/
theorem mercCoverLoop_master {α : Type} (A : MercCoverArgs α)
    (maxZoom overscaledZ minZoom : ℤ)
    (r cameraPointX cameraPointY centerPointX centerPointY : ℚ) :
    ∀ (fuel : ℕ) (stack : List (MercStackNode α)) (acc : List CoverResultEntry),
      (∀ it ∈ stack, mercNodeOK maxZoom it ∧ -3 ≤ it.wrap ∧ it.wrap ≤ 3) →
      List.Pairwise (fun n n' => subtreeDisjoint (mercNodeQ n) (mercNodeQ n')) stack →
      ∃ new,
        mercCoverLoop A maxZoom overscaledZ minZoom r cameraPointX cameraPointY
            centerPointX centerPointY fuel stack acc = acc ++ new ∧
        (∀ e ∈ new,
          mercEntryInv maxZoom overscaledZ minZoom centerPointX centerPointY e ∧
          (-3 ≤ e.tileID.wrap ∧ e.tileID.wrap ≤ 3) ∧
          ∃ i ∈ stack, isDesc (mercNodeQ i) (entryNodeQ e.tileID.wrap e)) ∧
        List.Pairwise (fun e e' =>
          entryNodeQ e.tileID.wrap e ≠ entryNodeQ e'.tileID.wrap e') new := by
  intro fuel
  induction fuel with
  | zero =>
    intro stack acc hS1 hS2
    refine ⟨[], ?_, by simp, List.Pairwise.nil⟩
    cases stack <;> simp [mercCoverLoop]
  | succ n ih =>
    intro stack acc hS1 hS2
    cases stack with
    | nil => exact ⟨[], by simp [mercCoverLoop], by simp, List.Pairwise.nil⟩
    | cons it rest =>
      have hS1r : ∀ i ∈ rest, mercNodeOK maxZoom i ∧ -3 ≤ i.wrap ∧ i.wrap ≤ 3 :=
        fun i hi => hS1 i (List.mem_cons_of_mem _ hi)
      have hS2r := hS2.of_cons
      have hOKit := hS1 it (List.mem_cons_self _ _)
      have hDisj : ∀ i ∈ rest, subtreeDisjoint (mercNodeQ it) (mercNodeQ i) :=
        (List.pairwise_cons.mp hS2).1
      have hskip :
          ∃ new,
            mercCoverLoop A maxZoom overscaledZ minZoom r cameraPointX cameraPointY
                centerPointX centerPointY n rest acc = acc ++ new ∧
            (∀ e ∈ new,
              mercEntryInv maxZoom overscaledZ minZoom centerPointX centerPointY e ∧
              (-3 ≤ e.tileID.wrap ∧ e.tileID.wrap ≤ 3) ∧
              ∃ i ∈ it :: rest, isDesc (mercNodeQ i) (entryNodeQ e.tileID.wrap e)) ∧
            List.Pairwise (fun e e' =>
              entryNodeQ e.tileID.wrap e ≠ entryNodeQ e'.tileID.wrap e') new := by
        obtain ⟨new', hL, hP, hPw⟩ := ih rest acc hS1r hS2r
        refine ⟨new', hL, ?_, hPw⟩
        intro e he
        obtain ⟨hei, hw, i, hi, hdsc⟩ := hP e he
        exact ⟨hei, hw, i, List.mem_cons_of_mem _ hi, hdsc⟩
      have hinl : ∀ (fv : Bool) (entry : CoverResultEntry),
          mercCoverStep A maxZoom overscaledZ minZoom r cameraPointX cameraPointY
            centerPointX centerPointY it fv = .inl entry →
          ∃ new,
            mercCoverLoop A maxZoom overscaledZ minZoom r cameraPointX cameraPointY
                centerPointX centerPointY n rest (acc ++ [entry]) = acc ++ new ∧
            (∀ e ∈ new,
              mercEntryInv maxZoom overscaledZ minZoom centerPointX centerPointY e ∧
              (-3 ≤ e.tileID.wrap ∧ e.tileID.wrap ≤ 3) ∧
              ∃ i ∈ it :: rest, isDesc (mercNodeQ i) (entryNodeQ e.tileID.wrap e)) ∧
            List.Pairwise (fun e e' =>
              entryNodeQ e.tileID.wrap e ≠ entryNodeQ e'.tileID.wrap e') new := by
        intro fv entry hstep
        obtain ⟨hEI, hEN, hEW⟩ := mercCoverStep_inl A maxZoom overscaledZ minZoom r
          cameraPointX cameraPointY centerPointX centerPointY it fv entry
          hOKit.1 hstep
        obtain ⟨new', hL, hP, hPw⟩ := ih rest (acc ++ [entry]) hS1r hS2r
        refine ⟨entry :: new', ?_, ?_, ?_⟩
        · rw [hL, List.append_assoc]
          rfl
        · intro e he
          rcases List.mem_cons.mp he with rfl | he'
          · exact ⟨hEI, by rw [hEW]; exact hOKit.2,
              it, List.mem_cons_self _ _, by rw [hEN]; exact isDesc_refl _⟩
          · obtain ⟨hei, hw, i, hi, hdsc⟩ := hP e he'
            exact ⟨hei, hw, i, List.mem_cons_of_mem _ hi, hdsc⟩
        · refine List.Pairwise.cons ?_ hPw
          intro e' he' heq
          obtain ⟨-, -, i, hi, hdsc⟩ := hP e' he'
          exact hDisj i hi (entryNodeQ e'.tileID.wrap e')
            (by rw [← hEN, ← heq]; exact isDesc_refl _) hdsc
      have hinr : ∀ (fv : Bool) (children : List (MercStackNode α)),
          mercCoverStep A maxZoom overscaledZ minZoom r cameraPointX cameraPointY
            centerPointX centerPointY it fv = .inr children →
          ∃ new,
            mercCoverLoop A maxZoom overscaledZ minZoom r cameraPointX cameraPointY
                centerPointX centerPointY n (children ++ rest) acc = acc ++ new ∧
            (∀ e ∈ new,
              mercEntryInv maxZoom overscaledZ minZoom centerPointX centerPointY e ∧
              (-3 ≤ e.tileID.wrap ∧ e.tileID.wrap ≤ 3) ∧
              ∃ i ∈ it :: rest, isDesc (mercNodeQ i) (entryNodeQ e.tileID.wrap e)) ∧
            List.Pairwise (fun e e' =>
              entryNodeQ e.tileID.wrap e ≠ entryNodeQ e'.tileID.wrap e') new := by
        intro fv children hstep
        obtain ⟨hCs, hCpw⟩ := mercCoverStep_inr A maxZoom overscaledZ minZoom r
          cameraPointX cameraPointY centerPointX centerPointY it fv children
          hOKit.1 hstep
        have hS1' : ∀ i ∈ children ++ rest,
            mercNodeOK maxZoom i ∧ -3 ≤ i.wrap ∧ i.wrap ≤ 3 := by
          intro i hi
          rcases List.mem_append.mp hi with h | h
          · exact ⟨(hCs i h).1, by rw [(hCs i h).2.2]; exact hOKit.2⟩
          · exact hS1r i h
        have hS2' : List.Pairwise (fun n n' => subtreeDisjoint (mercNodeQ n)
            (mercNodeQ n')) (children ++ rest) := by
          rw [List.pairwise_append]
          refine ⟨hCpw, hS2r, ?_⟩
          intro c hc rr hr
          exact subtreeDisjoint_of_desc _ _ _ (hCs c hc).2.1 (hDisj rr hr)
        obtain ⟨new', hL, hP, hPw⟩ := ih (children ++ rest) acc hS1' hS2'
        refine ⟨new', hL, ?_, hPw⟩
        intro e he
        obtain ⟨hei, hw, i, hi, hdsc⟩ := hP e he
        rcases List.mem_append.mp hi with h | h
        · exact ⟨hei, hw, it, List.mem_cons_self _ _,
            isDesc_trans _ _ _ (hCs i h).2.1 hdsc⟩
        · exact ⟨hei, hw, i, List.mem_cons_of_mem _ h, hdsc⟩
      simp only [mercCoverLoop]
      cases hfv : it.fullyVisible with
      | true =>
        rw [if_pos rfl]
        cases hstep : mercCoverStep A maxZoom overscaledZ minZoom r cameraPointX
            cameraPointY centerPointX centerPointY it true with
        | inl entry =>
          dsimp only
          rw [hstep]
          exact hinl true entry hstep
        | inr children =>
          dsimp only
          rw [hstep]
          exact hinr true children hstep
      | false =>
        rw [if_neg Bool.false_ne_true]
        cases hvr : A.aabbIntersects it.aabb with
        | None =>
          dsimp only
          exact hskip
        | Part =>
          dsimp only
          cases hstep : mercCoverStep A maxZoom overscaledZ minZoom r cameraPointX
              cameraPointY centerPointX centerPointY it false with
          | inl entry =>
            dsimp only
            exact hinl false entry hstep
          | inr children =>
            dsimp only
            exact hinr false children hstep
        | Full =>
          dsimp only
          cases hstep : mercCoverStep A maxZoom overscaledZ minZoom r cameraPointX
              cameraPointY centerPointX centerPointY it true with
          | inl entry =>
            dsimp only
            exact hinl true entry hstep
          | inr children =>
            dsimp only
            exact hinr true children hstep

/-- Assembled properties of globeCoveringTiles under defined minzoom/maxzoom:
canonical zooms within [minzoom, maxzoom], pairwise distinct
(overscaledZ, wrap, x, y) keys, output sorted by non-decreasing squared
center distance, and every wrap a minimizing value among -1, 0, 1. -/
theorem globeCoveringTiles_props (A : GlobeCoverArgs) (mn mx : ℤ)
    (hmn : A.minzoom = some mn) (hmx : A.maxzoom = some mx)
    (h0 : 0 ≤ mn) (hmm : mn ≤ mx)
    (hCY0 : 0 ≤ A.centerY) (hCY1 : A.centerY ≤ 1) :
    (∀ t ∈ globeCoveringTiles A, mn ≤ (t.canonZ : ℤ) ∧ (t.canonZ : ℤ) ≤ mx) ∧
    List.Pairwise (fun t t' => tileKey t ≠ tileKey t') (globeCoveringTiles A) ∧
    List.Pairwise (fun t t' => globeDistanceSqKey A t ≤ globeDistanceSqKey A t')
      (globeCoveringTiles A) ∧
    (∀ t ∈ globeCoveringTiles A, globeWrapOK A t) := by
  simp only [globeCoveringTiles]
  rw [hmn]
  dsimp only
  by_cases hE : A.zIn < mn
  · rw [if_pos (decide_eq_true hE)]
    simp
  · rw [if_neg (by simp only [decide_eq_true_eq]; exact hE)]
    push_neg at hE
    have hgz : globeCoverZ A = if A.zIn > mx then mx else A.zIn := by
      unfold globeCoverZ
      rw [hmx]
    have hz0 : 0 ≤ globeCoverZ A := by rw [hgz]; split_ifs <;> omega
    have hzmn : mn ≤ globeCoverZ A := by rw [hgz]; split_ifs <;> omega
    have hzmx : globeCoverZ A ≤ mx := by rw [hgz]; split_ifs <;> omega
    have hS1 : ∀ i ∈ [(⟨0, 0, 0, false⟩ : GlobeStackNode)],
        globeNodeOK (globeCoverZ A) i := by
      intro i hi
      simp only [List.mem_singleton] at hi
      subst hi
      refine ⟨?_, by norm_num, by norm_num⟩
      simpa using hz0
    have hS2 : List.Pairwise
        (fun n n' => subtreeDisjoint (globeNodeQ n) (globeNodeQ n'))
        [(⟨0, 0, 0, false⟩ : GlobeStackNode)] := by simp
    obtain ⟨new, hL, hP, hPw⟩ := globeCoverLoop_master A (globeCoverZ A)
      (if A.reparseOverscaled then A.zIn else globeCoverZ A)
      (2 ^ globeCoverZ A * A.cameraX) (2 ^ globeCoverZ A * A.cameraY)
      (2 ^ globeCoverZ A * A.centerX) (2 ^ globeCoverZ A * A.centerY)
      hCY0 hCY1 (treeSize (globeCoverZ A).toNat) [⟨0, 0, 0, false⟩] [] hS1 hS2
    rw [hL, List.nil_append]
    have hsorted := @List.sorted_mergeSort CoverResultEntry
      (fun a b => decide (a.distanceSq ≤ b.distanceSq))
      (fun a b c hab hbc => by
        simp only [decide_eq_true_eq] at hab hbc ⊢
        exact le_trans hab hbc)
      (fun a b => by
        simp only [Bool.or_eq_true, decide_eq_true_eq]
        exact le_total _ _)
      new
    have hmemS : ∀ e, e ∈ new.mergeSort
        (fun a b : CoverResultEntry => decide (a.distanceSq ≤ b.distanceSq)) →
        e ∈ new := fun e he => List.mem_mergeSort.mp he
    refine ⟨?_, ?_, ?_, ?_⟩
    · intro t ht
      obtain ⟨e, he, rfl⟩ := List.mem_map.mp ht
      obtain ⟨⟨hz1, -, -, -, -⟩, -, -⟩ := hP e (hmemS e he)
      omega
    · rw [List.pairwise_map]
      have hperm := List.mergeSort_perm new
        (fun a b : CoverResultEntry => decide (a.distanceSq ≤ b.distanceSq))
      have hsymm : ∀ {x y : CoverResultEntry},
          tileKey x.tileID ≠ tileKey y.tileID →
          tileKey y.tileID ≠ tileKey x.tileID :=
        fun h heq => h heq.symm
      rw [List.Perm.pairwise_iff hsymm hperm]
      refine List.Pairwise.imp_of_mem ?_ hPw
      intro e e' he he' hne hkeq
      obtain ⟨⟨hz1, -, -, -, -⟩, -, -⟩ := hP e he
      obtain ⟨⟨hz2, -, -, -, -⟩, -, -⟩ := hP e' he'
      apply hne
      simp only [tileKey, Prod.mk.injEq] at hkeq
      obtain ⟨-, -, hx, hy⟩ := hkeq
      simp only [entryNodeQ, QNode.mk.injEq]
      exact ⟨trivial, by omega, hx, hy⟩
    · rw [List.pairwise_map]
      refine List.Pairwise.imp_of_mem ?_ hsorted
      intro e e' he he' hle
      rw [decide_eq_true_eq] at hle
      have h1 : e.distanceSq = globeDistanceSqKey A e.tileID :=
        (hP e (hmemS e he)).1.2.2.2.2
      have h2 : e'.distanceSq = globeDistanceSqKey A e'.tileID :=
        (hP e' (hmemS e' he')).1.2.2.2.2
      rw [h1, h2] at hle
      exact hle
    · intro t ht
      obtain ⟨e, he, rfl⟩ := List.mem_map.mp ht
      exact (hP e (hmemS e he)).2.1

/-- Assembled properties of MercatorTransform.coveringTiles under defined
minzoom/maxzoom: canonical zooms within [minzoom, maxzoom], pairwise distinct
(overscaledZ, wrap, x, y) keys, output sorted by non-decreasing squared
center distance, and every wrap within the root range -3..3. -/
theorem mercCoveringTiles_props {α : Type} (A : MercCoverArgs α) (mn mx : ℤ)
    (hmn : A.minzoom = some mn) (hmx : A.maxzoom = some mx)
    (h0 : 0 ≤ mn) (hmm : mn ≤ mx) :
    (∀ t ∈ mercCoveringTiles A, mn ≤ (t.canonZ : ℤ) ∧ (t.canonZ : ℤ) ≤ mx) ∧
    List.Pairwise (fun t t' => tileKey t ≠ tileKey t') (mercCoveringTiles A) ∧
    List.Pairwise (fun t t' => mercDistanceSqKey A t ≤ mercDistanceSqKey A t')
      (mercCoveringTiles A) ∧
    (∀ t ∈ mercCoveringTiles A, -3 ≤ t.wrap ∧ t.wrap ≤ 3) := by
  simp only [mercCoveringTiles]
  rw [hmn]
  dsimp only
  by_cases hE : A.zIn < mn
  · rw [if_pos (decide_eq_true hE)]
    simp
  · rw [if_neg (by simp only [decide_eq_true_eq]; exact hE)]
    push_neg at hE
    have hgz : mercCoverZ A = if A.zIn > mx then mx else A.zIn := by
      unfold mercCoverZ
      rw [hmx]
    have hz0 : 0 ≤ mercCoverZ A := by rw [hgz]; split_ifs <;> omega
    have hzmn : mn ≤ mercCoverZ A := by rw [hgz]; split_ifs <;> omega
    have hzmx : mercCoverZ A ≤ mx := by rw [hgz]; split_ifs <;> omega
    have hzin : mercCoverZ A ≤ A.zIn := by rw [hgz]; split_ifs <;> omega
    have hovz : mercCoverZ A ≤
        (if A.reparseOverscaled then A.zIn else mercCoverZ A) := by
      split_ifs
      · exact hzin
      · exact le_refl _
    have main : ∀ (minZ : ℤ) (rr : ℚ) (fuel : ℕ)
        (stack0 : List (MercStackNode α)),
        mn ≤ minZ →
        (∀ i ∈ stack0, mercNodeOK (mercCoverZ A) i ∧ -3 ≤ i.wrap ∧ i.wrap ≤ 3) →
        List.Pairwise (fun n n' => subtreeDisjoint (mercNodeQ n) (mercNodeQ n'))
          stack0 →
        (∀ t ∈ ((mercCoverLoop A (mercCoverZ A)
              (if A.reparseOverscaled then A.zIn else mercCoverZ A) minZ rr
              (2 ^ mercCoverZ A * A.cameraX) (2 ^ mercCoverZ A * A.cameraY)
              (2 ^ mercCoverZ A * A.centerX) (2 ^ mercCoverZ A * A.centerY)
              fuel stack0 []).mergeSort
              (fun a b => decide (a.distanceSq ≤ b.distanceSq))).map
            (fun a => a.tileID),
          mn ≤ (t.canonZ : ℤ) ∧ (t.canonZ : ℤ) ≤ mx) ∧
        List.Pairwise (fun t t' => tileKey t ≠ tileKey t')
          (((mercCoverLoop A (mercCoverZ A)
              (if A.reparseOverscaled then A.zIn else mercCoverZ A) minZ rr
              (2 ^ mercCoverZ A * A.cameraX) (2 ^ mercCoverZ A * A.cameraY)
              (2 ^ mercCoverZ A * A.centerX) (2 ^ mercCoverZ A * A.centerY)
              fuel stack0 []).mergeSort
              (fun a b => decide (a.distanceSq ≤ b.distanceSq))).map
            (fun a => a.tileID)) ∧
        List.Pairwise (fun t t' => mercDistanceSqKey A t ≤ mercDistanceSqKey A t')
          (((mercCoverLoop A (mercCoverZ A)
              (if A.reparseOverscaled then A.zIn else mercCoverZ A) minZ rr
              (2 ^ mercCoverZ A * A.cameraX) (2 ^ mercCoverZ A * A.cameraY)
              (2 ^ mercCoverZ A * A.centerX) (2 ^ mercCoverZ A * A.centerY)
              fuel stack0 []).mergeSort
              (fun a b => decide (a.distanceSq ≤ b.distanceSq))).map
            (fun a => a.tileID)) ∧
        (∀ t ∈ ((mercCoverLoop A (mercCoverZ A)
              (if A.reparseOverscaled then A.zIn else mercCoverZ A) minZ rr
              (2 ^ mercCoverZ A * A.cameraX) (2 ^ mercCoverZ A * A.cameraY)
              (2 ^ mercCoverZ A * A.centerX) (2 ^ mercCoverZ A * A.centerY)
              fuel stack0 []).mergeSort
              (fun a b => decide (a.distanceSq ≤ b.distanceSq))).map
            (fun a => a.tileID),
          -3 ≤ t.wrap ∧ t.wrap ≤ 3) := by
      intro minZ rr fuel stack0 hminZ hS1 hS2
      obtain ⟨new, hL, hP, hPw⟩ := mercCoverLoop_master A (mercCoverZ A)
        (if A.reparseOverscaled then A.zIn else mercCoverZ A) minZ rr
        (2 ^ mercCoverZ A * A.cameraX) (2 ^ mercCoverZ A * A.cameraY)
        (2 ^ mercCoverZ A * A.centerX) (2 ^ mercCoverZ A * A.centerY)
        fuel stack0 [] hS1 hS2
      rw [hL, List.nil_append]
      have hsorted := @List.sorted_mergeSort CoverResultEntry
        (fun a b => decide (a.distanceSq ≤ b.distanceSq))
        (fun a b c hab hbc => by
          simp only [decide_eq_true_eq] at hab hbc ⊢
          exact le_trans hab hbc)
        (fun a b => by
          simp only [Bool.or_eq_true, decide_eq_true_eq]
          exact le_total _ _)
        new
      have hmemS : ∀ e, e ∈ new.mergeSort
          (fun a b : CoverResultEntry => decide (a.distanceSq ≤ b.distanceSq)) →
          e ∈ new := fun e he => List.mem_mergeSort.mp he
      refine ⟨?_, ?_, ?_, ?_⟩
      · intro t ht
        obtain ⟨e, he, rfl⟩ := List.mem_map.mp ht
        obtain ⟨⟨hlo, hhi, -, -⟩, -, -⟩ := hP e (hmemS e he)
        rcases hlo with hlo | hlo <;> omega
      · rw [List.pairwise_map]
        have hperm := List.mergeSort_perm new
          (fun a b : CoverResultEntry => decide (a.distanceSq ≤ b.distanceSq))
        have hsymm : ∀ {x y : CoverResultEntry},
            tileKey x.tileID ≠ tileKey y.tileID →
            tileKey y.tileID ≠ tileKey x.tileID :=
          fun h heq => h heq.symm
        rw [List.Perm.pairwise_iff hsymm hperm]
        refine List.Pairwise.imp_of_mem ?_ hPw
        intro e e' he he' hne hkeq
        obtain ⟨⟨-, hhi1, hovz1, -⟩, -, -⟩ := hP e he
        obtain ⟨⟨-, hhi2, hovz2, -⟩, -, -⟩ := hP e' he'
        apply hne
        simp only [tileKey, Prod.mk.injEq] at hkeq
        obtain ⟨hoz, hwr, hx, hy⟩ := hkeq
        rw [hovz1, hovz2] at hoz
        simp only [entryNodeQ, QNode.mk.injEq]
        refine ⟨hwr, ?_, hx, hy⟩
        split_ifs at hoz <;> omega
      · rw [List.pairwise_map]
        refine List.Pairwise.imp_of_mem ?_ hsorted
        intro e e' he he' hle
        rw [decide_eq_true_eq] at hle
        have h1 : e.distanceSq = mercDistanceSqKey A e.tileID :=
          (hP e (hmemS e he)).1.2.2.2
        have h2 : e'.distanceSq = mercDistanceSqKey A e'.tileID :=
          (hP e' (hmemS e' he')).1.2.2.2
        rw [h1, h2] at hle
        exact hle
      · intro t ht
        obtain ⟨e, he, rfl⟩ := List.mem_map.mp ht
        exact (hP e (hmemS e he)).2.1
    have hminL : mn ≤
        (if A.hasTerrain = false ∧ A.pitch ≤ 60 ∧ A.edgeInsetTop < 0.1
          then mercCoverZ A else mn) := by
      split_ifs <;> omega
    have hfacts : ∀ w : ℤ,
        mercNodeOK (mercCoverZ A)
          (⟨A.rootAabb w (2 ^ mercCoverZ A), 0, 0, 0, w, false⟩ :
            MercStackNode α) := by
      intro w
      show ((0 : ℕ) : ℤ) ≤ mercCoverZ A
      simpa using hz0
    have hroot : ∀ (w w' : ℤ), w ≠ w' →
        subtreeDisjoint
          (mercNodeQ (⟨A.rootAabb w (2 ^ mercCoverZ A), 0, 0, 0, w, false⟩ :
            MercStackNode α))
          (mercNodeQ (⟨A.rootAabb w' (2 ^ mercCoverZ A), 0, 0, 0, w', false⟩ :
            MercStackNode α)) := by
      intro w w' hne
      refine subtreeDisjoint_of_same_zoom _ _ ?_ ?_
      · rfl
      · simp only [ne_eq, mercNodeQ, QNode.mk.injEq]
        intro h
        exact hne h.1
    by_cases hRW : A.renderWorldCopies = true
    · rw [if_pos hRW]
      refine main _ _ _ _ hminL ?_ ?_
      · intro i hi
        simp only [List.mem_cons, List.not_mem_nil, or_false] at hi
        rcases hi with rfl | rfl | rfl | rfl | rfl | rfl | rfl <;>
          exact ⟨hfacts _, by norm_num, by norm_num⟩
      · refine List.Pairwise.cons ?_ (List.Pairwise.cons ?_ (List.Pairwise.cons ?_
          (List.Pairwise.cons ?_ (List.Pairwise.cons ?_ (List.Pairwise.cons ?_
            (List.Pairwise.cons ?_ List.Pairwise.nil))))))
        · intro c hc
          simp only [List.mem_cons, List.not_mem_nil, or_false] at hc
          rcases hc with rfl | rfl | rfl | rfl | rfl | rfl <;> (apply hroot; norm_num)
        · intro c hc
          simp only [List.mem_cons, List.not_mem_nil, or_false] at hc
          rcases hc with rfl | rfl | rfl | rfl | rfl <;> (apply hroot; norm_num)
        · intro c hc
          simp only [List.mem_cons, List.not_mem_nil, or_false] at hc
          rcases hc with rfl | rfl | rfl | rfl <;> (apply hroot; norm_num)
        · intro c hc
          simp only [List.mem_cons, List.not_mem_nil, or_false] at hc
          rcases hc with rfl | rfl | rfl <;> (apply hroot; norm_num)
        · intro c hc
          simp only [List.mem_cons, List.not_mem_nil, or_false] at hc
          rcases hc with rfl | rfl <;> (apply hroot; norm_num)
        · intro c hc
          simp only [List.mem_cons, List.not_mem_nil, or_false] at hc
          subst hc
          apply hroot
          norm_num
        · intro c hc
          exact absurd hc (List.not_mem_nil _)
    · rw [if_neg hRW]
      refine main _ _ _ _ hminL ?_ ?_
      · intro i hi
        simp only [List.mem_singleton] at hi
        subst hi
        exact ⟨hfacts _, by norm_num, by norm_num⟩
      · simp

/-- C3: for every camera state whose options define minzoom and maxzoom
(0 ≤ minzoom ≤ maxzoom; for the globe variant the center's mercator Y lies in
the unit world), the tile lists of both coverage searches contain only tiles
with canonical zoom in [minzoom, maxzoom], contain no two tiles with the same
(overscaled zoom, wrap, x, y) key, and are sorted in non-decreasing order of
squared distance from the tile to the map center. -/
theorem C3_coverage_zoom_unique_sorted {α : Type}
    (A : GlobeCoverArgs) (B : MercCoverArgs α) (mn mx mnB mxB : ℤ)
    (hmnA : A.minzoom = some mn) (hmxA : A.maxzoom = some mx)
    (h0A : 0 ≤ mn) (hmmA : mn ≤ mx)
    (hCY0 : 0 ≤ A.centerY) (hCY1 : A.centerY ≤ 1)
    (hmnB : B.minzoom = some mnB) (hmxB : B.maxzoom = some mxB)
    (h0B : 0 ≤ mnB) (hmmB : mnB ≤ mxB) :
    ((∀ t ∈ globeCoveringTiles A, mn ≤ (t.canonZ : ℤ) ∧ (t.canonZ : ℤ) ≤ mx) ∧
     List.Pairwise (fun t t' => tileKey t ≠ tileKey t') (globeCoveringTiles A) ∧
     List.Pairwise (fun t t' => globeDistanceSqKey A t ≤ globeDistanceSqKey A t')
       (globeCoveringTiles A)) ∧
    ((∀ t ∈ mercCoveringTiles B, mnB ≤ (t.canonZ : ℤ) ∧ (t.canonZ : ℤ) ≤ mxB) ∧
     List.Pairwise (fun t t' => tileKey t ≠ tileKey t') (mercCoveringTiles B) ∧
     List.Pairwise (fun t t' => mercDistanceSqKey B t ≤ mercDistanceSqKey B t')
       (mercCoveringTiles B)) := by
  obtain ⟨hg1, hg2, hg3, -⟩ :=
    globeCoveringTiles_props A mn mx hmnA hmxA h0A hmmA hCY0 hCY1
  obtain ⟨hm1, hm2, hm3, -⟩ :=
    mercCoveringTiles_props B mnB mxB hmnB hmxB h0B hmmB
  exact ⟨⟨hg1, hg2, hg3⟩, hm1, hm2, hm3⟩

/-- C3 witness: the hypotheses hold and the theorem applies on concrete
globe and mercator configurations. -/
theorem C3_coverage_zoom_unique_sorted_witness :
    (globeSampleArgs.minzoom = some 0 ∧ globeSampleArgs.maxzoom = some 2 ∧
      (0 : ℤ) ≤ 0 ∧ (0 : ℤ) ≤ 2 ∧
      0 ≤ globeSampleArgs.centerY ∧ globeSampleArgs.centerY ≤ 1 ∧
      mercSampleArgs.minzoom = some 0 ∧ mercSampleArgs.maxzoom = some 0) ∧
    ((∀ t ∈ globeCoveringTiles globeSampleArgs,
        (0 : ℤ) ≤ (t.canonZ : ℤ) ∧ (t.canonZ : ℤ) ≤ 2) ∧
     List.Pairwise (fun t t' => tileKey t ≠ tileKey t')
       (globeCoveringTiles globeSampleArgs) ∧
     List.Pairwise (fun t t' =>
         globeDistanceSqKey globeSampleArgs t ≤ globeDistanceSqKey globeSampleArgs t')
       (globeCoveringTiles globeSampleArgs)) ∧
    ((∀ t ∈ mercCoveringTiles mercSampleArgs,
        (0 : ℤ) ≤ (t.canonZ : ℤ) ∧ (t.canonZ : ℤ) ≤ 0) ∧
     List.Pairwise (fun t t' => tileKey t ≠ tileKey t')
       (mercCoveringTiles mercSampleArgs) ∧
     List.Pairwise (fun t t' =>
         mercDistanceSqKey mercSampleArgs t ≤ mercDistanceSqKey mercSampleArgs t')
       (mercCoveringTiles mercSampleArgs)) :=
  ⟨⟨rfl, rfl, le_refl _, by norm_num, by norm_num [globeSampleArgs],
      by norm_num [globeSampleArgs], rfl, rfl⟩,
    C3_coverage_zoom_unique_sorted globeSampleArgs mercSampleArgs 0 2 0 0
      rfl rfl (le_refl _) (by norm_num) (by norm_num [globeSampleArgs])
      (by norm_num [globeSampleArgs]) rfl rfl (le_refl _) (le_refl _)⟩

/-- On the concrete world-copies configuration, the mercator traversal emits
entries with wrap 3 and wrap -3 (evaluated directly: at target zoom 0 each of
the seven root tiles is emitted). -/
theorem mercSampleLoop_wraps :
    (∃ e ∈ mercCoverLoop mercSampleArgs (mercCoverZ mercSampleArgs)
      (if mercSampleArgs.reparseOverscaled then mercSampleArgs.zIn
       else mercCoverZ mercSampleArgs)
      (if mercSampleArgs.hasTerrain = false ∧ mercSampleArgs.pitch ≤ 60 ∧
          mercSampleArgs.edgeInsetTop < 0.1 then mercCoverZ mercSampleArgs
       else (match mercSampleArgs.minzoom with | some mn => mn | none => 0))
      (if mercSampleArgs.hasTerrain then
        2 / min mercSampleArgs.transformTileSize mercSampleArgs.optionsTileSize *
          mercSampleArgs.transformTileSize
       else 3)
      (2 ^ mercCoverZ mercSampleArgs * mercSampleArgs.cameraX)
      (2 ^ mercCoverZ mercSampleArgs * mercSampleArgs.cameraY)
      (2 ^ mercCoverZ mercSampleArgs * mercSampleArgs.centerX)
      (2 ^ mercCoverZ mercSampleArgs * mercSampleArgs.centerY)
      7
      [⟨mercSampleArgs.rootAabb 0 (2 ^ mercCoverZ mercSampleArgs),
         0, 0, 0, 0, false⟩,
       ⟨mercSampleArgs.rootAabb 3 (2 ^ mercCoverZ mercSampleArgs),
         0, 0, 0, 3, false⟩,
       ⟨mercSampleArgs.rootAabb (-3) (2 ^ mercCoverZ mercSampleArgs),
         0, 0, 0, -3, false⟩,
       ⟨mercSampleArgs.rootAabb 2 (2 ^ mercCoverZ mercSampleArgs),
         0, 0, 0, 2, false⟩,
       ⟨mercSampleArgs.rootAabb (-2) (2 ^ mercCoverZ mercSampleArgs),
         0, 0, 0, -2, false⟩,
       ⟨mercSampleArgs.rootAabb 1 (2 ^ mercCoverZ mercSampleArgs),
         0, 0, 0, 1, false⟩,
       ⟨mercSampleArgs.rootAabb (-1) (2 ^ mercCoverZ mercSampleArgs),
         0, 0, 0, -1, false⟩]
      [], e.tileID.wrap = 3) ∧
    (∃ e ∈ mercCoverLoop mercSampleArgs (mercCoverZ mercSampleArgs)
      (if mercSampleArgs.reparseOverscaled then mercSampleArgs.zIn
       else mercCoverZ mercSampleArgs)
      (if mercSampleArgs.hasTerrain = false ∧ mercSampleArgs.pitch ≤ 60 ∧
          mercSampleArgs.edgeInsetTop < 0.1 then mercCoverZ mercSampleArgs
       else (match mercSampleArgs.minzoom with | some mn => mn | none => 0))
      (if mercSampleArgs.hasTerrain then
        2 / min mercSampleArgs.transformTileSize mercSampleArgs.optionsTileSize *
          mercSampleArgs.transformTileSize
       else 3)
      (2 ^ mercCoverZ mercSampleArgs * mercSampleArgs.cameraX)
      (2 ^ mercCoverZ mercSampleArgs * mercSampleArgs.cameraY)
      (2 ^ mercCoverZ mercSampleArgs * mercSampleArgs.centerX)
      (2 ^ mercCoverZ mercSampleArgs * mercSampleArgs.centerY)
      7
      [⟨mercSampleArgs.rootAabb 0 (2 ^ mercCoverZ mercSampleArgs),
         0, 0, 0, 0, false⟩,
       ⟨mercSampleArgs.rootAabb 3 (2 ^ mercCoverZ mercSampleArgs),
         0, 0, 0, 3, false⟩,
       ⟨mercSampleArgs.rootAabb (-3) (2 ^ mercCoverZ mercSampleArgs),
         0, 0, 0, -3, false⟩,
       ⟨mercSampleArgs.rootAabb 2 (2 ^ mercCoverZ mercSampleArgs),
         0, 0, 0, 2, false⟩,
       ⟨mercSampleArgs.rootAabb (-2) (2 ^ mercCoverZ mercSampleArgs),
         0, 0, 0, -2, false⟩,
       ⟨mercSampleArgs.rootAabb 1 (2 ^ mercCoverZ mercSampleArgs),
         0, 0, 0, 1, false⟩,
       ⟨mercSampleArgs.rootAabb (-1) (2 ^ mercCoverZ mercSampleArgs),
         0, 0, 0, -1, false⟩]
      [], e.tileID.wrap = -3) := by
  constructor <;> norm_num [mercCoverLoop, mercCoverStep, mercCoverZ, mercSampleArgs]

/-- The mercator coverage output of the concrete world-copies configuration
contains tiles with wrap 3 and wrap -3. -/
theorem mercSample_emits_extreme_wraps :
    (∃ t ∈ mercCoveringTiles mercSampleArgs, t.wrap = 3) ∧
    (∃ t ∈ mercCoveringTiles mercSampleArgs, t.wrap = -3) := by
  obtain ⟨⟨e3, he3, hw3⟩, ⟨em3, hem3, hwm3⟩⟩ := mercSampleLoop_wraps
  simp only [mercCoveringTiles]
  rw [show (match mercSampleArgs.minzoom with
      | some mn => decide (mercSampleArgs.zIn < mn) | none => false) = false from rfl]
  rw [if_neg Bool.false_ne_true]
  rw [if_pos (show mercSampleArgs.renderWorldCopies = true from rfl)]
  rw [show ([⟨mercSampleArgs.rootAabb 0 (2 ^ mercCoverZ mercSampleArgs),
         0, 0, 0, 0, false⟩,
       ⟨mercSampleArgs.rootAabb 3 (2 ^ mercCoverZ mercSampleArgs),
         0, 0, 0, 3, false⟩,
       ⟨mercSampleArgs.rootAabb (-3) (2 ^ mercCoverZ mercSampleArgs),
         0, 0, 0, -3, false⟩,
       ⟨mercSampleArgs.rootAabb 2 (2 ^ mercCoverZ mercSampleArgs),
         0, 0, 0, 2, false⟩,
       ⟨mercSampleArgs.rootAabb (-2) (2 ^ mercCoverZ mercSampleArgs),
         0, 0, 0, -2, false⟩,
       ⟨mercSampleArgs.rootAabb 1 (2 ^ mercCoverZ mercSampleArgs),
         0, 0, 0, 1, false⟩,
       ⟨mercSampleArgs.rootAabb (-1) (2 ^ mercCoverZ mercSampleArgs),
         0, 0, 0, -1, false⟩] :
      List (MercStackNode Unit)).length *
      treeSize (mercCoverZ mercSampleArgs).toNat = 7 from rfl]
  exact ⟨⟨e3.tileID, List.mem_map_of_mem _ (List.mem_mergeSort.mpr he3), hw3⟩,
    ⟨em3.tileID, List.mem_map_of_mem _ (List.mem_mergeSort.mpr hem3), hwm3⟩⟩

/-- C10: every tile emitted by the globe coverage search carries a wrap in
{-1, 0, 1}, chosen among the tile and its immediate left/right world copies
as one minimizing the horizontal distance to the map center; the flat
(mercator) variant instead emits wraps in the root range -3..3, and with
world copies rendered it does emit wraps 3 and -3. -/
theorem C10_globe_wrap_minimizing {α : Type}
    (A : GlobeCoverArgs) (B : MercCoverArgs α) (mn mx mnB mxB : ℤ)
    (hmnA : A.minzoom = some mn) (hmxA : A.maxzoom = some mx)
    (h0A : 0 ≤ mn) (hmmA : mn ≤ mx)
    (hCY0 : 0 ≤ A.centerY) (hCY1 : A.centerY ≤ 1)
    (hmnB : B.minzoom = some mnB) (hmxB : B.maxzoom = some mxB)
    (h0B : 0 ≤ mnB) (hmmB : mnB ≤ mxB) :
    (∀ t ∈ globeCoveringTiles A, globeWrapOK A t) ∧
    (∀ t ∈ mercCoveringTiles B, -3 ≤ t.wrap ∧ t.wrap ≤ 3) ∧
    (∃ t ∈ mercCoveringTiles mercSampleArgs, t.wrap = 3) ∧
    (∃ t ∈ mercCoveringTiles mercSampleArgs, t.wrap = -3) :=
  ⟨(globeCoveringTiles_props A mn mx hmnA hmxA h0A hmmA hCY0 hCY1).2.2.2,
   (mercCoveringTiles_props B mnB mxB hmnB hmxB h0B hmmB).2.2.2,
   mercSample_emits_extreme_wraps.1,
   mercSample_emits_extreme_wraps.2⟩

/-- C10 witness: the hypotheses hold and the theorem applies on concrete
globe and mercator configurations. -/
theorem C10_globe_wrap_minimizing_witness :
    (globeSampleArgs.minzoom = some 0 ∧ globeSampleArgs.maxzoom = some 2 ∧
      0 ≤ globeSampleArgs.centerY ∧ globeSampleArgs.centerY ≤ 1 ∧
      mercSampleArgs.minzoom = some 0 ∧ mercSampleArgs.maxzoom = some 0) ∧
    (∀ t ∈ globeCoveringTiles globeSampleArgs, globeWrapOK globeSampleArgs t) ∧
    (∀ t ∈ mercCoveringTiles mercSampleArgs, -3 ≤ t.wrap ∧ t.wrap ≤ 3) ∧
    (∃ t ∈ mercCoveringTiles mercSampleArgs, t.wrap = 3) ∧
    (∃ t ∈ mercCoveringTiles mercSampleArgs, t.wrap = -3) :=
  ⟨⟨rfl, rfl, by norm_num [globeSampleArgs], by norm_num [globeSampleArgs],
      rfl, rfl⟩,
    C10_globe_wrap_minimizing globeSampleArgs mercSampleArgs 0 2 0 0
      rfl rfl (le_refl _) (by norm_num) (by norm_num [globeSampleArgs])
      (by norm_num [globeSampleArgs]) rfl rfl (le_refl _) (le_refl _)⟩

/-! ## C8 -/

/-- C8 counterexample: a zoom-threshold transition started 100 ms ago (so it
is still easing), the globe toggle last changed long ago, no error transition
and no pending read-back; the code's isRenderingDirty nevertheless reports
false, because its first disjunct is keyed on the globe-toggle timestamp
only. -/
theorem C8_counterexample :
    zoomTransitionInProgress 9900 10000 ∧
      isRenderingDirty ⟨-1000, -1000, none⟩ 10000 = false := by
  constructor
  · unfold zoomTransitionInProgress zoomTransitionTimeSeconds
    norm_num
  · unfold isRenderingDirty
    norm_num [globeTransitionTimeSeconds, zoomTransitionTimeSeconds,
      errorTransitionTimeSeconds]

/-- C8 (amended): isRenderingDirty returns true whenever the globe-toggle
transition is in progress, or the error-correction smoothing transition is in
progress, or a read-back is pending.  (A zoom-threshold transition by itself
does not make it true; see the counterexample.) -/
theorem C8_dirty_amended (s : DirtyState) (now : ℚ) :
    (globeToggleTransitionInProgress s.lastGlobeChangeTime now →
        isRenderingDirty s now = true) ∧
    (errorTransitionInProgress s.errorMeasurementLastChangeTime now →
        isRenderingDirty s now = true) ∧
    (s.readbackQueue.isSome = true → isRenderingDirty s now = true) := by
  unfold isRenderingDirty globeToggleTransitionInProgress errorTransitionInProgress
  unfold globeTransitionTimeSeconds zoomTransitionTimeSeconds errorTransitionTimeSeconds
  refine ⟨fun h => ?_, fun h => ?_, fun h => ?_⟩ <;>
    simp only [Bool.false_or, Bool.or_eq_true, decide_eq_true_eq]
  · left; left
    rw [max_self]
    linarith
  · left; right
    linarith
  · right; exact h

/-- C8 witness for the amended theorem: each of the three conditions, at a
concrete state, forces isRenderingDirty to report true. -/
theorem C8_dirty_amended_witness :
    isRenderingDirty ⟨10000, -1000, none⟩ 10000 = true ∧
      isRenderingDirty ⟨-1000, 10000, none⟩ 10000 = true ∧
      isRenderingDirty ⟨-1000, -1000, some ⟨0, 0⟩⟩ 10000 = true :=
  ⟨(C8_dirty_amended ⟨10000, -1000, none⟩ 10000).1 (by
      unfold globeToggleTransitionInProgress globeTransitionTimeSeconds; norm_num),
   (C8_dirty_amended ⟨-1000, 10000, none⟩ 10000).2.1 (by
      unfold errorTransitionInProgress errorTransitionTimeSeconds; norm_num),
   (C8_dirty_amended ⟨-1000, -1000, some ⟨0, 0⟩⟩ 10000).2.2 (by rfl)⟩

end MaplibreProof
